import Mathlib

/-!
# Verification of the transcript verify/fix pipeline

A shallow embedding of `webinar_processor/services/transcript_verifier_service.py`
and `webinar_processor/services/transcript_fixer_service.py`, together with
theorems settling the specification claims about them.

Modelling conventions:
* Python strings are sequences of code points, modelled as `List Char` (`Str`).
* Python/JSON dynamic values are modelled by the inductive `JVal`.  Python
  distinguishes `int` from `float`; floats are modelled as exact rationals
  (`ℚ`), which is faithful for the decimal literals that appear in reports
  (Python's `repr`/`json` round-trips every float exactly).
* Python exceptions are modelled with `Except PyErr`; the constructors mirror
  the exception classes the code raises or catches.  Exception message TEXT is
  modelled up to the formatting of embedded values (e.g. the rendering of a
  Python `set` in a message is canonicalised), since only which-invariant-is
  -named matters for the claims.
* `dict` is insertion-ordered; it is modelled as an association list where
  inserting an existing key updates it in place.
-/

/- Mathlib marks the core rational-arithmetic operations `@[irreducible]`,
which blocks `decide`/`rfl` evaluation of the embedded code on concrete
inputs; restore their natural reducibility for this development. -/
attribute [local semireducible] Rat.mul Rat.add Rat.sub Rat.inv

namespace WebinarProc

/-- A Python string: a sequence of code points. -/
abbrev Str := List Char

/-- Shorthand turning a Lean string literal into the `Str` model. -/
def S (s : String) : Str := s.data

/-- Python `str.isspace`-style whitespace for `split`/`strip` (the ASCII part,
which is all the code relies on). -/
def pyWs (c : Char) : Bool :=
  c = ' ' || c = '\t' || c = '\n' || c = '\r' || c = '\x0b' || c = '\x0c'

/-- `str.strip()`: drop whitespace from both ends. -/
def pyStrip (s : Str) : Str :=
  (s.dropWhile pyWs).reverse.dropWhile pyWs |>.reverse

/-- Auxiliary for `pySplitWs`: accumulate the current word (reversed). -/
def pySplitWsAux : Str → Str → List Str
  | [], acc => if acc.isEmpty then [] else [acc.reverse]
  | c :: cs, acc =>
    if pyWs c then
      if acc.isEmpty then pySplitWsAux cs [] else acc.reverse :: pySplitWsAux cs []
    else pySplitWsAux cs (c :: acc)

/-- `str.split()` with no argument: split on whitespace runs, no empty parts. -/
def pySplitWs (s : Str) : List Str := pySplitWsAux s []

/-- `" ".join ws`. -/
def joinSpace (ws : List Str) : Str :=
  match ws with
  | [] => []
  | w :: rest => w ++ (rest.flatMap (fun x => ' ' :: x))

/-- `"\n".join ls`. -/
def joinNl (ls : List Str) : Str :=
  match ls with
  | [] => []
  | l :: rest => l ++ (rest.flatMap (fun x => '\n' :: x))

/-- Split at every newline character (Python `text.split("\n")` semantics:
always at least one part, empty parts kept). -/
def splitNl : Str → List Str
  | [] => [[]]
  | c :: cs =>
    if c = '\n' then [] :: splitNl cs
    else match splitNl cs with
      | [] => [[c]]
      | l :: ls => (c :: l) :: ls

/-- Decimal digit character of `d` (`d < 10`). -/
def digCh (d : Nat) : Char := Char.ofNat (48 + d % 10)

/-- Decimal digits of `n`, most significant first, prepended to `acc`
(structural on a fuel bound, so that it reduces by `rfl`/`decide`). -/
def natChsAux : Nat → Nat → Str → Str
  | 0, _, acc => acc
  | fuel + 1, n, acc =>
    if n < 10 then digCh n :: acc
    else natChsAux fuel (n / 10) (digCh (n % 10) :: acc)

/-- Decimal digit string of a natural number. -/
def natChs (n : Nat) : Str := natChsAux (n + 1) n []

/-- Decimal rendering of an integer, Python `str(i)` style. -/
def intChs (i : Int) : Str :=
  if i < 0 then '-' :: natChs i.natAbs else natChs i.natAbs

/-- A Python/JSON dynamic value. -/
inductive JVal where
  | jnull : JVal
  | jbool : Bool → JVal
  | jint : Int → JVal
  | jfloat : ℚ → JVal
  | jstr : Str → JVal
  | jarr : List JVal → JVal
  | jobj : List (Str × JVal) → JVal

mutual

/-- Structural (Lean-level) equality test on `JVal`. -/
def jvalBEq : JVal → JVal → Bool
  | .jnull, .jnull => true
  | .jbool a, .jbool b => a = b
  | .jint a, .jint b => a = b
  | .jfloat a, .jfloat b => a = b
  | .jstr a, .jstr b => a = b
  | .jarr a, .jarr b => jvalBEqL a b
  | .jobj a, .jobj b => jvalBEqO a b
  | _, _ => false

/-- `jvalBEq`, element-wise on lists. -/
def jvalBEqL : List JVal → List JVal → Bool
  | [], [] => true
  | a :: as, b :: bs => jvalBEq a b && jvalBEqL as bs
  | _, _ => false

/-- `jvalBEq`, entry-wise on dict entry lists. -/
def jvalBEqO : List (Str × JVal) → List (Str × JVal) → Bool
  | [], [] => true
  | (k1, v1) :: as, (k2, v2) :: bs =>
    decide (k1 = k2) && jvalBEq v1 v2 && jvalBEqO as bs
  | _, _ => false

end

mutual

theorem jvalBEq_iff : ∀ a b, jvalBEq a b = true ↔ a = b
  | .jnull, b => by cases b <;> simp [jvalBEq]
  | .jbool x, b => by cases b <;> simp [jvalBEq]
  | .jint x, b => by cases b <;> simp [jvalBEq]
  | .jfloat x, b => by cases b <;> simp [jvalBEq]
  | .jstr x, b => by cases b <;> simp [jvalBEq]
  | .jarr xs, b => by
    cases b <;> simp only [jvalBEq, Bool.false_eq_true, false_iff] <;>
      try exact fun h => JVal.noConfusion h
    rename_i ys
    rw [jvalBEqL_iff xs ys]
    exact ⟨fun h => h ▸ rfl, fun h => by injection h⟩
  | .jobj xs, b => by
    cases b <;> simp only [jvalBEq, Bool.false_eq_true, false_iff] <;>
      try exact fun h => JVal.noConfusion h
    rename_i ys
    rw [jvalBEqO_iff xs ys]
    exact ⟨fun h => h ▸ rfl, fun h => by injection h⟩

theorem jvalBEqL_iff : ∀ as bs, jvalBEqL as bs = true ↔ as = bs
  | [], bs => by cases bs <;> simp [jvalBEqL]
  | a :: as, [] => by simp [jvalBEqL]
  | a :: as, b :: bs => by
    simp only [jvalBEqL, Bool.and_eq_true, jvalBEq_iff a b, jvalBEqL_iff as bs,
      List.cons.injEq]

theorem jvalBEqO_iff : ∀ as bs, jvalBEqO as bs = true ↔ as = bs
  | [], bs => by cases bs <;> simp [jvalBEqO]
  | a :: as, [] => by cases a; simp [jvalBEqO]
  | (k1, v1) :: as, (k2, v2) :: bs => by
    simp only [jvalBEqO, Bool.and_eq_true, decide_eq_true_eq,
      jvalBEq_iff v1 v2, jvalBEqO_iff as bs, List.cons.injEq, Prod.mk.injEq,
      and_assoc]

end

instance : DecidableEq JVal := fun a b => decidable_of_iff _ (jvalBEq_iff a b)

/-- Python exceptions raised or caught by the embedded code. -/
inductive PyErr where
  | typeErr : Str → PyErr
  | keyErr : Str → PyErr
  | valueErr : Str → PyErr
  | jsonDecodeErr : Str → PyErr
  | attrErr : Str → PyErr
  | indexErr : Str → PyErr
deriving DecidableEq

instance {ε α : Type} [DecidableEq ε] [DecidableEq α] :
    DecidableEq (Except ε α) := fun a b =>
  match a, b with
  | .ok x, .ok y =>
    if h : x = y then isTrue (h ▸ rfl)
    else isFalse (fun hh => h (by injection hh))
  | .error x, .error y =>
    if h : x = y then isTrue (h ▸ rfl)
    else isFalse (fun hh => h (by injection hh))
  | .ok _, .error _ => isFalse (fun hh => Except.noConfusion hh)
  | .error _, .ok _ => isFalse (fun hh => Except.noConfusion hh)

/-- Python `str(e)` of an exception: its message (modelled). -/
def PyErr.msg : PyErr → Str
  | .typeErr m => m | .keyErr m => m | .valueErr m => m
  | .jsonDecodeErr m => m | .attrErr m => m | .indexErr m => m

/-- Numeric view of a value, Python style: `bool` is an `int` subclass, so
`True` counts as `1`.  `none` for non-numbers. -/
def JVal.asNum : JVal → Option ℚ
  | .jint n => some (n : ℚ)
  | .jfloat q => some q
  | .jbool b => some (if b then 1 else 0)
  | _ => none

/-- `isinstance(v, (int, float))` (true for `bool`, an `int` subclass). -/
def JVal.isNum (v : JVal) : Bool := v.asNum.isSome

/-- Ordered-`dict` lookup. -/
def dictGet (kvs : List (Str × JVal)) (k : Str) : Option JVal :=
  match kvs with
  | [] => none
  | (k0, v0) :: rest => if k0 = k then some v0 else dictGet rest k

/-- Ordered-`dict` insertion: update an existing key in place, else append. -/
def dictSet (kvs : List (Str × JVal)) (k : Str) (v : JVal) : List (Str × JVal) :=
  match kvs with
  | [] => [(k, v)]
  | (k0, v0) :: rest =>
    if k0 = k then (k0, v) :: rest else (k0, v0) :: dictSet rest k v

/-- `d[k]` on a dynamic value: `KeyError` when the key is absent,
`TypeError` when the value is not a `dict`. -/
def JVal.sub (v : JVal) (k : Str) : Except PyErr JVal :=
  match v with
  | .jobj kvs =>
    match dictGet kvs k with
    | some x => .ok x
    | none => .error (.keyErr k)
  | _ => .error (.typeErr (S "value is not subscriptable by string"))

/-- `d.get(k, default)` on a dynamic value; `AttributeError` when not a `dict`. -/
def JVal.getD (v : JVal) (k : Str) (d : JVal) : Except PyErr JVal :=
  match v with
  | .jobj kvs =>
    match dictGet kvs k with
    | some x => .ok x
    | none => .ok d
  | _ => .error (.attrErr (S "object has no attribute get"))

/-- Python list indexing `xs[i]`: negative indices wrap once; out of range is
an `IndexError`. -/
def pyIdx (xs : List JVal) (i : Int) : Except PyErr JVal :=
  let j : Int := if i < 0 then i + xs.length else i
  if h : 0 ≤ j ∧ j.toNat < xs.length then .ok (xs.get ⟨j.toNat, h.2⟩)
  else .error (.indexErr (S "list index out of range"))

/-- Python truthiness of a dynamic value. -/
def JVal.truthy : JVal → Bool
  | .jnull => false
  | .jbool b => b
  | .jint n => n ≠ 0
  | .jfloat q => q ≠ 0
  | .jstr s => ¬ s.isEmpty
  | .jarr xs => ¬ xs.isEmpty
  | .jobj kvs => ¬ kvs.isEmpty

/-- Repeatedly multiply by 10 until the rational is an integer, returning the
number of steps and the scaled value.  Every Python float needs fewer than
the fuel's 1200 steps (floats are dyadic rationals with bounded exponent). -/
def decSplit : Nat → ℚ → Option (Nat × ℚ)
  | 0, _ => none
  | fuel + 1, q =>
    if q.den = 1 then some (0, q)
    else (decSplit fuel (q * 10)).map (fun p => (p.1 + 1, p.2))

/-- The `k` fractional digits of `r` (mod `10^k`), leading zeros kept. -/
def fracChs : Nat → Nat → Str
  | 0, _ => []
  | k + 1, r => fracChs k (r / 10) ++ [digCh r]

/-- Python `repr` of a float, under the decimal-rational model: the exact
decimal expansion with at least one fractional digit (`repr(10.0) = "10.0"`).
Scientific notation for very large/small magnitudes is outside the model. -/
def floatChs (q : ℚ) : Str :=
  match decSplit 1200 q with
  | some (k, r) =>
    let a := r.num.natAbs
    (if q < 0 then ['-'] else []) ++ natChs (a / 10 ^ k) ++
      '.' :: (if k = 0 then [digCh 0] else fracChs k (a % 10 ^ k))
  | none => S "0.0"

/-- Python `str(v)` for values embedded into messages (container rendering is
canonicalised; only scalars occur in the messages the claims inspect). -/
def jvalStr : JVal → Str
  | .jnull => S "None"
  | .jbool true => S "True"
  | .jbool false => S "False"
  | .jint n => intChs n
  | .jfloat q => floatChs q
  | .jstr s => s
  | .jarr _ => S "[...]"
  | .jobj _ => S "\x7b...\x7d"

end WebinarProc

namespace WebinarProc

/-! ## `transcript_verifier_service.validate_transcript`

Source: `src/webinar_processor/services/transcript_verifier_service.py`,
lines 42-62.  The `not isinstance(segments, list)` guard is vacuous here
because the embedding types the argument as a list.  The rendering of the
Python `set` in the missing-keys message is canonicalised to the fixed key
order of the source literal. -/

/-- The required segment keys, in the order of the source literal. -/
def requiredKeys : List Str := [S "start", S "end", S "speaker", S "text"]

/-- One of the per-segment validation failures, in source order. -/
inductive SegViol where
  | notDict : SegViol
  | missingKeys : List Str → SegViol
  | nonNumeric : SegViol
  | startAfterEnd : SegViol
  | nonMonotonic : SegViol

/-- The `ValueError` message for a violation at index `i`; `seg` is the
segment and `prev` the previous start value (initially `-1.0`). -/
def violMsg (i : Nat) (seg prev : JVal) : SegViol → Str
  | .notDict => S "Segment " ++ natChs i ++ S " is not a dict"
  | .missingKeys ks =>
    S "Segment " ++ natChs i ++ S " missing keys: " ++ joinSpace ks
  | .nonNumeric => S "Segment " ++ natChs i ++ S " has non-numeric timestamps"
  | .startAfterEnd =>
    S "Segment " ++ natChs i ++ S " has start > end (" ++
      jvalStr ((seg.sub (S "start")).toOption.getD .jnull) ++ S " > " ++
      jvalStr ((seg.sub (S "end")).toOption.getD .jnull) ++ S ")"
  | .nonMonotonic =>
    S "Segment " ++ natChs i ++ S " has non-monotonic start (" ++
      jvalStr ((seg.sub (S "start")).toOption.getD .jnull) ++ S " < " ++
      jvalStr prev ++ S ")"

/-- The first failed check for one segment, in the order of the source
(`dict`? → missing keys? → numeric? → `start > end`? → monotonic?). -/
def segViol (prevq : ℚ) (seg : JVal) : Option SegViol :=
  match seg with
  | .jobj kvs =>
    match requiredKeys.filter (fun k => (dictGet kvs k).isNone) with
    | [] =>
      let sv := (dictGet kvs (S "start")).getD .jnull
      let ev := (dictGet kvs (S "end")).getD .jnull
      match sv.asNum, ev.asNum with
      | some qs, some qe =>
        if qs > qe then some .startAfterEnd
        else if qs < prevq then some .nonMonotonic
        else none
      | _, _ => some .nonNumeric
    | ks => some (.missingKeys ks)
  | _ => some .notDict

/-- The start value a violation-free segment contributes to the chain. -/
def segStartQ (seg : JVal) : ℚ :=
  (((seg.sub (S "start")).toOption.getD .jnull).asNum).getD 0

/-- The raw start value of a segment (for message rendering). -/
def segStartV (seg : JVal) : JVal :=
  (seg.sub (S "start")).toOption.getD .jnull

/-- The validation loop of `validate_transcript` (lines 50-62): `i` is the
enumeration index, `prevq`/`prevv` the previous start as number and value. -/
def validateLoop : Nat → ℚ → JVal → List JVal → Except PyErr Unit
  | _, _, _, [] => .ok ()
  | i, prevq, prevv, seg :: rest =>
    match segViol prevq seg with
    | some v => .error (.valueErr (violMsg i seg prevv v))
    | none => validateLoop (i + 1) (segStartQ seg) (segStartV seg) rest

/-- `validate_transcript` (lines 42-62). -/
def validateTranscript (segments : List JVal) : Except PyErr Unit :=
  if segments.isEmpty then .error (.valueErr (S "Transcript is empty"))
  else validateLoop 0 (-1) (.jfloat (-1)) segments

/-! ### Specification-side predicates for claim C3 (§3 invariants) -/

/-- The end value of a segment, as a rational. -/
def segEndQ (seg : JVal) : ℚ :=
  (((seg.sub (S "end")).toOption.getD .jnull).asNum).getD 0

/-- §3 well-formedness of one segment: a dict with `start`, `end`, `speaker`,
`text` present, numeric timestamps, and `start ≤ end`. -/
def segWFb (seg : JVal) : Bool :=
  match seg with
  | .jobj kvs =>
    match requiredKeys.filter (fun k => (dictGet kvs k).isNone) with
    | [] =>
      match ((dictGet kvs (S "start")).getD .jnull).asNum,
            ((dictGet kvs (S "end")).getD .jnull).asNum with
      | some qs, some qe => decide (qs ≤ qe)
      | _, _ => false
    | _ :: _ => false
  | _ => false

/-- Non-decreasing `start` values across the sequence. -/
def startsMono : List JVal → Bool
  | [] => true
  | [_] => true
  | a :: b :: rest => decide (segStartQ a ≤ segStartQ b) && startsMono (b :: rest)

/-- The §3 invariants exactly as claim C3 states them: non-empty, every
segment well-formed, starts non-decreasing. -/
def claimSegsOk (segments : List JVal) : Bool :=
  !segments.isEmpty && segments.all segWFb && startsMono segments

/-- The amendment forced by the `-1.0` sentinel in the source: the first
segment's start must not be below `-1.0`. -/
def firstStartOk : List JVal → Bool
  | [] => true
  | seg :: _ => decide (-1 ≤ segStartQ seg)

/-- The numeric previous-start the loop carries when it reaches local index
`j`, having entered the suffix `segs` with previous start `prevq`. -/
def locPrevQ (segs : List JVal) (prevq : ℚ) : Nat → ℚ
  | 0 => prevq
  | k + 1 => match segs.get? k with
    | some s => segStartQ s
    | none => prevq

/-- The previous-start raw value at local index `j` (cf. `locPrevQ`). -/
def locPrevV (segs : List JVal) (prevv : JVal) : Nat → JVal
  | 0 => prevv
  | k + 1 => match segs.get? k with
    | some s => segStartV s
    | none => prevv

theorem segViol_none_iff (prevq : ℚ) (seg : JVal) :
    segViol prevq seg = none ↔ (segWFb seg = true ∧ prevq ≤ segStartQ seg) := by
  unfold segViol segWFb
  cases seg <;> simp
  rename_i kvs
  cases hf : requiredKeys.filter (fun k => (dictGet kvs k).isNone) with
  | cons k ks => simp
  | nil =>
    simp only []
    cases hdg : dictGet kvs (S "start") with
    | none =>
      exact absurd (List.filter_eq_nil_iff.mp hf (S "start") (by simp [requiredKeys]))
        (by simp [hdg])
    | some sv =>
      simp only [hdg, Option.getD_some]
      cases hs : sv.asNum with
      | none => simp
      | some qs =>
        have hsq : segStartQ (JVal.jobj kvs) = qs := by
          simp [segStartQ, JVal.sub, hdg, hs, Except.toOption]
        cases he : ((dictGet kvs (S "end")).getD .jnull).asNum with
        | none => simp
        | some qe =>
          simp only [hsq]
          by_cases h1 : qs > qe
          · simp [h1, not_le.mpr h1]
          · by_cases h2 : qs < prevq
            · simp [h1, h2, not_le.mpr h2]
            · simp [h1, h2, not_lt.mp h1, not_lt.mp h2]

/-- The loop succeeds iff every remaining segment is well-formed and the
starts chain upward from the carried previous start. -/
def ChainOk (prevq : ℚ) : List JVal → Prop
  | [] => True
  | seg :: rest => segWFb seg = true ∧ prevq ≤ segStartQ seg ∧ ChainOk (segStartQ seg) rest

theorem validateLoop_ok_iff :
    ∀ (segs : List JVal) (i : Nat) (prevq : ℚ) (prevv : JVal),
      validateLoop i prevq prevv segs = .ok () ↔ ChainOk prevq segs
  | [], i, prevq, prevv => by simp [validateLoop, ChainOk]
  | seg :: rest, i, prevq, prevv => by
    simp only [validateLoop, ChainOk]
    cases hv : segViol prevq seg with
    | some v =>
      constructor
      · intro h; exact absurd h (by simp)
      · rintro ⟨h1, h2, -⟩
        exact absurd ((segViol_none_iff prevq seg).mpr ⟨h1, h2⟩) (by simp [hv])
    | none =>
      have hn := (segViol_none_iff prevq seg).mp hv
      simp [validateLoop_ok_iff rest (i + 1) (segStartQ seg) (segStartV seg), hn]

/-- Lower bound of the head start (vacuous on the empty list). -/
def headLB (prevq : ℚ) : List JVal → Prop
  | [] => True
  | seg :: _ => prevq ≤ segStartQ seg

theorem chainOk_iff :
    ∀ (segs : List JVal) (prevq : ℚ),
      ChainOk prevq segs ↔
        ((∀ seg ∈ segs, segWFb seg = true) ∧ startsMono segs = true ∧
          headLB prevq segs)
  | [], prevq => by simp [ChainOk, startsMono, headLB]
  | [seg], prevq => by simp [ChainOk, startsMono, headLB]
  | a :: b :: rest, prevq => by
    have ih := chainOk_iff (b :: rest) (segStartQ a)
    simp only [ChainOk, headLB, startsMono, List.forall_mem_cons,
      Bool.and_eq_true, decide_eq_true_eq] at *
    tauto

theorem validateLoop_err :
    ∀ (segs : List JVal) (i : Nat) (prevq : ℚ) (prevv : JVal) (e : PyErr),
      validateLoop i prevq prevv segs = .error e →
      ∃ j v seg, segs.get? j = some seg ∧
        segViol (locPrevQ segs prevq j) seg = some v ∧
        e = .valueErr (violMsg (i + j) seg (locPrevV segs prevv j) v)
  | [], i, prevq, prevv, e => by simp [validateLoop]
  | seg :: rest, i, prevq, prevv, e => by
    simp only [validateLoop]
    cases hv : segViol prevq seg with
    | some v =>
      intro he
      injection he with he
      exact ⟨0, v, seg, rfl, hv, by simp [locPrevV, ← he]⟩
    | none =>
      intro he
      obtain ⟨j, v, seg2, hget, hviol, hmsg⟩ :=
        validateLoop_err rest (i + 1) (segStartQ seg) (segStartV seg) e he
      refine ⟨j + 1, v, seg2, by simpa using hget, ?_, ?_⟩
      · have : locPrevQ (seg :: rest) prevq (j + 1) =
            locPrevQ rest (segStartQ seg) j := by
          cases j with
          | zero => simp [locPrevQ]
          | succ k =>
            simp only [locPrevQ, List.get?_cons_succ]
            cases hk : rest.get? k with
            | some s => rfl
            | none =>
              have : rest.get? (k + 1) = none :=
                List.get?_eq_none.mpr (Nat.le_succ_of_le (List.get?_eq_none.mp hk))
              rw [this] at hget
              exact absurd hget (by simp)
        rw [this]; exact hviol
      · have : locPrevV (seg :: rest) prevv (j + 1) =
            locPrevV rest (segStartV seg) j := by
          cases j with
          | zero => simp [locPrevV]
          | succ k =>
            simp only [locPrevV, List.get?_cons_succ]
            cases hk : rest.get? k with
            | some s => rfl
            | none =>
              have : rest.get? (k + 1) = none :=
                List.get?_eq_none.mpr (Nat.le_succ_of_le (List.get?_eq_none.mp hk))
              rw [this] at hget
              exact absurd hget (by simp)
        rw [this, hmsg]
        have : i + (j + 1) = i + 1 + j := by omega
        rw [this]

/-! ### Claim C3 -/

/-- A §3-valid segment sequence on which `validate_transcript` nevertheless
raises: negative timestamps trip the loop's `-1.0` previous-start sentinel. -/
def c3BadSeg : JVal :=
  .jobj [(S "start", .jfloat (-5)), (S "end", .jfloat (-4)),
         (S "speaker", .jstr (S "S1")), (S "text", .jstr (S "ok"))]

/-- A plainly valid one-segment transcript, for the witness. -/
def c3GoodSeg : JVal :=
  .jobj [(S "start", .jfloat 0), (S "end", .jfloat 1),
         (S "speaker", .jstr (S "S1")), (S "text", .jstr (S "ok"))]

/-- Claim C3, counterexample: `[c3BadSeg]` satisfies every §3 invariant the
claim lists (non-empty, dict with the four keys, numeric timestamps,
`start ≤ end`, starts non-decreasing), yet `validate_transcript` raises —
the loop's `prev_start = -1.0` sentinel misreads a first start below `-1.0`
as a monotonicity violation. -/
theorem claim_c3_counterexample :
    claimSegsOk [c3BadSeg] = true ∧
    validateTranscript [c3BadSeg] =
      .error (.valueErr (S "Segment 0 has non-monotonic start (-5.0 < -1.0)")) :=
  ⟨rfl, rfl⟩

/-- Claim C3, amended with the sentinel bound the counterexample forces:
`validate_transcript` returns without raising exactly when the sequence
satisfies the §3 invariants AND its first start is at least `-1.0`; and every
error it raises either reports emptiness or renders, for some index `j`, the
first violated check at `j` (given the actual predecessor start), naming that
index and that invariant. -/
theorem claim_c3_validate_transcript (segments : List JVal) :
    (validateTranscript segments = .ok () ↔
      (claimSegsOk segments && firstStartOk segments) = true) ∧
    (∀ e, validateTranscript segments = .error e →
      (segments = [] ∧ e = .valueErr (S "Transcript is empty")) ∨
      (∃ j v seg, segments.get? j = some seg ∧
        segViol (locPrevQ segments (-1) j) seg = some v ∧
        e = .valueErr (violMsg j seg (locPrevV segments (.jfloat (-1)) j) v))) := by
  constructor
  · unfold validateTranscript
    cases segments with
    | nil => simp [claimSegsOk]
    | cons a rest =>
      rw [if_neg (by simp)]
      rw [validateLoop_ok_iff, chainOk_iff]
      simp only [claimSegsOk, firstStartOk, headLB, Bool.and_eq_true,
        List.all_eq_true, Bool.not_eq_true', List.isEmpty_cons, decide_eq_true_eq]
      tauto
  · intro e he
    unfold validateTranscript at he
    cases segments with
    | nil =>
      left
      refine ⟨rfl, ?_⟩
      simp only [List.isEmpty_nil, if_true] at he
      injection he with h
      exact h.symm
    | cons a rest =>
      right
      rw [if_neg (by simp)] at he
      simpa using validateLoop_err (a :: rest) 0 (-1) (.jfloat (-1)) e he

/-- Witness for `claim_c3_validate_transcript`: both directions discharged at
concrete transcripts. -/
theorem claim_c3_validate_transcript_witness :
    validateTranscript [c3GoodSeg] = .ok () ∧
    validateTranscript [] ≠ .ok () :=
  ⟨(claim_c3_validate_transcript [c3GoodSeg]).1.mpr rfl,
   fun h => by
     have := (claim_c3_validate_transcript []).1.mp h
     simp [claimSegsOk] at this⟩

/-! ## Heuristic rules (`transcript_verifier_service`, lines 67-202)

Unicode character classes (`str.isupper`, `str.lower`, the `[а-яА-ЯёЁ…]`
regex class) are modelled over the Latin and Cyrillic ranges the application
processes. -/

/-- Python `c.isupper()` over the modelled alphabets. -/
def pyIsUp (c : Char) : Bool :=
  ('A' ≤ c && c ≤ 'Z') || ('А' ≤ c && c ≤ 'Я') || c = 'Ё'

/-- Python `str.lower` on one character, over the modelled alphabets. -/
def pyLowCh (c : Char) : Char :=
  if 'A' ≤ c && c ≤ 'Z' then Char.ofNat (c.toNat + 32)
  else if 'А' ≤ c && c ≤ 'Я' then Char.ofNat (c.toNat + 32)
  else if c = 'Ё' then 'ё'
  else c

/-- Python `str.lower`. -/
def pyLower (s : Str) : Str := s.map pyLowCh

mutual

/-- Python `==` on dynamic values (numeric kinds compare by value, `bool`
being an `int`; containers compare element-wise). -/
def pyEq : JVal → JVal → Bool
  | .jstr a, .jstr b => decide (a = b)
  | .jnull, .jnull => true
  | .jarr a, .jarr b => pyEqL a b
  | .jobj a, .jobj b => pyEqO a b
  | a, b =>
    match a.asNum, b.asNum with
    | some x, some y => decide (x = y)
    | _, _ => false

/-- Element-wise `pyEq` on lists. -/
def pyEqL : List JVal → List JVal → Bool
  | [], [] => true
  | x :: xs, y :: ys => pyEq x y && pyEqL xs ys
  | _, _ => false

/-- Entry-wise `pyEq` on dict entry lists. -/
def pyEqO : List (Str × JVal) → List (Str × JVal) → Bool
  | [], [] => true
  | (k1, v1) :: xs, (k2, v2) :: ys => decide (k1 = k2) && pyEq v1 v2 && pyEqO xs ys
  | _, _ => false

end

/-- Banker's rounding of `s` to an integer (Python `round` ties-to-even). -/
def roundHalfEven (s : ℚ) : ℤ :=
  let f := ⌊s⌋
  let r := s - f
  if r < 1 / 2 then f
  else if 1 / 2 < r then f + 1
  else if Even f then f else f + 1

/-- Python `round(q, k)`. -/
def pyRound (q : ℚ) (k : Nat) : ℚ :=
  (roundHalfEven (q * (10 ^ k : ℕ)) : ℚ) / (10 ^ k : ℕ)

/-- `segments[idx]["text"].strip()`, the access pattern shared by all three
heuristics (`seg["text"]` must exist and be a string for `.strip()`). -/
def segTextStripped (segments : List JVal) (segIdx : Nat) : Except PyErr Str := do
  match segments.get? segIdx with
  | none => .error (.indexErr (S "list index out of range"))
  | some seg =>
    match ← seg.sub (S "text") with
    | .jstr s => .ok (pyStrip s)
    | _ => .error (.attrErr (S "object has no attribute strip"))

/-- The result of one heuristic rule: a severity plus rule evidence. -/
structure HeurHit where
  severity : Str
  evidence : List (Str × JVal)
deriving DecidableEq

/-! ### H1: `_check_repetition_loop` (lines 67-103) -/

/-- All `n`-grams of `words`, each joined with single spaces. -/
def ngramsOf (words : List Str) (n : Nat) : List Str :=
  (List.range (words.length - n + 1)).map
    (fun i => joinSpace ((words.drop i).take n))

/-- The count of the most common element (`Counter.most_common(1)`). -/
def topCountOf (l : List Str) : Nat :=
  l.foldr (fun g acc => max (l.count g) acc) 0

/-- The most common element itself (first occurrence wins ties, matching
`Counter` insertion order). -/
def topElemOf (l : List Str) : Str :=
  (l.find? (fun g => l.count g = topCountOf l)).getD []

/-- The body of the `for n in range(3, 6)` loop for one `n`. -/
def repHitForN (words : List Str) (n : Nat) : Option HeurHit :=
  if words.length < n then none
  else
    let ngs := ngramsOf words n
    let c := topCountOf ngs
    if 3 ≤ c then
      some ⟨if 5 ≤ c then S "high" else S "medium",
            [(S "repeated_phrase", .jstr (topElemOf ngs)),
             (S "repeat_count", .jint c)]⟩
    else none

/-- The first qualifying `n ∈ {3,4,5}`, if any. -/
def repHitNgrams (words : List Str) : Option HeurHit :=
  match repHitForN words 3 with
  | some h => some h
  | none =>
    match repHitForN words 4 with
    | some h => some h
    | none => repHitForN words 5

/-- The cross-segment overlap branch (lines 87-102). -/
def repHitCross (segments : List JVal) (segIdx : Nat) (text : Str) :
    Except PyErr (Option HeurHit) := do
  if segIdx = 0 then .ok none
  else
    match segments.get? (segIdx - 1), segments.get? segIdx with
    | some prev, some seg => do
      let pspk ← prev.sub (S "speaker")
      let sspk ← seg.sub (S "speaker")
      if pyEq pspk sspk then
        match ← prev.sub (S "text") with
        | .jstr pt =>
          let prevText := pyLower (pyStrip pt)
          let curText := pyLower text
          if !prevText.isEmpty && !curText.isEmpty then
            let pw := (pySplitWs prevText).dedup
            let cw := (pySplitWs curText).dedup
            if !pw.isEmpty && !cw.isEmpty then
              let inter := (pw.filter (fun w => w ∈ cw)).length
              let uni := ((pw ++ cw).dedup).length
              let overlap : ℚ := inter / (max uni 1 : ℕ)
              if 7 / 10 < overlap then
                .ok (some ⟨if 17 / 20 < overlap then S "high" else S "medium",
                  [(S "overlap_ratio", .jfloat (pyRound overlap 3))]⟩)
              else .ok none
            else .ok none
          else .ok none
        | _ => .error (.attrErr (S "object has no attribute strip"))
      else .ok none
    | _, _ => .error (.indexErr (S "list index out of range"))

/-- `_check_repetition_loop` (lines 67-103). -/
def checkRepetitionLoop (segIdx : Nat) (segments : List JVal) :
    Except PyErr (Option HeurHit) := do
  let text ← segTextStripped segments segIdx
  let words := pySplitWs text
  match repHitNgrams words with
  | some h => .ok (some h)
  | none => repHitCross segments segIdx text

/-! ### H2: `_check_long_text_no_sentence_markers` (lines 106-136) -/

/-- Sentence-terminal characters `.`, `!`, `?`. -/
def sentEnd (c : Char) : Bool := c = '.' || c = '!' || c = '?'

/-- The whitespace set of this rule (`" \t\n"`). -/
def wsLT (c : Char) : Bool := c = ' ' || c = '\t' || c = '\n'

/-- Count of positions where whitespace is immediately followed by an
uppercase letter. -/
def upAfterWs : Str → Nat
  | c :: d :: rest =>
    (if wsLT c && pyIsUp d then 1 else 0) + upAfterWs (d :: rest)
  | _ => 0

/-- `_check_long_text_no_sentence_markers` (lines 106-136). -/
def checkLongText (segIdx : Nat) (segments : List JVal) :
    Except PyErr (Option HeurHit) := do
  let text ← segTextStripped segments segIdx
  if text.length ≤ 200 then .ok none
  else
    let sentEnds := (text.filter sentEnd).length
    let punctRatio : ℚ := if text.isEmpty then 0 else (sentEnds : ℚ) / text.length
    let wsCount := (text.filter wsLT).length
    let capRatio : ℚ := (upAfterWs text : ℚ) / (max wsCount 1 : ℕ)
    if punctRatio < 5 / 1000 ∧ capRatio < 3 / 100 then
      .ok (some ⟨if punctRatio = 0 then S "high" else S "medium",
        [(S "text_length", .jint text.length),
         (S "punctuation_ratio", .jfloat (pyRound punctRatio 4)),
         (S "capitalization_ratio", .jfloat (pyRound capRatio 4))]⟩)
    else .ok none

/-! ### H3: `_check_out_of_alphabet` (lines 139-164) -/

/-- The fixed punctuation part of the allowed-character class. -/
def allowedPunct : Str :=
  ['.', ',', '!', '?', ';', ':', '-', '—', '–', '(', ')', '[', ']',
   Char.ofNat 34, Char.ofNat 39, '«', '»', '…']

/-- The `_ALLOWED_CHARS_RE` character class. -/
def allowedCh (c : Char) : Bool :=
  ('а' ≤ c && c ≤ 'я') || ('А' ≤ c && c ≤ 'Я') || c = 'ё' || c = 'Ё' ||
  ('a' ≤ c && c ≤ 'z') || ('A' ≤ c && c ≤ 'Z') || ('0' ≤ c && c ≤ '9') ||
  pyWs c || allowedPunct.contains c

/-- `_check_out_of_alphabet` (lines 145-164).  The sample string joins the
set of unexpected characters; the set's iteration order is modelled as
first-occurrence order. -/
def checkOutOfAlphabet (segIdx : Nat) (segments : List JVal) :
    Except PyErr (Option HeurHit) := do
  let text ← segTextStripped segments segIdx
  if text.isEmpty then .ok none
  else
    let unexpected := text.filter (fun c => !allowedCh c)
    let ratio : ℚ := (unexpected.length : ℚ) / text.length
    if 5 / 100 < ratio then
      let sample := unexpected.dedup.take 20
      let severity :=
        if 15 / 100 < ratio then S "high"
        else if 10 / 100 < ratio then S "medium" else S "low"
      .ok (some ⟨severity,
        [(S "symbol_ratio", .jfloat (pyRound ratio 4)),
         (S "unexpected_chars_sample", .jstr sample)]⟩)
    else .ok none

/-! ### `run_heuristics` (lines 169-202) -/

/-- A confirmed-or-synthesised LLM verdict (dataclass `LLMVerdict`). -/
structure LLMVerdict where
  decision : JVal
  confidence : ℚ
  reason : JVal

/-- Dataclass `TranscriptIssue`.  `time_range` is the two-field dict the
detector builds; its raw values are kept as `trStart`/`trEnd`. -/
structure TranscriptIssue where
  issue_id : Str
  status : Str
  severity : Str
  rule_id : Str
  segment_indices : List Int
  trStart : JVal
  trEnd : JVal
  speaker_ids : List JVal
  left_valid_index : Option Int
  right_valid_index : Option Int
  evidence : List (Str × JVal)
  llm_verdict : Option LLMVerdict := none

/-- `f"ISS-{n:03d}"`. -/
def issTag (n : Nat) : Str :=
  let s := natChs n
  S "ISS-" ++ (List.replicate (3 - s.length) '0' ++ s)

/-- The issue built at segment `segIdx` when rule `ruleId` fires
(lines 184-201). -/
def issueOf (counter : Nat) (ruleId : Str) (segIdx : Nat)
    (segments : List JVal) (hit : HeurHit) : Except PyErr TranscriptIssue := do
  match segments.get? segIdx with
  | none => .error (.indexErr (S "list index out of range"))
  | some seg => do
    let sv ← seg.sub (S "start")
    let ev ← seg.sub (S "end")
    let spk ← seg.sub (S "speaker")
    .ok { issue_id := issTag counter
          status := S "open"
          severity := hit.severity
          rule_id := ruleId
          segment_indices := [(segIdx : Int)]
          trStart := sv
          trEnd := ev
          speaker_ids := [spk]
          left_valid_index := if 0 < segIdx then some ((segIdx : Int) - 1) else none
          right_valid_index :=
            if segIdx < segments.length - 1 then some ((segIdx : Int) + 1) else none
          evidence := hit.evidence }

/-- The heuristics, in the order of the `_HEURISTICS` table (lines 169-173). -/
def heurTable : List (Str × (Nat → List JVal → Except PyErr (Option HeurHit))) :=
  [(S "repetition_loop", checkRepetitionLoop),
   (S "long_text_no_sentence_markers", checkLongText),
   (S "out_of_alphabet_symbols", checkOutOfAlphabet)]

/-- The inner rule loop at one segment, threading the issue counter. -/
def runRulesAt (segments : List JVal) (segIdx : Nat) :
    List (Str × (Nat → List JVal → Except PyErr (Option HeurHit))) → Nat →
    Except PyErr (List TranscriptIssue × Nat)
  | [], counter => .ok ([], counter)
  | (ruleId, fn) :: rules, counter => do
    match ← fn segIdx segments with
    | none => runRulesAt segments segIdx rules counter
    | some hit => do
      let iss ← issueOf (counter + 1) ruleId segIdx segments hit
      let (more, cnt) ← runRulesAt segments segIdx rules (counter + 1)
      .ok (iss :: more, cnt)

/-- The outer segment loop of `run_heuristics`. -/
def runHeurIdxs (segments : List JVal) :
    List Nat → Nat → Except PyErr (List TranscriptIssue)
  | [], _ => .ok []
  | i :: is, counter => do
    let (here, cnt) ← runRulesAt segments i heurTable counter
    let rest ← runHeurIdxs segments is cnt
    .ok (here ++ rest)

/-- `run_heuristics` (lines 176-202). -/
def runHeuristics (segments : List JVal) : Except PyErr (List TranscriptIssue) :=
  runHeurIdxs segments (List.range segments.length) 0

/-! ### Claim C9 -/

/-- 250 characters, no sentence-terminal punctuation, but heavily
capitalised: `"A "` repeated 125 times. -/
def c9Text : Str := (List.replicate 125 ['A', ' ']).flatten

/-- A segment carrying `c9Text`. -/
def c9Seg : JVal :=
  .jobj [(S "start", .jfloat 0), (S "end", .jfloat 60),
         (S "speaker", .jstr (S "S1")), (S "text", .jstr c9Text)]

set_option maxRecDepth 100000 in
/-- Claim C9, counterexample: a 250-character segment text with zero `.!?`
that the long-text rule does NOT flag — the rule also requires a low
capitalisation ratio, which this text fails. -/
theorem claim_c9_counterexample :
    c9Text.length = 250 ∧ (c9Text.filter sentEnd).length = 0 ∧
    checkLongText 0 [c9Seg] = .ok none :=
  ⟨by decide, by decide, by decide⟩

/-- Claim C9, amended: a 250-character (stripped) segment text with zero
sentence-terminal punctuation is flagged `high` PROVIDED its capitalisation
ratio is below `0.03` (the condition the spec sentence omits); and with
normal punctuation density (at least two of `.!?` in 250 characters, i.e.
ratio `≥ 0.008 > 0.005`) it is not flagged. -/
theorem claim_c9_long_text (segments : List JVal) (i : Nat) (t : Str)
    (ht : segTextStripped segments i = .ok t) (hlen : t.length = 250) :
    ((t.filter sentEnd).length = 0 →
      ((upAfterWs t : ℚ) / ((max (t.filter wsLT).length 1 : ℕ) : ℚ) < 3 / 100) →
      ∃ ev, checkLongText i segments = .ok (some ⟨S "high", ev⟩)) ∧
    (2 ≤ (t.filter sentEnd).length → checkLongText i segments = .ok none) := by
  have hne : t.isEmpty = false := by
    cases t with
    | nil => simp at hlen
    | cons c cs => rfl
  constructor
  · intro hzero hcap
    have hpr : (if t.isEmpty = true then (0 : ℚ)
        else ((t.filter sentEnd).length : ℚ) / (t.length : ℚ)) = 0 := by
      rw [hne]; simp [hzero]
    simp only [checkLongText, ht, Bind.bind, Except.bind]
    rw [if_neg (by omega), hpr]
    rw [if_pos ⟨by norm_num, hcap⟩, if_pos rfl]
    exact ⟨_, rfl⟩
  · intro hpunct
    have hpr2 : ¬((if t.isEmpty = true then (0 : ℚ)
        else ((t.filter sentEnd).length : ℚ) / (t.length : ℚ)) < 5 / 1000 ∧
        ((upAfterWs t : ℚ) / ((max (t.filter wsLT).length 1 : ℕ) : ℚ) < 3 / 100)) := by
      rw [hne, hlen]
      rintro ⟨h1, -⟩
      simp only [Bool.false_eq_true, if_false] at h1
      push_cast at h1
      rw [div_lt_iff₀ (by norm_num : (0 : ℚ) < 250)] at h1
      have h2 : (2 : ℚ) ≤ ((t.filter sentEnd).length : ℚ) := by exact_mod_cast hpunct
      linarith
    simp only [checkLongText, ht, Bind.bind, Except.bind]
    rw [if_neg (by omega), if_neg hpr2]

/-- 250 characters, lowercase, no punctuation: flagged `high`. -/
def c9TextLow : Str := (List.replicate 83 ['a', 'b', ' ']).flatten ++ ['a']

/-- 250 characters with two sentence ends: not flagged. -/
def c9TextPunct : Str := ['a', '.', 'b', '.'] ++ (List.replicate 123 [' ', 'a']).flatten

/-- Segment carrying `c9TextLow`. -/
def c9SegLow : JVal :=
  .jobj [(S "start", .jfloat 0), (S "end", .jfloat 60),
         (S "speaker", .jstr (S "S1")), (S "text", .jstr c9TextLow)]

/-- Segment carrying `c9TextPunct`. -/
def c9SegPunct : JVal :=
  .jobj [(S "start", .jfloat 0), (S "end", .jfloat 60),
         (S "speaker", .jstr (S "S1")), (S "text", .jstr c9TextPunct)]

set_option maxRecDepth 100000 in
/-- Witness for `claim_c9_long_text`, at two concrete 250-character texts. -/
theorem claim_c9_long_text_witness :
    (∃ ev, checkLongText 0 [c9SegLow] = .ok (some ⟨S "high", ev⟩)) ∧
    checkLongText 0 [c9SegPunct] = .ok none :=
  ⟨(claim_c9_long_text [c9SegLow] 0 c9TextLow rfl (by decide)).1
      (by decide)
      (by rw [show upAfterWs c9TextLow = 0 from by decide]; norm_num),
   (claim_c9_long_text [c9SegPunct] 0 c9TextPunct rfl (by decide)).2 (by decide)⟩

/-! ### Claim C8 -/

/-- The shape `run_heuristics` needs of one segment: a dict with a string
`text` and with `start`, `end`, `speaker` present. -/
def segHeurWF : JVal → Bool
  | .jobj kvs =>
    (match dictGet kvs (S "text") with
     | some (.jstr _) => true
     | _ => false) &&
    (dictGet kvs (S "start")).isSome && (dictGet kvs (S "end")).isSome &&
    (dictGet kvs (S "speaker")).isSome
  | _ => false

/-- All segments well-shaped for the heuristics. -/
def heurWF (segments : List JVal) : Bool := segments.all segHeurWF

/-! #### Splitting is invariant under `strip` -/

theorem splitAux_allWs (ws : Str) (h : ∀ c ∈ ws, pyWs c = true) :
    ∀ acc, pySplitWsAux ws acc = if acc.isEmpty then [] else [acc.reverse] := by
  induction ws with
  | nil => intro acc; rfl
  | cons c cs ih =>
    intro acc
    have hc : pyWs c = true := h c (List.mem_cons_self c cs)
    have ihe := ih (fun x hx => h x (List.mem_cons_of_mem c hx)) []
    simp only [pySplitWsAux, hc, if_true, ihe]
    cases acc <;> simp

theorem splitAux_append_ws (ws : Str) (h : ∀ c ∈ ws, pyWs c = true) :
    ∀ (s acc : Str), pySplitWsAux (s ++ ws) acc = pySplitWsAux s acc := by
  intro s
  induction s with
  | nil =>
    intro acc
    rw [List.nil_append, splitAux_allWs ws h acc]
    rfl
  | cons c cs ih =>
    intro acc
    simp only [List.cons_append, pySplitWsAux]
    by_cases hc : pyWs c = true
    · simp only [hc, if_true, List.append_eq, ih]
    · simp only [Bool.not_eq_true] at hc
      simp only [hc, Bool.false_eq_true, if_false, List.append_eq, ih]

theorem splitAux_dropWhile (s : Str) :
    pySplitWsAux (s.dropWhile pyWs) [] = pySplitWsAux s [] := by
  induction s with
  | nil => rfl
  | cons c cs ih =>
    by_cases hc : pyWs c = true
    · rw [List.dropWhile_cons_of_pos hc, ih]
      simp [pySplitWsAux, hc]
    · simp only [Bool.not_eq_true] at hc
      rw [List.dropWhile_cons_of_neg (by simp [hc])]

/-- `text.strip().split()` splits into the same words as `text.split()`. -/
theorem pySplitWs_strip (s : Str) : pySplitWs (pyStrip s) = pySplitWs s := by
  unfold pyStrip pySplitWs
  have hws : ∀ c ∈ (((s.dropWhile pyWs).reverse.takeWhile pyWs)).reverse,
      pyWs c = true := by
    intro c hc
    rw [List.mem_reverse] at hc
    exact List.mem_takeWhile_imp hc
  have hrep : (s.dropWhile pyWs) =
      ((s.dropWhile pyWs).reverse.dropWhile pyWs).reverse ++
        ((s.dropWhile pyWs).reverse.takeWhile pyWs).reverse := by
    conv_lhs => rw [← List.reverse_reverse (s.dropWhile pyWs),
      ← List.takeWhile_append_dropWhile (p := pyWs)
        (l := (s.dropWhile pyWs).reverse)]
    rw [List.reverse_append]
  calc pySplitWsAux ((s.dropWhile pyWs).reverse.dropWhile pyWs).reverse []
      = pySplitWsAux (((s.dropWhile pyWs).reverse.dropWhile pyWs).reverse ++
          ((s.dropWhile pyWs).reverse.takeWhile pyWs).reverse) [] :=
        (splitAux_append_ws _ hws _ []).symm
    _ = pySplitWsAux (s.dropWhile pyWs) [] := by rw [← hrep]
    _ = pySplitWsAux s [] := splitAux_dropWhile s

/-! #### The n-gram count bound -/

theorem count_le_fold (l : List Str) (t : Str) :
    ∀ m : List Str, t ∈ m →
      l.count t ≤ m.foldr (fun g acc => max (l.count g) acc) 0 := by
  intro m
  induction m with
  | nil => intro ht; exact absurd ht (List.not_mem_nil t)
  | cons a as ih =>
    intro ht
    rcases List.mem_cons.mp ht with rfl | h
    · exact le_max_of_le_left (le_refl _)
    · exact le_max_of_le_right (ih h)

theorem count_le_topCount (l : List Str) (t : Str) (ht : t ∈ l) :
    l.count t ≤ topCountOf l :=
  count_le_fold l t l ht

/-- A phrase repeated five times makes its leading trigram the value of at
least five of the text's 3-grams, so the top 3-gram count is at least 5. -/
theorem rep5_topCount (p : List Str) (hp : 3 ≤ p.length) :
    5 ≤ topCountOf (ngramsOf (p ++ (p ++ (p ++ (p ++ p)))) 3) := by
  have hdd : ∀ (a b : Nat) (l : List Str), l.drop (a + b) = (l.drop b).drop a := by
    intro a b l
    rw [List.drop_drop, Nat.add_comm a b]
  have hlen : (p ++ (p ++ (p ++ (p ++ p)))).length = 5 * p.length := by
    simp only [List.length_append]
    omega
  have htake : ∀ rest : List Str, (p ++ rest).take 3 = p.take 3 := by
    intro rest
    rw [List.take_append_of_le_length hp]
  have hdr : ∀ rest : List Str, (p ++ rest).drop p.length = rest := by
    intro rest
    rw [List.drop_left]
  have h1 : (p ++ (p ++ (p ++ (p ++ p)))).drop p.length = p ++ (p ++ (p ++ p)) :=
    hdr _
  have h2 : (p ++ (p ++ (p ++ (p ++ p)))).drop (2 * p.length) = p ++ (p ++ p) := by
    rw [show 2 * p.length = p.length + p.length from by ring, hdd, h1, hdr]
  have h3 : (p ++ (p ++ (p ++ (p ++ p)))).drop (3 * p.length) = p ++ p := by
    rw [show 3 * p.length = p.length + 2 * p.length from by ring, hdd, h2, hdr]
  have h4 : (p ++ (p ++ (p ++ (p ++ p)))).drop (4 * p.length) = p := by
    rw [show 4 * p.length = p.length + 3 * p.length from by ring, hdd, h3, hdr]
  have hfval : ∀ k ∈ [0, p.length, 2 * p.length, 3 * p.length, 4 * p.length],
      joinSpace (((p ++ (p ++ (p ++ (p ++ p)))).drop k).take 3)
        = joinSpace (p.take 3) := by
    intro k hk
    fin_cases hk
    · rw [List.drop_zero, htake]
    · rw [h1, htake]
    · rw [h2, htake]
    · rw [h3, htake]
    · rw [h4]
  have hN : (p ++ (p ++ (p ++ (p ++ p)))).length - 3 + 1 = 5 * p.length - 2 := by
    omega
  have hmem : ∀ k ∈ [0, p.length, 2 * p.length, 3 * p.length, 4 * p.length],
      k ∈ (List.range (5 * p.length - 2)).filter
        (fun i => joinSpace (((p ++ (p ++ (p ++ (p ++ p)))).drop i).take 3)
          == joinSpace (p.take 3)) := by
    intro k hk
    rw [List.mem_filter, List.mem_range]
    refine ⟨?_, by simp [hfval k hk]⟩
    simp only [List.mem_cons, List.mem_singleton, List.not_mem_nil,
      or_false] at hk
    rcases hk with rfl | rfl | rfl | rfl | rfl <;> omega
  have hnd : ([0, p.length, 2 * p.length, 3 * p.length, 4 * p.length] :
      List Nat).Nodup := by
    simp only [List.nodup_cons, List.mem_cons, List.mem_singleton,
      List.not_mem_nil, List.nodup_nil, not_or, not_false_eq_true, and_true,
      or_false]
    omega
  have hcard5 : ([0, p.length, 2 * p.length, 3 * p.length, 4 * p.length] :
      List Nat).toFinset.card = 5 := by
    rw [List.toFinset_card_of_nodup hnd]
    rfl
  have h5count : 5 ≤ (ngramsOf (p ++ (p ++ (p ++ (p ++ p)))) 3).count
      (joinSpace (p.take 3)) := by
    unfold ngramsOf
    rw [hN, List.count_eq_countP, List.countP_map]
    have heq : (List.range (5 * p.length - 2)).countP
        ((fun g => g == joinSpace (p.take 3)) ∘
          (fun i => joinSpace (((p ++ (p ++ (p ++ (p ++ p)))).drop i).take 3)))
        = ((List.range (5 * p.length - 2)).filter
            (fun i => joinSpace (((p ++ (p ++ (p ++ (p ++ p)))).drop i).take 3)
              == joinSpace (p.take 3))).length := by
      rw [List.countP_eq_length_filter]
      rfl
    rw [heq]
    calc 5 = ([0, p.length, 2 * p.length, 3 * p.length, 4 * p.length] :
          List Nat).toFinset.card := hcard5.symm
      _ ≤ ((List.range (5 * p.length - 2)).filter
            (fun i => joinSpace (((p ++ (p ++ (p ++ (p ++ p)))).drop i).take 3)
              == joinSpace (p.take 3))).toFinset.card := by
          refine Finset.card_le_card ?_
          intro x hx
          rw [List.mem_toFinset] at hx ⊢
          exact hmem x hx
      _ ≤ _ := List.toFinset_card_le _
  refine le_trans h5count (count_le_topCount _ _ ?_)
  unfold ngramsOf
  rw [hN]
  refine List.mem_map.mpr ⟨0, List.mem_range.mpr (by omega), ?_⟩
  rw [List.drop_zero, htake]

/-- The `n = 3` loop body fires with severity `high` on a five-fold phrase
repetition. -/
theorem repHitForN_rep5 (p : List Str) (hp : 3 ≤ p.length) :
    ∃ ev, repHitForN (p ++ (p ++ (p ++ (p ++ p)))) 3 = some ⟨S "high", ev⟩ := by
  have h5 := rep5_topCount p hp
  have hlen : (p ++ (p ++ (p ++ (p ++ p)))).length = 5 * p.length := by
    simp only [List.length_append]
    omega
  unfold repHitForN
  rw [if_neg (by omega), if_pos (by omega), if_pos h5]
  exact ⟨_, rfl⟩

/-- `_check_repetition_loop` fires with severity `high` on a segment whose
text splits into a five-fold repetition of a phrase of at least 3 words. -/
theorem checkRepetitionLoop_rep5 (segments : List JVal) (i : Nat) (seg : JVal)
    (raw : Str) (p : List Str)
    (hget : segments.get? i = some seg)
    (htext : seg.sub (S "text") = .ok (.jstr raw))
    (hsplit : pySplitWs raw = p ++ (p ++ (p ++ (p ++ p)))) (hp : 3 ≤ p.length) :
    ∃ ev, checkRepetitionLoop i segments = .ok (some ⟨S "high", ev⟩) := by
  have hst : segTextStripped segments i = .ok (pyStrip raw) := by
    unfold segTextStripped
    rw [hget]
    simp [htext, Bind.bind, Except.bind]
  have hw : pySplitWs (pyStrip raw) = p ++ (p ++ (p ++ (p ++ p))) := by
    rw [pySplitWs_strip, hsplit]
  obtain ⟨ev, hev⟩ := repHitForN_rep5 p hp
  refine ⟨ev, ?_⟩
  simp only [checkRepetitionLoop, hst, Bind.bind, Except.bind, hw,
    repHitNgrams, hev]

/-! #### Every rule succeeds on well-shaped segments -/

theorem segHeurWF_spec (seg : JVal) (h : segHeurWF seg = true) :
    ∃ kvs, seg = .jobj kvs ∧ (∃ s, dictGet kvs (S "text") = some (.jstr s)) ∧
      (dictGet kvs (S "start")).isSome = true ∧
      (dictGet kvs (S "end")).isSome = true ∧
      (dictGet kvs (S "speaker")).isSome = true := by
  cases seg <;> simp only [segHeurWF, Bool.and_eq_true] at h
  case jobj kvs =>
    obtain ⟨⟨⟨ht, hs⟩, he⟩, hsp⟩ := h
    refine ⟨kvs, rfl, ?_, hs, he, hsp⟩
    cases hdg : dictGet kvs (S "text") with
    | none => rw [hdg] at ht; simp at ht
    | some v =>
      cases v
      case jstr s2 => exact ⟨s2, rfl⟩
      all_goals (rw [hdg] at ht; simp at ht)
  all_goals simp at h

theorem segHeurWF_at (segments : List JVal) (i : Nat) (seg : JVal)
    (hwf : heurWF segments = true) (hget : segments.get? i = some seg) :
    segHeurWF seg = true := by
  have hmem : seg ∈ segments := List.get?_mem hget
  exact List.all_eq_true.mp hwf seg hmem

theorem segTextStripped_ok_of_wf (segments : List JVal) (i : Nat) (kvs : List (Str × JVal))
    (s : Str) (hget : segments.get? i = some (.jobj kvs))
    (hs : dictGet kvs (S "text") = some (.jstr s)) :
    segTextStripped segments i = .ok (pyStrip s) := by
  unfold segTextStripped
  rw [hget]
  simp [JVal.sub, hs, Bind.bind, Except.bind]

theorem exists_ok_ite3 {α : Type} {c : Prop} [Decidable c]
    {e1 e2 : Except PyErr α} (h1 : ∃ r, e1 = .ok r) (h2 : ∃ r, e2 = .ok r) :
    ∃ r, (if c then e1 else e2) = .ok r := by
  by_cases h : c
  · rw [if_pos h]; exact h1
  · rw [if_neg h]; exact h2

theorem checkLongText_ok (segments : List JVal) (i : Nat)
    (hi : i < segments.length) (hwf : heurWF segments = true) :
    ∃ r, checkLongText i segments = .ok r := by
  obtain ⟨seg, hget⟩ : ∃ seg, segments.get? i = some seg :=
    ⟨_, List.get?_eq_get hi⟩
  obtain ⟨kvs, rfl, ⟨s, hs⟩, -, -, -⟩ :=
    segHeurWF_spec seg (segHeurWF_at segments i seg hwf hget)
  have hst := segTextStripped_ok_of_wf segments i kvs s hget hs
  unfold checkLongText
  rw [hst]
  simp only [Bind.bind, Except.bind]
  exact exists_ok_ite3 ⟨none, rfl⟩ (exists_ok_ite3 ⟨_, rfl⟩ ⟨none, rfl⟩)

theorem checkOutOfAlphabet_ok (segments : List JVal) (i : Nat)
    (hi : i < segments.length) (hwf : heurWF segments = true) :
    ∃ r, checkOutOfAlphabet i segments = .ok r := by
  obtain ⟨seg, hget⟩ : ∃ seg, segments.get? i = some seg :=
    ⟨_, List.get?_eq_get hi⟩
  obtain ⟨kvs, rfl, ⟨s, hs⟩, -, -, -⟩ :=
    segHeurWF_spec seg (segHeurWF_at segments i seg hwf hget)
  have hst := segTextStripped_ok_of_wf segments i kvs s hget hs
  unfold checkOutOfAlphabet
  rw [hst]
  simp only [Bind.bind, Except.bind]
  exact exists_ok_ite3 ⟨none, rfl⟩ (exists_ok_ite3 ⟨_, rfl⟩ ⟨none, rfl⟩)

theorem checkRepetitionLoop_ok (segments : List JVal) (i : Nat)
    (hi : i < segments.length) (hwf : heurWF segments = true) :
    ∃ r, checkRepetitionLoop i segments = .ok r := by
  obtain ⟨seg, hget⟩ : ∃ seg, segments.get? i = some seg :=
    ⟨_, List.get?_eq_get hi⟩
  obtain ⟨kvs, hkvs, ⟨s, hs⟩, -, -, hspk⟩ :=
    segHeurWF_spec seg (segHeurWF_at segments i seg hwf hget)
  subst hkvs
  have hst := segTextStripped_ok_of_wf segments i kvs s hget hs
  unfold checkRepetitionLoop
  rw [hst]
  simp only [Bind.bind, Except.bind]
  cases hrn : repHitNgrams (pySplitWs (pyStrip s)) with
  | some h => exact ⟨some h, rfl⟩
  | none =>
    unfold repHitCross
    by_cases hi0 : i = 0
    · rw [if_pos hi0]; exact ⟨none, rfl⟩
    · rw [if_neg hi0]
      obtain ⟨pseg, hpg⟩ : ∃ pseg, segments.get? (i - 1) = some pseg :=
        ⟨_, List.get?_eq_get (by omega)⟩
      obtain ⟨pkvs, hpkvs, ⟨ps, hps⟩, -, -, hpspk⟩ :=
        segHeurWF_spec pseg (segHeurWF_at segments (i - 1) pseg hwf hpg)
      subst hpkvs
      rw [hpg, hget]
      obtain ⟨spv, hspv⟩ := Option.isSome_iff_exists.mp hpspk
      obtain ⟨ssv, hssv⟩ := Option.isSome_iff_exists.mp hspk
      simp only [JVal.sub, hspv, hssv, Bind.bind, Except.bind, hps]
      exact exists_ok_ite3
        (exists_ok_ite3
          (exists_ok_ite3 (exists_ok_ite3 ⟨_, rfl⟩ ⟨none, rfl⟩) ⟨none, rfl⟩)
          ⟨none, rfl⟩)
        ⟨none, rfl⟩

theorem issueOf_ok (counter : Nat) (ruleId : Str) (i : Nat)
    (segments : List JVal) (hit : HeurHit) (kvs : List (Str × JVal))
    (hget : segments.get? i = some (.jobj kvs))
    (hstart : (dictGet kvs (S "start")).isSome = true)
    (hend : (dictGet kvs (S "end")).isSome = true)
    (hspk : (dictGet kvs (S "speaker")).isSome = true) :
    ∃ iss, issueOf counter ruleId i segments hit = .ok iss ∧
      iss.rule_id = ruleId ∧ iss.severity = hit.severity ∧
      iss.segment_indices = [(i : Int)] := by
  obtain ⟨sv, hsv⟩ := Option.isSome_iff_exists.mp hstart
  obtain ⟨ev, hev⟩ := Option.isSome_iff_exists.mp hend
  obtain ⟨kv, hkv⟩ := Option.isSome_iff_exists.mp hspk
  have heq : issueOf counter ruleId i segments hit = .ok
      { issue_id := issTag counter, status := S "open",
        severity := hit.severity, rule_id := ruleId,
        segment_indices := [(i : Int)], trStart := sv, trEnd := ev,
        speaker_ids := [kv],
        left_valid_index := if 0 < i then some ((i : Int) - 1) else none,
        right_valid_index :=
          if i < segments.length - 1 then some ((i : Int) + 1) else none,
        evidence := hit.evidence } := by
    unfold issueOf
    rw [hget]
    simp [JVal.sub, hsv, hev, hkv, Bind.bind, Except.bind]
  exact ⟨_, heq, rfl, rfl, rfl⟩

/-! #### The rule and segment loops -/

theorem runRulesAt_spec (segments : List JVal) (i : Nat)
    (hi : i < segments.length) (hwf : heurWF segments = true) :
    ∀ (rules : List (Str × (Nat → List JVal → Except PyErr (Option HeurHit))))
      (counter : Nat), (∀ r ∈ rules, ∃ v, r.2 i segments = .ok v) →
    ∃ issues cnt, runRulesAt segments i rules counter = .ok (issues, cnt) ∧
      ∀ rid fn hit, (rid, fn) ∈ rules → fn i segments = .ok (some hit) →
        ∃ iss ∈ issues, iss.rule_id = rid ∧ iss.severity = hit.severity ∧
          iss.segment_indices = [(i : Int)] := by
  intro rules
  induction rules with
  | nil =>
    intro counter hok
    exact ⟨[], counter, rfl, fun rid fn hit hmem => absurd hmem (List.not_mem_nil _)⟩
  | cons r rules ih =>
    intro counter hok
    obtain ⟨rid0, fn0⟩ := r
    obtain ⟨v, hv⟩ := hok _ (List.mem_cons_self _ _)
    simp only at hv
    cases v with
    | none =>
      obtain ⟨issues, cnt, hrun, hmem⟩ :=
        ih counter (fun r hr => hok r (List.mem_cons_of_mem _ hr))
      refine ⟨issues, cnt, ?_, ?_⟩
      · simp only [runRulesAt, hv, Bind.bind, Except.bind]
        exact hrun
      · intro rid fn hit hm hfn
        rcases List.mem_cons.mp hm with heq | hm2
        · injection heq with h1 h2
          subst h1; subst h2
          rw [hfn] at hv
          exact absurd hv (by simp)
        · exact hmem rid fn hit hm2 hfn
    | some hit0 =>
      obtain ⟨seg, hget⟩ : ∃ seg, segments.get? i = some seg :=
        ⟨_, List.get?_eq_get hi⟩
      obtain ⟨kvs, hkvs, -, hstart, hend, hspk⟩ :=
        segHeurWF_spec seg (segHeurWF_at segments i seg hwf hget)
      subst hkvs
      obtain ⟨iss, hiss, hf1, hf2, hf3⟩ :=
        issueOf_ok (counter + 1) rid0 i segments hit0 kvs hget hstart hend hspk
      obtain ⟨more, cnt, hrun, hmem⟩ :=
        ih (counter + 1) (fun r hr => hok r (List.mem_cons_of_mem _ hr))
      refine ⟨iss :: more, cnt, ?_, ?_⟩
      · simp only [runRulesAt, hv, hiss, hrun, Bind.bind, Except.bind]
      · intro rid fn hit hm hfn
        rcases List.mem_cons.mp hm with heq | hm2
        · injection heq with h1 h2
          subst h1; subst h2
          rw [hfn] at hv
          injection hv with hv
          injection hv with hv
          subst hv
          exact ⟨iss, List.mem_cons_self _ _, hf1, hf2, hf3⟩
        · obtain ⟨iss2, hin, hp1, hp2, hp3⟩ := hmem rid fn hit hm2 hfn
          exact ⟨iss2, List.mem_cons_of_mem _ hin, hp1, hp2, hp3⟩

theorem heurTable_ok (segments : List JVal) (i : Nat)
    (hi : i < segments.length) (hwf : heurWF segments = true) :
    ∀ r ∈ heurTable, ∃ v, r.2 i segments = .ok v := by
  intro r hr
  simp only [heurTable, List.mem_cons, List.mem_singleton, List.not_mem_nil,
    or_false] at hr
  rcases hr with rfl | rfl | rfl
  · exact checkRepetitionLoop_ok segments i hi hwf
  · exact checkLongText_ok segments i hi hwf
  · exact checkOutOfAlphabet_ok segments i hi hwf

theorem runHeurIdxs_spec (segments : List JVal) (hwf : heurWF segments = true) :
    ∀ (idxs : List Nat) (counter : Nat), (∀ i ∈ idxs, i < segments.length) →
    ∃ issues, runHeurIdxs segments idxs counter = .ok issues ∧
      ∀ i ∈ idxs, ∀ rid fn hit, (rid, fn) ∈ heurTable →
        fn i segments = .ok (some hit) →
        ∃ iss ∈ issues, iss.rule_id = rid ∧ iss.severity = hit.severity ∧
          iss.segment_indices = [(i : Int)] := by
  intro idxs
  induction idxs with
  | nil =>
    intro counter hlt
    exact ⟨[], rfl, fun i hmem => absurd hmem (List.not_mem_nil _)⟩
  | cons j js ih =>
    intro counter hlt
    have hj : j < segments.length := hlt j (List.mem_cons_self _ _)
    obtain ⟨here, cnt, hrun1, hmem1⟩ :=
      runRulesAt_spec segments j hj hwf heurTable counter
        (heurTable_ok segments j hj hwf)
    obtain ⟨rest, hrun2, hmem2⟩ :=
      ih cnt (fun i hi => hlt i (List.mem_cons_of_mem _ hi))
    refine ⟨here ++ rest, ?_, ?_⟩
    · simp only [runHeurIdxs, hrun1, hrun2, Bind.bind, Except.bind]
    · intro i hi rid fn hit hm hfn
      rcases List.mem_cons.mp hi with rfl | hi2
      · obtain ⟨iss, hin, h1, h2, h3⟩ := hmem1 rid fn hit hm hfn
        exact ⟨iss, List.mem_append_left _ hin, h1, h2, h3⟩
      · obtain ⟨iss, hin, h1, h2, h3⟩ := hmem2 i hi2 rid fn hit hm hfn
        exact ⟨iss, List.mem_append_right _ hin, h1, h2, h3⟩

/-- Claim C8: on any transcript of well-shaped segments, if segment `i`'s
text splits into the five-fold repetition of a phrase of at least three
whitespace-separated words, `run_heuristics` succeeds and its output contains
an issue for exactly that segment with `rule_id = "repetition_loop"` and
`severity = "high"`. -/
theorem claim_c8_repetition_loop (segments : List JVal)
    (hwf : heurWF segments = true) (i : Nat) (seg : JVal) (raw : Str)
    (p : List Str) (hget : segments.get? i = some seg)
    (htext : seg.sub (S "text") = .ok (.jstr raw))
    (hsplit : pySplitWs raw = p ++ (p ++ (p ++ (p ++ p)))) (hp : 3 ≤ p.length) :
    ∃ issues, runHeuristics segments = .ok issues ∧
      ∃ iss ∈ issues, iss.rule_id = S "repetition_loop" ∧
        iss.severity = S "high" ∧ iss.segment_indices = [(i : Int)] := by
  have hi : i < segments.length := by
    by_contra hcon
    rw [List.get?_eq_none.mpr (by omega)] at hget
    exact absurd hget (by simp)
  obtain ⟨ev, hev⟩ :=
    checkRepetitionLoop_rep5 segments i seg raw p hget htext hsplit hp
  obtain ⟨issues, hrun, hmem⟩ :=
    runHeurIdxs_spec segments hwf (List.range segments.length) 0
      (fun k hk => List.mem_range.mp hk)
  refine ⟨issues, hrun, ?_⟩
  exact hmem i (List.mem_range.mpr hi) (S "repetition_loop")
    checkRepetitionLoop ⟨S "high", ev⟩ (List.mem_cons_self _ _) hev

/-- The concrete five-fold-repetition segment for the C8 witness. -/
def c8Seg : JVal :=
  .jobj [(S "start", .jfloat 0), (S "end", .jfloat 10),
         (S "speaker", .jstr (S "S1")),
         (S "text", .jstr (S "a b c a b c a b c a b c a b c"))]

/-- Witness for `claim_c8_repetition_loop` at a concrete transcript. -/
theorem claim_c8_repetition_loop_witness :
    ∃ issues, runHeuristics [c8Seg] = .ok issues ∧
      ∃ iss ∈ issues, iss.rule_id = S "repetition_loop" ∧
        iss.severity = S "high" ∧ iss.segment_indices = [(0 : Int)] :=
  claim_c8_repetition_loop [c8Seg] (by decide) 0 c8Seg
    (S "a b c a b c a b c a b c a b c") [S "a", S "b", S "c"] rfl rfl
    (by decide) (by decide)

end WebinarProc

namespace WebinarProc

/-! ## The JSON codec (`json.loads` / `json.dumps`)

An executable model of the Python standard-library JSON codec, used by the
report parser/generator and the LLM-verdict handling.
Canonicalisations: error-message text is the model's own;
`NaN`/`Infinity` literals and scientific float rendering are outside the
model (no such value appears in a report). -/

/-- JSON whitespace accepted between tokens. -/
def jsonWsCh (c : Char) : Bool := c = ' ' || c = '\t' || c = '\n' || c = '\r'

/-- Drop leading JSON whitespace. -/
def skipJWs : Str → Str
  | c :: cs => if jsonWsCh c then skipJWs cs else c :: cs
  | [] => []

/-- ASCII decimal digit test. -/
def isDig (c : Char) : Bool := '0' ≤ c && c ≤ '9'

/-- Split a leading digit run from the rest. -/
def grabDigits : Str → Str × Str
  | c :: cs =>
    if isDig c then
      let p := grabDigits cs
      (c :: p.1, p.2)
    else ([], c :: cs)
  | [] => ([], [])

/-- Accumulate digit characters into a natural number. -/
def digitsToNat (ds : Str) : Nat :=
  ds.foldl (fun a c => a * 10 + (c.toNat - 48)) 0

/-- The value of a hexadecimal digit, if it is one. -/
def hexDigVal : Char → Option Nat := fun c =>
  if '0' ≤ c && c ≤ '9' then some (c.toNat - 48)
  else if 'a' ≤ c && c ≤ 'f' then some (c.toNat - 87)
  else if 'A' ≤ c && c ≤ 'F' then some (c.toNat - 55)
  else none

/-- Lex the body of a JSON string after the opening quote; strict mode, so a
raw control character is an error.  Returns the decoded string and rest. -/
def lexJStr (acc : Str) : Str → Except Str (Str × Str)
  | [] => .error (S "unterminated string")
  | c :: rest =>
    if c = '"' then .ok (acc.reverse, rest)
    else if c = '\\' then
      match rest with
      | [] => .error (S "unterminated string")
      | e :: rest2 =>
        if e = 'u' then
          match rest2 with
          | a :: b :: c2 :: d :: rest3 =>
            (match hexDigVal a, hexDigVal b, hexDigVal c2, hexDigVal d with
             | some va, some vb, some vc, some vd =>
               lexJStr (Char.ofNat (((va * 16 + vb) * 16 + vc) * 16 + vd) :: acc)
                 rest3
             | _, _, _, _ => .error (S "invalid unicode escape"))
          | _ => .error (S "invalid unicode escape")
        else if e = '"' then lexJStr ('"' :: acc) rest2
        else if e = '\\' then lexJStr ('\\' :: acc) rest2
        else if e = '/' then lexJStr ('/' :: acc) rest2
        else if e = 'b' then lexJStr ('\x08' :: acc) rest2
        else if e = 'f' then lexJStr ('\x0c' :: acc) rest2
        else if e = 'n' then lexJStr ('\n' :: acc) rest2
        else if e = 'r' then lexJStr ('\r' :: acc) rest2
        else if e = 't' then lexJStr ('\t' :: acc) rest2
        else .error (S "invalid escape")
    else if c.toNat < 32 then .error (S "control character in string")
    else lexJStr (c :: acc) rest

/-- Lex the exponent part after `e`/`E`, scaling the mantissa. -/
def lexJExp (mant : ℚ) (cs : Str) : Except Str (JVal × Str) :=
  let sgn : Bool × Str :=
    if cs.take 1 = ['+'] then (false, cs.drop 1)
    else if cs.take 1 = ['-'] then (true, cs.drop 1)
    else (false, cs)
  let ep := grabDigits sgn.2
  if ep.1.isEmpty then .error (S "expecting exponent digits")
  else
    let e := digitsToNat ep.1
    let q : ℚ :=
      if sgn.1 then mant * Rat.divInt 1 (10 ^ e) else mant * ((10 ^ e : Int) : ℚ)
    .ok (.jfloat q, ep.2)

/-- Lex a JSON number per the RFC grammar (`-? int frac? exp?`); an integer
literal yields `jint`, anything with a fraction or exponent `jfloat`. -/
def lexJNum (cs : Str) : Except Str (JVal × Str) :=
  let sgn : Int × Str :=
    if cs.take 1 = ['-'] then (-1, cs.drop 1) else (1, cs)
  let ip := grabDigits sgn.2
  if ip.1.isEmpty then .error (S "expecting value")
  else if ip.1.length > 1 && ip.1.headI = '0' then .error (S "leading zero")
  else
    let aip : Nat := digitsToNat ip.1
    if ip.2.take 1 = ['.'] then
      let fp := grabDigits (ip.2.drop 1)
      if fp.1.isEmpty then .error (S "expecting fraction digits")
      else
        let mag : ℚ := (aip : ℚ) + Rat.divInt (digitsToNat fp.1) (10 ^ fp.1.length)
        let q : ℚ := (sgn.1 : ℚ) * mag
        if fp.2.take 1 = ['e'] || fp.2.take 1 = ['E'] then lexJExp q (fp.2.drop 1)
        else .ok (.jfloat q, fp.2)
    else if ip.2.take 1 = ['e'] || ip.2.take 1 = ['E'] then
      lexJExp ((sgn.1 * (aip : Int) : Int) : ℚ) (ip.2.drop 1)
    else .ok (.jint (sgn.1 * (aip : Int)), ip.2)

/-- Collapse duplicate keys the way the decoder's `dict` does: the first
position wins, the last value wins. -/
def dedupObj (es : List (Str × JVal)) : List (Str × JVal) :=
  es.foldl (fun acc kv => dictSet acc kv.1 kv.2) []

mutual

/-- Parse one JSON value (leading whitespace allowed).  `fuel` only bounds
the recursion; `jsonLoads` supplies more than any input can consume. -/
def parseJVal : Nat → Str → Except Str (JVal × Str)
  | 0, _ => .error (S "too deeply nested")
  | fuel + 1, cs =>
    let r := skipJWs cs
    if r.take 4 = S "null" then .ok (.jnull, r.drop 4)
    else if r.take 4 = S "true" then .ok (.jbool true, r.drop 4)
    else if r.take 5 = S "false" then .ok (.jbool false, r.drop 5)
    else if r.take 1 = ['"'] then
      (lexJStr [] (r.drop 1)).map (fun p => (.jstr p.1, p.2))
    else if r.take 1 = ['['] then
      let r2 := skipJWs (r.drop 1)
      if r2.take 1 = [']'] then .ok (.jarr [], r2.drop 1)
      else (parseJItems fuel r2).map (fun p => (.jarr p.1, p.2))
    else if r.take 1 = [Char.ofNat 123] then
      let r2 := skipJWs (r.drop 1)
      if r2.take 1 = [Char.ofNat 125] then .ok (.jobj [], r2.drop 1)
      else (parseJEntries fuel r2).map (fun p => (.jobj (dedupObj p.1), p.2))
    else lexJNum r

/-- Parse one-or-more comma-separated array items up to `]`. -/
def parseJItems : Nat → Str → Except Str (List JVal × Str)
  | 0, _ => .error (S "too deeply nested")
  | fuel + 1, cs =>
    match parseJVal fuel cs with
    | .error m => .error m
    | .ok (v, r) =>
      let r1 := skipJWs r
      if r1.take 1 = [','] then
        match parseJItems fuel (r1.drop 1) with
        | .error m => .error m
        | .ok (vs, r3) => .ok (v :: vs, r3)
      else if r1.take 1 = [']'] then .ok ([v], r1.drop 1)
      else .error (S "expecting comma or close bracket")

/-- Parse one-or-more `"key": value` members up to the closing brace. -/
def parseJEntries : Nat → Str → Except Str (List (Str × JVal) × Str)
  | 0, _ => .error (S "too deeply nested")
  | fuel + 1, cs =>
    let r0 := skipJWs cs
    if r0.take 1 = ['"'] then
      match lexJStr [] (r0.drop 1) with
      | .error m => .error m
      | .ok (k, r1) =>
        let r1s := skipJWs r1
        if r1s.take 1 = [':'] then
          match parseJVal fuel (r1s.drop 1) with
          | .error m => .error m
          | .ok (v, r3) =>
            let r3s := skipJWs r3
            if r3s.take 1 = [','] then
              match parseJEntries fuel (r3s.drop 1) with
              | .error m => .error m
              | .ok (es, r5) => .ok ((k, v) :: es, r5)
            else if r3s.take 1 = [Char.ofNat 125] then .ok ([(k, v)], r3s.drop 1)
            else .error (S "expecting comma or close brace")
        else .error (S "expecting colon")
    else .error (S "expecting property name")

end

/-- `json.loads`. -/
def jsonLoads (s : Str) : Except PyErr JVal :=
  match parseJVal (2 * s.length + 2) s with
  | .error m => .error (.jsonDecodeErr m)
  | .ok (v, r) =>
    if (skipJWs r).isEmpty then .ok v
    else .error (.jsonDecodeErr (S "extra data"))

end WebinarProc

namespace WebinarProc

/-! ## `transcript_fixer_service.parse_report` (lines 58-96)

The `_ISSUE_BLOCK_RE` regular expression is modelled at line granularity:
a block opens at a line that is the fence ` ```transcript-issue ` (plus
optional trailing whitespace) and closes at the next line that starts with
three backticks; the body is the lines in between.  This coincides with the
regex on every text whose fences sit on their own lines (in particular on
everything `generate_report` emits). -/

/-- Dataclass `ParsedIssue` (lines 22-33).  All fields keep the raw JSON
values the report supplied — the source performs no validation. -/
structure ParsedIssue where
  issue_id : JVal
  status : JVal
  segment_indices : JVal
  time_range : JVal
  left_valid_index : JVal
  right_valid_index : JVal
  severity : JVal
  rule_id : JVal
  speaker_ids : JVal
  evidence : JVal
deriving DecidableEq

/-- A line opening a fenced `transcript-issue` block. -/
def isOpenFence (l : Str) : Bool :=
  decide (l.take 19 = S "```transcript-issue") && (l.drop 19).all pyWs

/-- A line closing a fenced block (anything starting with three backticks). -/
def isCloseFence (l : Str) : Bool := decide (l.take 3 = S "```")

/-- Scan the report's lines for fenced blocks; `acc` is `some` of the
reversed body lines while inside an open block. -/
def findBlocksAux : List Str → Option (List Str) → List Str
  | [], _ => []
  | l :: ls, none =>
    if isOpenFence l then findBlocksAux ls (some [])
    else findBlocksAux ls none
  | l :: ls, some acc =>
    if isCloseFence l then joinNl acc.reverse :: findBlocksAux ls none
    else findBlocksAux ls (some (l :: acc))

/-- `_ISSUE_BLOCK_RE.findall(report_text)` (lines 58-61, 65). -/
def findIssueBlocks (text : Str) : List Str := findBlocksAux (splitNl text) none

/-- The `required` field set of `parse_report` (line 75). -/
def requiredIssueKeys : List Str :=
  [S "issue_id", S "status", S "segment_indices", S "time_range"]

/-- The loop body of `parse_report` for one block (lines 68-93): skip on
JSON failure, `.keys()` on a non-dict raises `AttributeError`, skip on a
missing required field, filter by status, else build a `ParsedIssue`. -/
def blockToIssue (blk : Str) (includeOpen : Bool) :
    Except PyErr (Option ParsedIssue) :=
  match jsonLoads blk with
  | .error _ => .ok none
  | .ok data =>
    match data with
    | .jobj kvs =>
      if requiredIssueKeys.all (fun k => (dictGet kvs k).isSome) then
        let status := (dictGet kvs (S "status")).getD .jnull
        if pyEq status (.jstr (S "accepted")) ||
            (includeOpen && pyEq status (.jstr (S "open"))) then
          .ok (some
            { issue_id := (dictGet kvs (S "issue_id")).getD .jnull
              status := status
              segment_indices := (dictGet kvs (S "segment_indices")).getD .jnull
              time_range := (dictGet kvs (S "time_range")).getD .jnull
              left_valid_index := (dictGet kvs (S "left_valid_index")).getD .jnull
              right_valid_index := (dictGet kvs (S "right_valid_index")).getD .jnull
              severity := (dictGet kvs (S "severity")).getD (.jstr [])
              rule_id := (dictGet kvs (S "rule_id")).getD (.jstr [])
              speaker_ids := (dictGet kvs (S "speaker_ids")).getD (.jarr [])
              evidence := (dictGet kvs (S "evidence")).getD (.jobj []) })
        else .ok none
      else .ok none
    | _ => .error (.attrErr (S "object has no attribute keys"))

/-- The block loop of `parse_report` (lines 66-93). -/
def collectIssues (blocks : List Str) (includeOpen : Bool) :
    Except PyErr (List ParsedIssue) :=
  match blocks with
  | [] => .ok []
  | b :: bs =>
    match blockToIssue b includeOpen with
    | .error e => .error e
    | .ok o =>
      match collectIssues bs includeOpen with
      | .error e => .error e
      | .ok rest => .ok (match o with | some i => i :: rest | none => rest)

/-- `≤` on strings by code point (Python string comparison). -/
def lexLE : Str → Str → Bool
  | [], _ => true
  | _ :: _, [] => false
  | a :: as, b :: bs => if a = b then lexLE as bs else decide (a < b)

/-- Stable insertion of a keyed element into an already-sorted list. -/
def insSorted {α : Type} (le : JVal → JVal → Bool) (x : JVal × α) :
    List (JVal × α) → List (JVal × α)
  | [] => [x]
  | y :: ys => if le y.1 x.1 then y :: insSorted le x ys else x :: y :: ys

/-- Numeric key order (defined on numeric keys). -/
def numKeyLE (a b : JVal) : Bool := decide (a.asNum.getD 0 ≤ b.asNum.getD 0)

/-- String key order (defined on string keys). -/
def strKeyLE (a b : JVal) : Bool :=
  match a, b with
  | .jstr x, .jstr y => lexLE x y
  | _, _ => false

/-- `issues.sort(key=lambda i: i.time_range["start"])` (line 95).  CPython
computes every key first (`KeyError`/`TypeError` can surface here), then
stable-sorts; sorting is modelled for all-numeric or all-string keys, and a
mixed-type key list of length ≥ 2 raises `TypeError` (CPython raises on the
comparisons it happens to attempt; no claim exercises that corner). -/
def sortIssuesByStart (issues : List ParsedIssue) :
    Except PyErr (List ParsedIssue) :=
  match issues.mapM (fun i =>
      (i.time_range.sub (S "start")).map (fun k => (k, i))) with
  | .error e => .error e
  | .ok keyed =>
    if keyed.length ≤ 1 then .ok issues
    else if keyed.all (fun p => p.1.isNum) then
      .ok ((keyed.foldl (fun acc x => insSorted numKeyLE x acc) []).map Prod.snd)
    else if keyed.all (fun p => match p.1 with | .jstr _ => true | _ => false) then
      .ok ((keyed.foldl (fun acc x => insSorted strKeyLE x acc) []).map Prod.snd)
    else .error (.typeErr (S "unorderable key types in sort"))

/-- `parse_report` (lines 64-96). -/
def parseReport (reportText : Str) (includeOpen : Bool) :
    Except PyErr (List ParsedIssue) :=
  match collectIssues (findIssueBlocks reportText) includeOpen with
  | .error e => .error e
  | .ok issues => sortIssuesByStart issues

/-! ### Claim C2 -/

/-- `list(v)` on a dynamic value (`TypeError` when not iterable). -/
def pyList (v : JVal) : Except PyErr (List JVal) :=
  match v with
  | .jarr l => .ok l
  | .jstr s => .ok (s.map (fun c => .jstr [c]))
  | .jobj kvs => .ok (kvs.map (fun kv => .jstr kv.1))
  | _ => .error (.typeErr (S "object is not iterable"))

/-- `xs[v]` with a dynamic index: only `int` (and `bool`) indices are legal. -/
def pyIdxJ (xs : List JVal) (v : JVal) : Except PyErr JVal :=
  match v with
  | .jint n => pyIdx xs n
  | .jbool b => pyIdx xs (if b then 1 else 0)
  | _ => .error (.typeErr (S "list indices must be integers"))

/-- Python `a <= b` on dynamic values: numbers numerically (`bool` as int),
strings by codepoint; other pairs raise `TypeError` (Python also orders
list with list, a pairing no value reaching these comparisons can take). -/
def pyLeJ (a b : JVal) : Except PyErr Bool :=
  match a.asNum, b.asNum with
  | some x, some y => .ok (decide (x ≤ y))
  | _, _ =>
    match a, b with
    | .jstr x, .jstr y => .ok (lexLE x y)
    | _, _ => .error (.typeErr (S "unsupported comparison"))

/-- Python `a > b` on dynamic values, same domain as `pyLeJ`. -/
def pyGtJ (a b : JVal) : Except PyErr Bool :=
  match a.asNum, b.asNum with
  | some x, some y => .ok (decide (y < x))
  | _, _ =>
    match a, b with
    | .jstr x, .jstr y => .ok (!lexLE x y)
    | _, _ => .error (.typeErr (S "unsupported comparison"))

/-- `max(a, b)`: `b` when `b > a`, else `a`. -/
def pyMax2 (a b : JVal) : Except PyErr JVal :=
  match pyGtJ b a with
  | .error e => .error e
  | .ok gt => .ok (if gt then b else a)

/-- `x <= float('inf')` (line 127 with `prev_end` infinite): true for every
number, `TypeError` otherwise. -/
def leInf (x : JVal) : Except PyErr Bool :=
  match x.asNum with
  | some _ => .ok true
  | none => .error (.typeErr (S "unsupported comparison"))

/-- Python `==` as used by `set` membership: numbers by numeric value
(`True == 1`, `1 == 1.0`), everything else structurally. -/
def pyValEq (a b : JVal) : Bool :=
  match a.asNum, b.asNum with
  | some x, some y => decide (x = y)
  | some _, none => false
  | none, some _ => false
  | none, none => decide (a = b)

/-- `set(l)` keeps the first representative of each equality class, in
insertion order (`seen` holds the representatives already emitted). -/
def dedupPyAux : List JVal → List JVal → List JVal
  | [], _ => []
  | x :: xs, seen =>
    if seen.any (fun y => pyValEq y x) then dedupPyAux xs seen
    else x :: dedupPyAux xs (x :: seen)

def dedupPy (l : List JVal) : List JVal := dedupPyAux l []

/-- Insertion of a value into an already-sorted list. -/
def insSortedV (le : JVal → JVal → Bool) (x : JVal) : List JVal → List JVal
  | [] => [x]
  | y :: ys => if le y x then y :: insSortedV le x ys else x :: y :: ys

/-- `sorted(set(l))` (line 134): unhashable elements raise `TypeError`;
the deduplicated values are sorted when all numeric or all strings (the
elements are pairwise non-equal, so the result is order-independent), and a
mixed-type value list raises `TypeError` (CPython raises on the comparisons
it happens to attempt; no claim exercises that corner). -/
def pySortedSet (l : List JVal) : Except PyErr (List JVal) :=
  if l.any (fun v => match v with | .jarr _ => true | .jobj _ => true | _ => false) then
    .error (.typeErr (S "unhashable type"))
  else if (dedupPy l).all (fun v => v.isNum) then
    .ok ((dedupPy l).foldl (fun acc x => insSortedV numKeyLE x acc) [])
  else if (dedupPy l).all (fun v => match v with | .jstr _ => true | _ => false) then
    .ok ((dedupPy l).foldl (fun acc x => insSortedV strKeyLE x acc) [])
  else .error (.typeErr (S "unorderable types in sorted"))

/-- `RetranscriptionWindow` (lines 37-43). -/
structure RWindow where
  start_time : JVal
  end_time : JVal
  issues : List ParsedIssue
  segment_indices : List JVal
  left_valid_index : JVal
  right_valid_index : JVal
deriving DecidableEq

/-- The window built for one issue (lines 107-120): `start_time` from
`segments[left_valid_index]["start"]` (0.0 when the index is None),
`end_time` from `segments[right_valid_index]["end"]` (None when the index
is None), `segment_indices` a copy of the issue's list. -/
def buildWindow (segments : List JVal) (issue : ParsedIssue) :
    Except PyErr RWindow := do
  let start_time ←
    match issue.left_valid_index with
    | .jnull => pure (JVal.jfloat 0)
    | li => do
        let seg ← pyIdxJ segments li
        seg.sub (S "start")
  let end_time ←
    match issue.right_valid_index with
    | .jnull => pure JVal.jnull
    | ri => do
        let seg ← pyIdxJ segments ri
        seg.sub (S "end")
  let sidx ← pyList issue.segment_indices
  pure ⟨start_time, end_time, [issue], sidx,
    issue.left_valid_index, issue.right_valid_index⟩

/-- The in-place merge of `win` into `prev` (lines 128-137). -/
def mergeTwo (prev win : RWindow) : Except PyErr RWindow := do
  let end_time ←
    if prev.end_time = JVal.jnull || win.end_time = JVal.jnull then
      pure JVal.jnull
    else pyMax2 prev.end_time win.end_time
  let sidx ← pySortedSet (prev.segment_indices ++ win.segment_indices)
  let rvi ←
    if win.right_valid_index = JVal.jnull then pure prev.right_valid_index
    else if prev.right_valid_index = JVal.jnull then pure win.right_valid_index
    else do
      let gt ← pyGtJ win.right_valid_index prev.right_valid_index
      pure (if gt then win.right_valid_index else prev.right_valid_index)
  pure ⟨prev.start_time, end_time, prev.issues ++ win.issues, sidx,
    prev.left_valid_index, rvi⟩

/-- The merge loop (lines 123-139): `prev` is the last entry of the result
so far, `acc` the closed-off entries before it. -/
def mergeLoop : RWindow → List RWindow → List RWindow →
    Except PyErr (List RWindow)
  | prev, [], acc => .ok (acc ++ [prev])
  | prev, win :: rest, acc => do
    let cond ←
      if prev.end_time = JVal.jnull then leInf win.start_time
      else pyLeJ win.start_time prev.end_time
    if cond then do
      let m ← mergeTwo prev win
      mergeLoop m rest acc
    else mergeLoop win rest (acc ++ [prev])

/-- `merge_windows` (lines 101-141). -/
def mergeWindows (issues : List ParsedIssue) (segments : List JVal) :
    Except PyErr (List RWindow) :=
  if issues.isEmpty then .ok []
  else
    match issues.mapM (buildWindow segments) with
    | .error e => .error e
    | .ok windows =>
      match windows with
      | [] => .ok []
      | w :: ws => mergeLoop w ws []

/-! ### Claim C10 -/

/-- The issues of a window list, concatenated in order. -/
def joinIssues (ws : List RWindow) : List ParsedIssue :=
  (ws.map RWindow.issues).flatten

theorem mergeTwo_issues (p w m : RWindow) (h : mergeTwo p w = .ok m) :
    m.issues = p.issues ++ w.issues := by
  unfold mergeTwo at h
  simp only [bind, Except.bind, pure, Except.pure] at h
  repeat' split at h
  all_goals first
    | exact Except.noConfusion h
    | (simp only [Except.ok.injEq] at h; subst h; rfl)

theorem buildWindow_issues (segments : List JVal) (i : ParsedIssue)
    (w : RWindow) (h : buildWindow segments i = .ok w) :
    w.issues = [i] := by
  unfold buildWindow at h
  simp only [bind, Except.bind, pure, Except.pure] at h
  repeat' split at h
  all_goals first
    | exact Except.noConfusion h
    | (simp only [Except.ok.injEq] at h; subst h; rfl)

theorem mapM_buildWindow_join (segments : List JVal) :
    ∀ (issues : List ParsedIssue) (ws : List RWindow),
      issues.mapM (buildWindow segments) = .ok ws → joinIssues ws = issues := by
  intro issues
  induction issues with
  | nil =>
    intro ws h
    simp only [List.mapM_nil, pure, Except.pure, Except.ok.injEq] at h
    subst h; rfl
  | cons i is ih =>
    intro ws h
    rw [List.mapM_cons] at h
    simp only [bind, Except.bind, pure, Except.pure] at h
    cases hw : buildWindow segments i with
    | error e => rw [hw] at h; exact Except.noConfusion h
    | ok w =>
      rw [hw] at h
      cases hrest : is.mapM (buildWindow segments) with
      | error e => rw [hrest] at h; exact Except.noConfusion h
      | ok rest =>
        rw [hrest] at h
        simp only [Except.ok.injEq] at h
        subst h
        simp only [joinIssues, List.map_cons, List.flatten_cons,
          buildWindow_issues segments i w hw]
        rw [show (rest.map RWindow.issues).flatten = joinIssues rest from rfl,
          ih rest hrest]
        rfl

theorem mergeLoop_issues :
    ∀ (rest : List RWindow) (prev : RWindow) (acc out : List RWindow),
      mergeLoop prev rest acc = .ok out →
      joinIssues out = joinIssues acc ++ prev.issues ++ joinIssues rest := by
  intro rest
  induction rest with
  | nil =>
    intro prev acc out h
    unfold mergeLoop at h
    simp only [Except.ok.injEq] at h
    subst h
    simp [joinIssues]
  | cons win rest ih =>
    intro prev acc out h
    unfold mergeLoop at h
    simp only [bind, Except.bind] at h
    repeat' split at h
    all_goals first
      | exact Except.noConfusion h
      | (rename_i m hm
         rw [ih m acc out h, mergeTwo_issues prev win m hm]
         simp [joinIssues, List.append_assoc])
      | (rw [ih win (acc ++ [prev]) out h]
         simp [joinIssues, List.append_assoc])

/-- Claim C10: `merge_windows` preserves the issue sequence exactly — the
issues lists of the returned windows concatenate, in order, to the input
issue list (no issue lost, duplicated or reordered). -/
theorem claim_c10_merge_windows_issues (issues : List ParsedIssue)
    (segments : List JVal) (ws : List RWindow)
    (h : mergeWindows issues segments = .ok ws) :
    joinIssues ws = issues := by
  unfold mergeWindows at h
  by_cases hne : issues.isEmpty
  · rw [if_pos hne] at h
    simp only [Except.ok.injEq] at h
    subst h
    rw [List.isEmpty_iff] at hne
    subst hne
    rfl
  · rw [if_neg hne] at h
    cases hm : issues.mapM (buildWindow segments) with
    | error e => rw [hm] at h; exact Except.noConfusion h
    | ok windows =>
      rw [hm] at h
      have hjoin := mapM_buildWindow_join segments issues windows hm
      cases windows with
      | nil =>
        simp only [Except.ok.injEq] at h
        subst h
        simpa using hjoin
      | cons w rest =>
        have := mergeLoop_issues rest w [] ws h
        rw [this]
        simpa [joinIssues] using hjoin

/-- Concrete data for the C10 witness: three issues whose windows chain
together (the middle one open-ended). -/
def c10Segs : List JVal := [
  .jobj [(S "start", .jint 0), (S "end", .jint 2)],
  .jobj [(S "start", .jint 2), (S "end", .jint 4)],
  .jobj [(S "start", .jint 4), (S "end", .jint 6)],
  .jobj [(S "start", .jint 6), (S "end", .jint 8)]]

def c10Issue (iid : Str) (si : List ℤ) (l r : JVal) : ParsedIssue :=
  ⟨.jstr iid, .jstr (S "accepted"), .jarr (si.map .jint),
   .jobj [(S "start", .jint 0)], l, r, .jstr [], .jstr [], .jarr [], .jobj []⟩

def c10Issues : List ParsedIssue :=
  [c10Issue (S "A") [1] (.jint 0) (.jint 1),
   c10Issue (S "B") [2, 3] (.jint 1) .jnull,
   c10Issue (S "C") [3] (.jint 3) (.jint 3)]

def c10Out : List RWindow :=
  [⟨.jint 0, .jnull, c10Issues, [.jint 1, .jint 2, .jint 3],
    .jint 0, .jint 3⟩]

/-- Witness for `claim_c10_merge_windows_issues` on a concrete merge of
three windows into one. -/
theorem claim_c10_merge_windows_issues_witness :
    joinIssues c10Out = c10Issues :=
  claim_c10_merge_windows_issues c10Issues c10Segs c10Out (by decide)

/-! ### Claim C5 -/

/-- Is the value a Python `int` (excluding `bool`)? -/
def isIntV (v : JVal) : Bool :=
  match v with
  | .jint _ => true
  | _ => false

/-- The numeric value of a number (0 on non-numbers; used only under
numericity hypotheses). -/
def valQ (v : JVal) : ℚ := v.asNum.getD 0

/-- An anchor index is absent, or an in-range `int` whose segment is a dict
with a numeric value at `k`. -/
def idxWF (segments : List JVal) (v : JVal) (k : Str) : Bool :=
  match v with
  | .jnull => true
  | .jint n =>
    decide (0 ≤ n) &&
    (match segments.get? n.toNat with
     | some (.jobj kvs) =>
       (match dictGet kvs k with
        | some x => x.isNum
        | none => false)
     | _ => false)
  | _ => false

/-- Well-formedness of one issue for claim C5: valid anchors and an integer
`segment_indices` array. -/
def issueWF (segments : List JVal) (i : ParsedIssue) : Bool :=
  idxWF segments i.left_valid_index (S "start") &&
  idxWF segments i.right_valid_index (S "end") &&
  (match i.segment_indices with
   | .jarr l => l.all isIntV
   | _ => false)

/-- The window the claim describes for one issue: `start_time` is the start
of the segment at `left_valid_index`, or 0.0 when it is null; `end_time` is
the end of the segment at `right_valid_index`, or null when it is null. -/
def specWindow (segments : List JVal) (i : ParsedIssue) : RWindow :=
  { start_time :=
      match i.left_valid_index with
      | .jnull => .jfloat 0
      | .jint n =>
        (match segments.get? n.toNat with
         | some (.jobj kvs) => (dictGet kvs (S "start")).getD .jnull
         | _ => .jnull)
      | _ => .jnull
    end_time :=
      match i.right_valid_index with
      | .jnull => .jnull
      | .jint n =>
        (match segments.get? n.toNat with
         | some (.jobj kvs) => (dictGet kvs (S "end")).getD .jnull
         | _ => .jnull)
      | _ => .jnull
    issues := [i]
    segment_indices :=
      match i.segment_indices with
      | .jarr l => l
      | _ => []
    left_valid_index := i.left_valid_index
    right_valid_index := i.right_valid_index }

/-- The sorted deduplicated union of two index lists. -/
def specUnion (a b : List JVal) : List JVal :=
  (dedupPy (a ++ b)).foldl (fun acc x => insSortedV numKeyLE x acc) []

/-- The merged window the claim describes: `end_time` null if either side's
is null and otherwise the max of the two; `segment_indices` the sorted
deduplicated union; `issues` concatenated in encounter order;
`right_valid_index` the larger of the two defined values. -/
def specMerge (cur next : RWindow) : RWindow :=
  { start_time := cur.start_time
    end_time :=
      if cur.end_time = JVal.jnull || next.end_time = JVal.jnull then .jnull
      else if valQ cur.end_time < valQ next.end_time then next.end_time
      else cur.end_time
    issues := cur.issues ++ next.issues
    segment_indices := specUnion cur.segment_indices next.segment_indices
    left_valid_index := cur.left_valid_index
    right_valid_index :=
      if next.right_valid_index = JVal.jnull then cur.right_valid_index
      else if cur.right_valid_index = JVal.jnull then next.right_valid_index
      else if valQ cur.right_valid_index < valQ next.right_valid_index then
        next.right_valid_index
      else cur.right_valid_index }

/-- Left-to-right merging as the claim states it: the next window is
absorbed exactly when its `start_time` is at most the current window's
`end_time`, a null `end_time` standing for plus infinity. -/
def specLoop : RWindow → List RWindow → List RWindow → List RWindow
  | cur, [], acc => acc ++ [cur]
  | cur, next :: rest, acc =>
    if cur.end_time = JVal.jnull ||
        decide (valQ next.start_time ≤ valQ cur.end_time) then
      specLoop (specMerge cur next) rest acc
    else specLoop next rest (acc ++ [cur])

/-- The claim's description of `merge_windows` as a total function. -/
def specMergeWindows (issues : List ParsedIssue) (segments : List JVal) :
    List RWindow :=
  match issues.map (specWindow segments) with
  | [] => []
  | w :: ws => specLoop w ws []

/-- The window invariant carried through the merge loop: numeric start,
null-or-numeric end, integer indices, null-or-int right anchor. -/
def winWF (w : RWindow) : Bool :=
  w.start_time.isNum &&
  (w.end_time = JVal.jnull || w.end_time.isNum) &&
  w.segment_indices.all isIntV &&
  (match w.right_valid_index with
   | .jnull => true
   | .jint _ => true
   | _ => false)

theorem isNum_some (v : JVal) (h : v.isNum = true) : ∃ q, v.asNum = some q :=
  Option.isSome_iff_exists.mp h

theorem valQ_eq (v : JVal) (q : ℚ) (h : v.asNum = some q) : valQ v = q := by
  simp [valQ, h]

theorem pyLeJ_num (a b : JVal) (qa qb : ℚ) (ha : a.asNum = some qa)
    (hb : b.asNum = some qb) : pyLeJ a b = .ok (decide (qa ≤ qb)) := by
  unfold pyLeJ
  rw [ha, hb]

theorem pyGtJ_num (a b : JVal) (qa qb : ℚ) (ha : a.asNum = some qa)
    (hb : b.asNum = some qb) : pyGtJ a b = .ok (decide (qb < qa)) := by
  unfold pyGtJ
  rw [ha, hb]

theorem leInf_num (a : JVal) (qa : ℚ) (ha : a.asNum = some qa) :
    leInf a = .ok true := by
  unfold leInf
  rw [ha]

theorem pyMax2_num (a b : JVal) (qa qb : ℚ) (ha : a.asNum = some qa)
    (hb : b.asNum = some qb) :
    pyMax2 a b = .ok (if valQ a < valQ b then b else a) := by
  unfold pyMax2
  rw [pyGtJ_num b a qb qa hb ha, valQ_eq a qa ha, valQ_eq b qb hb]
  by_cases h : qa < qb
  · simp [h]
  · simp [h]

theorem mem_dedupPyAux :
    ∀ (l seen : List JVal) (x : JVal), x ∈ dedupPyAux l seen → x ∈ l := by
  intro l
  induction l with
  | nil => intro seen x h; simp [dedupPyAux] at h
  | cons y ys ih =>
    intro seen x h
    unfold dedupPyAux at h
    by_cases hc : (seen.any fun z => pyValEq z y) = true
    · rw [if_pos hc] at h
      exact List.mem_cons_of_mem _ (ih seen x h)
    · rw [if_neg hc] at h
      rcases List.mem_cons.mp h with h1 | h2
      · exact h1 ▸ List.mem_cons_self _ _
      · exact List.mem_cons_of_mem _ (ih _ x h2)

theorem dedupPy_subset (l : List JVal) (x : JVal) (h : x ∈ dedupPy l) :
    x ∈ l := mem_dedupPyAux l [] x h

theorem insSortedV_perm (le : JVal → JVal → Bool) (x : JVal) :
    ∀ l : List JVal, (insSortedV le x l).Perm (x :: l) := by
  intro l
  induction l with
  | nil => exact List.Perm.refl _
  | cons y ys ih =>
    unfold insSortedV
    by_cases hle : le y x = true
    · rw [if_pos hle]
      exact (ih.cons y).trans (List.Perm.swap x y ys)
    · rw [if_neg hle]

theorem insFoldV_perm (le : JVal → JVal → Bool) :
    ∀ (xs acc : List JVal),
      (xs.foldl (fun acc x => insSortedV le x acc) acc).Perm (acc ++ xs) := by
  intro xs
  induction xs with
  | nil => intro acc; simp
  | cons x xs ih =>
    intro acc
    simp only [List.foldl_cons]
    have h1 := ih (insSortedV le x acc)
    have h2 : (insSortedV le x acc ++ xs).Perm ((x :: acc) ++ xs) :=
      (insSortedV_perm le x acc).append_right xs
    have h3 : ((x :: acc) ++ xs).Perm (acc ++ x :: xs) := by
      simp only [List.cons_append]
      exact List.perm_middle.symm
    exact h1.trans (h2.trans h3)

theorem pySortedSet_int (l : List JVal) (h : l.all isIntV = true) :
    pySortedSet l =
      .ok ((dedupPy l).foldl (fun acc x => insSortedV numKeyLE x acc) []) := by
  unfold pySortedSet
  have h1 : (l.any fun v =>
      match v with | .jarr _ => true | .jobj _ => true | _ => false) = false := by
    rw [List.any_eq_false]
    intro v hv
    have hvi := List.all_eq_true.mp h v hv
    cases v <;> simp_all [isIntV]
  have h2 : ((dedupPy l).all fun v => v.isNum) = true := by
    rw [List.all_eq_true]
    intro v hv
    have hvi := List.all_eq_true.mp h v (dedupPy_subset l v hv)
    cases v <;> simp_all [isIntV, JVal.isNum, JVal.asNum]
  rw [h1, h2]
  rfl

theorem specUnion_int (a b : List JVal) (h : (a ++ b).all isIntV = true) :
    (specUnion a b).all isIntV = true := by
  rw [List.all_eq_true]
  intro v hv
  have hperm := insFoldV_perm numKeyLE (dedupPy (a ++ b)) []
  have hv2 : v ∈ dedupPy (a ++ b) := by
    have := hperm.mem_iff.mp hv
    simpa using this
  exact List.all_eq_true.mp h v (dedupPy_subset _ v hv2)

theorem mergeTwo_spec (a b : RWindow) (ha : winWF a = true)
    (hb : winWF b = true) : mergeTwo a b = .ok (specMerge a b) := by
  simp only [winWF, Bool.and_eq_true] at ha hb
  obtain ⟨⟨⟨_, ha2⟩, ha3⟩, ha4⟩ := ha
  obtain ⟨⟨⟨_, hb2⟩, hb3⟩, hb4⟩ := hb
  have e2 : pySortedSet (a.segment_indices ++ b.segment_indices) =
      .ok (specUnion a.segment_indices b.segment_indices) := by
    rw [pySortedSet_int]
    · rfl
    · rw [List.all_append, ha3, hb3]
      rfl
  have hrva : a.right_valid_index = JVal.jnull ∨
      ∃ q, a.right_valid_index.asNum = some q := by
    cases hv : a.right_valid_index <;> simp_all [JVal.asNum]
  have hrvb : b.right_valid_index = JVal.jnull ∨
      ∃ q, b.right_valid_index.asNum = some q := by
    cases hv : b.right_valid_index <;> simp_all [JVal.asNum]
  unfold mergeTwo specMerge
  by_cases hnn : (a.end_time = JVal.jnull || b.end_time = JVal.jnull) = true
  · by_cases h1 : b.right_valid_index = JVal.jnull
    · simp [bind, Except.bind, pure, Except.pure, e2, hnn, h1]
    · by_cases h2 : a.right_valid_index = JVal.jnull
      · simp [bind, Except.bind, pure, Except.pure, e2, hnn, h1, h2]
      · obtain ⟨qa, hqa⟩ := hrva.resolve_left h2
        obtain ⟨qb, hqb⟩ := hrvb.resolve_left h1
        by_cases h : qa < qb <;>
          simp [bind, Except.bind, pure, Except.pure, e2, hnn, h1, h2, h,
            pyGtJ_num b.right_valid_index a.right_valid_index qb qa hqb hqa,
            valQ_eq _ qa hqa, valQ_eq _ qb hqb]
  · simp only [Bool.or_eq_true, decide_eq_true_eq, not_or] at hnn
    have hae : a.end_time.isNum = true := by
      simp only [Bool.or_eq_true, decide_eq_true_eq] at ha2
      exact ha2.resolve_left hnn.1
    have hbe : b.end_time.isNum = true := by
      simp only [Bool.or_eq_true, decide_eq_true_eq] at hb2
      exact hb2.resolve_left hnn.2
    obtain ⟨qea, hqea⟩ := isNum_some _ hae
    obtain ⟨qeb, hqeb⟩ := isNum_some _ hbe
    by_cases h1 : b.right_valid_index = JVal.jnull
    · simp [bind, Except.bind, pure, Except.pure, e2, hnn.1, hnn.2, h1,
        pyMax2_num a.end_time b.end_time qea qeb hqea hqeb,
        valQ_eq _ qea hqea, valQ_eq _ qeb hqeb]
    · by_cases h2 : a.right_valid_index = JVal.jnull
      · simp [bind, Except.bind, pure, Except.pure, e2, hnn.1, hnn.2, h1, h2,
          pyMax2_num a.end_time b.end_time qea qeb hqea hqeb,
          valQ_eq _ qea hqea, valQ_eq _ qeb hqeb]
      · obtain ⟨qa, hqa⟩ := hrva.resolve_left h2
        obtain ⟨qb, hqb⟩ := hrvb.resolve_left h1
        by_cases h : qa < qb <;>
          simp [bind, Except.bind, pure, Except.pure, e2, hnn.1, hnn.2,
            h1, h2, h,
            pyMax2_num a.end_time b.end_time qea qeb hqea hqeb,
            pyGtJ_num b.right_valid_index a.right_valid_index qb qa hqb hqa,
            valQ_eq _ qea hqea, valQ_eq _ qeb hqeb,
            valQ_eq _ qa hqa, valQ_eq _ qb hqb]

theorem mergeTwo_wf (a b : RWindow) (ha : winWF a = true)
    (hb : winWF b = true) : winWF (specMerge a b) = true := by
  simp only [winWF, Bool.and_eq_true] at ha hb
  obtain ⟨⟨⟨ha1, ha2⟩, ha3⟩, ha4⟩ := ha
  obtain ⟨⟨⟨hb1, hb2⟩, hb3⟩, hb4⟩ := hb
  simp only [winWF, specMerge, Bool.and_eq_true]
  refine ⟨⟨⟨ha1, ?_⟩, ?_⟩, ?_⟩
  · by_cases hnn : (a.end_time = JVal.jnull || b.end_time = JVal.jnull) = true
    · simp [hnn]
    · by_cases h : valQ a.end_time < valQ b.end_time
      · simp [hnn, h, hb2]
      · simp [hnn, h, ha2]
  · apply specUnion_int
    rw [List.all_append, ha3, hb3]
    rfl
  · by_cases h1 : b.right_valid_index = JVal.jnull
    · simp [h1, ha4]
    · by_cases h2 : a.right_valid_index = JVal.jnull
      · simp [h1, h2, hb4]
      · by_cases h : valQ a.right_valid_index < valQ b.right_valid_index
        · simp [h1, h2, h, hb4]
        · simp [h1, h2, h, ha4]

theorem pyIdx_nonneg (xs : List JVal) (n : ℤ) (h0 : 0 ≤ n)
    (hlt : n.toNat < xs.length) :
    pyIdx xs n = .ok (xs.get ⟨n.toNat, hlt⟩) := by
  have hj : (if n < 0 then n + (xs.length : ℤ) else n) = n :=
    if_neg (not_lt.mpr h0)
  simp only [pyIdx, hj]
  rw [dif_pos ⟨h0, hlt⟩]

theorem anchor_fetch (segments : List JVal) (n : ℤ) (k : Str)
    (h : idxWF segments (.jint n) k = true) :
    ∃ kvs x, pyIdxJ segments (.jint n) = .ok (.jobj kvs) ∧
      dictGet kvs k = some x ∧ x.isNum = true ∧
      segments.get? n.toNat = some (.jobj kvs) := by
  simp only [idxWF, Bool.and_eq_true, decide_eq_true_eq] at h
  obtain ⟨h0, hm⟩ := h
  split at hm
  · rename_i kvs hg
    split at hm
    · rename_i x hd
      obtain ⟨hlt, hget⟩ := List.get?_eq_some.mp hg
      refine ⟨kvs, x, ?_, hd, hm, hg⟩
      show pyIdx segments n = Except.ok (JVal.jobj kvs)
      rw [pyIdx_nonneg segments n h0 hlt, hget]
    · exact absurd hm (by simp)
  · exact absurd hm (by simp)

theorem buildWindow_spec (segments : List JVal) (i : ParsedIssue)
    (h : issueWF segments i = true) :
    buildWindow segments i = .ok (specWindow segments i) ∧
    winWF (specWindow segments i) = true := by
  simp only [issueWF, Bool.and_eq_true] at h
  obtain ⟨⟨hl, hr⟩, hsi⟩ := h
  obtain ⟨sl, hslv⟩ : ∃ sl, i.segment_indices = JVal.jarr sl := by
    cases hv : i.segment_indices
    case jarr l => exact ⟨l, rfl⟩
    all_goals (rw [hv] at hsi; exact absurd hsi (by simp))
  have hsl : sl.all isIntV = true := by
    rw [hslv] at hsi
    simpa using hsi
  have hlc : i.left_valid_index = JVal.jnull ∨
      ∃ n : ℤ, i.left_valid_index = .jint n := by
    cases hv : i.left_valid_index
    case jnull => exact Or.inl rfl
    case jint n => exact Or.inr ⟨n, rfl⟩
    all_goals (rw [hv] at hl; exact absurd hl (by simp [idxWF]))
  have hrc : i.right_valid_index = JVal.jnull ∨
      ∃ n : ℤ, i.right_valid_index = .jint n := by
    cases hv : i.right_valid_index
    case jnull => exact Or.inl rfl
    case jint n => exact Or.inr ⟨n, rfl⟩
    all_goals (rw [hv] at hr; exact absurd hr (by simp [idxWF]))
  rcases hlc with hlv | ⟨nl, hlv⟩ <;> rcases hrc with hrv | ⟨nr, hrv⟩
  · unfold buildWindow specWindow
    rw [hlv, hrv, hslv]
    constructor
    · simp only [bind, Except.bind, pure, Except.pure, pyList]
    · simp only [winWF, Bool.and_eq_true]
      exact ⟨⟨⟨by trivial, by trivial⟩, hsl⟩, by trivial⟩
  · obtain ⟨kvs, x, hpy, hd, hxn, hg⟩ :=
      anchor_fetch segments nr (S "end") (hrv ▸ hr)
    unfold buildWindow specWindow
    rw [hlv, hrv, hslv]
    constructor
    · simp only [bind, Except.bind, pure, Except.pure, pyList, hpy,
        JVal.sub, hd, hg, Option.getD_some]
    · simp only [winWF, Bool.and_eq_true, hg, hd, Option.getD_some]
      refine ⟨⟨⟨by trivial, ?_⟩, hsl⟩, by trivial⟩
      simp only [Bool.or_eq_true]
      exact Or.inr hxn
  · obtain ⟨kvs, x, hpy, hd, hxn, hg⟩ :=
      anchor_fetch segments nl (S "start") (hlv ▸ hl)
    unfold buildWindow specWindow
    rw [hlv, hrv, hslv]
    constructor
    · simp only [bind, Except.bind, pure, Except.pure, pyList, hpy,
        JVal.sub, hd, hg, Option.getD_some]
    · simp only [winWF, Bool.and_eq_true, hg, hd, Option.getD_some]
      exact ⟨⟨⟨hxn, by trivial⟩, hsl⟩, by trivial⟩
  · obtain ⟨kvsl, xl, hpyl, hdl, hxnl, hgl⟩ :=
      anchor_fetch segments nl (S "start") (hlv ▸ hl)
    obtain ⟨kvsr, xr, hpyr, hdr, hxnr, hgr⟩ :=
      anchor_fetch segments nr (S "end") (hrv ▸ hr)
    unfold buildWindow specWindow
    rw [hlv, hrv, hslv]
    constructor
    · simp only [bind, Except.bind, pure, Except.pure, pyList, hpyl, hdl,
        hgl, hpyr, hdr, hgr, JVal.sub, Option.getD_some]
    · simp only [winWF, Bool.and_eq_true, hgl, hdl, hgr, hdr,
        Option.getD_some]
      refine ⟨⟨⟨hxnl, ?_⟩, hsl⟩, by trivial⟩
      simp only [Bool.or_eq_true]
      exact Or.inr hxnr

theorem mapM_buildWindow_spec (segments : List JVal) :
    ∀ issues : List ParsedIssue,
      (∀ i ∈ issues, issueWF segments i = true) →
      issues.mapM (buildWindow segments) =
        .ok (issues.map (specWindow segments)) := by
  intro issues
  induction issues with
  | nil => intro _; rfl
  | cons i is ih =>
    intro h
    rw [List.mapM_cons,
      (buildWindow_spec segments i (h i (List.mem_cons_self _ _))).1,
      ih (fun j hj => h j (List.mem_cons_of_mem _ hj))]
    rfl

theorem map_specWindow_wf (segments : List JVal) (issues : List ParsedIssue)
    (h : ∀ i ∈ issues, issueWF segments i = true) :
    (issues.map (specWindow segments)).all winWF = true := by
  rw [List.all_eq_true]
  intro w hw
  obtain ⟨i, hi, rfl⟩ := List.mem_map.mp hw
  exact (buildWindow_spec segments i (h i hi)).2

theorem mergeLoop_spec :
    ∀ (rest : List RWindow) (cur : RWindow) (acc : List RWindow),
      winWF cur = true → rest.all winWF = true →
      mergeLoop cur rest acc = .ok (specLoop cur rest acc) := by
  intro rest
  induction rest with
  | nil => intro cur acc _ _; rfl
  | cons next rest ih =>
    intro cur acc hcur hrest
    rw [List.all_cons, Bool.and_eq_true] at hrest
    obtain ⟨hnext, hrest⟩ := hrest
    have hsn : next.start_time.isNum = true := by
      simp only [winWF, Bool.and_eq_true] at hnext
      exact hnext.1.1.1
    obtain ⟨qs, hqs⟩ := isNum_some _ hsn
    unfold mergeLoop specLoop
    by_cases hnull : cur.end_time = JVal.jnull
    · rw [if_pos hnull, leInf_num next.start_time qs hqs]
      have hcond : (cur.end_time = JVal.jnull ||
          decide (valQ next.start_time ≤ valQ cur.end_time)) = true := by
        simp [hnull]
      simp only [bind, Except.bind, hcond, eq_self_iff_true, if_true]
      rw [mergeTwo_spec cur next hcur hnext]
      exact ih (specMerge cur next) acc (mergeTwo_wf cur next hcur hnext) hrest
    · rw [if_neg hnull]
      have hce : cur.end_time.isNum = true := by
        simp only [winWF, Bool.and_eq_true] at hcur
        have h2 := hcur.1.1.2
        simp only [Bool.or_eq_true, decide_eq_true_eq] at h2
        exact h2.resolve_left hnull
      obtain ⟨qe, hqe⟩ := isNum_some _ hce
      rw [pyLeJ_num next.start_time cur.end_time qs qe hqs hqe]
      simp only [bind, Except.bind]
      by_cases hle : qs ≤ qe
      · have hcond : (cur.end_time = JVal.jnull ||
            decide (valQ next.start_time ≤ valQ cur.end_time)) = true := by
          simp [valQ_eq _ qs hqs, valQ_eq _ qe hqe, hle]
        have hd1 : decide (qs ≤ qe) = true := by simp [hle]
        simp only [hd1, hcond, eq_self_iff_true, if_true]
        rw [mergeTwo_spec cur next hcur hnext]
        exact ih (specMerge cur next) acc
          (mergeTwo_wf cur next hcur hnext) hrest
      · have hcond : ¬ ((cur.end_time = JVal.jnull ||
            decide (valQ next.start_time ≤ valQ cur.end_time)) = true) := by
          simp [valQ_eq _ qs hqs, valQ_eq _ qe hqe, hle, hnull]
        have hd1 : decide (qs ≤ qe) = false := by simp [hle]
        simp only [hd1, hcond, Bool.false_eq_true, if_false]
        exact ih next (acc ++ [cur]) hnext hrest

/-- Claim C5: on well-formed inputs (anchor indices absent or in range with
numeric `start`/`end` fields, integer `segment_indices`), `merge_windows`
returns exactly the window list the claim describes: one window per issue
(`start_time` from the segment at `left_valid_index`, 0.0 when null;
`end_time` from the segment at `right_valid_index`, null when null), merged
left-to-right exactly when the next window's start is at most the current
window's end with a null end treated as plus infinity, the merged fields
being null-or-max end, sorted deduplicated index union, concatenated issue
lists, and the larger defined `right_valid_index`. -/
theorem claim_c5_merge_windows (issues : List ParsedIssue)
    (segments : List JVal)
    (hwf : ∀ i ∈ issues, issueWF segments i = true) :
    mergeWindows issues segments = .ok (specMergeWindows issues segments) := by
  unfold mergeWindows specMergeWindows
  by_cases hne : issues.isEmpty
  · rw [if_pos hne]
    rw [List.isEmpty_iff] at hne
    subst hne
    rfl
  · rw [if_neg hne, mapM_buildWindow_spec segments issues hwf]
    have hall := map_specWindow_wf segments issues hwf
    cases hmap : issues.map (specWindow segments) with
    | nil => rfl
    | cons w ws =>
      rw [hmap] at hall
      rw [List.all_cons, Bool.and_eq_true] at hall
      exact mergeLoop_spec ws w [] hall.1 hall.2

/-- Concrete data for the C5 witness: a null left anchor, duplicate segment
indices across merged windows, and a right-anchor maximum. -/
def c5Segs : List JVal := [
  .jobj [(S "start", .jfloat 0), (S "end", .jfloat 2)],
  .jobj [(S "start", .jfloat 2), (S "end", .jfloat 4)],
  .jobj [(S "start", .jfloat 4), (S "end", .jfloat 6)]]

def c5Issues : List ParsedIssue :=
  [⟨.jstr (S "A"), .jstr (S "accepted"), .jarr [.jint 0, .jint 2],
    .jobj [(S "start", .jfloat 0)], .jnull, .jint 2,
    .jstr [], .jstr [], .jarr [], .jobj []⟩,
   ⟨.jstr (S "B"), .jstr (S "accepted"), .jarr [.jint 1, .jint 0],
    .jobj [(S "start", .jfloat 2)], .jint 1, .jint 1,
    .jstr [], .jstr [], .jarr [], .jobj []⟩]

/-- Witness for `claim_c5_merge_windows` at concrete windows that merge. -/
theorem claim_c5_merge_windows_witness :
    mergeWindows c5Issues c5Segs = .ok (specMergeWindows c5Issues c5Segs) :=
  claim_c5_merge_windows c5Issues c5Segs (by decide)

/-! ## `apply_fixes` (transcript_fixer_service.py lines 193-204) -/

/-- `FixResult` (lines 46-52). -/
structure FixResult where
  issue_id : JVal
  outcome : Str
  original_text : JVal
  corrected_text : JVal
  source : JVal
  reasoning : JVal
deriving DecidableEq

/-- Ordered-`dict` lookup with dynamic keys and an arbitrary value type
(Python `==`, so `1` and `1.0` collide; a lookup with an unhashable key on a
miss raises `TypeError` in CPython, a corner no claim reaches). -/
def dictGetJ {α : Type} (kvs : List (JVal × α)) (k : JVal) : Option α :=
  match kvs with
  | [] => none
  | (k0, v0) :: rest => if pyValEq k0 k then some v0 else dictGetJ rest k

/-- `fixed[n]["text"] = v` (lines 201-203): index the list (negative wrap,
`IndexError` out of range), require a dict there, update its `"text"` key in
place. -/
def setItemText (segs : List JVal) (n : ℤ) (v : JVal) :
    Except PyErr (List JVal) :=
  let j : ℤ := if n < 0 then n + segs.length else n
  if h : 0 ≤ j ∧ j.toNat < segs.length then
    match segs.get ⟨j.toNat, h.2⟩ with
    | .jobj kvs => .ok (segs.set j.toNat (.jobj (dictSet kvs (S "text") v)))
    | _ => .error (.typeErr (S "object does not support item assignment"))
  else .error (.indexErr (S "list assignment index out of range"))

/-- `fixed[idx]["text"] = v` with a dynamic index. -/
def pySetIdxJ (segs : List JVal) (idx : JVal) (v : JVal) :
    Except PyErr (List JVal) :=
  match idx with
  | .jint n => setItemText segs n v
  | .jbool b => setItemText segs (if b then 1 else 0) v
  | _ => .error (.typeErr (S "list indices must be integers"))

/-- `indices[0]` on a dynamic value (`str` indexing yields a 1-char `str`;
a dict raises `KeyError` for the int key, everything else `TypeError`). -/
def jvalIdx (v : JVal) (i : ℤ) : Except PyErr JVal :=
  match v with
  | .jarr l => pyIdx l i
  | .jstr s => pyIdx (s.map (fun c => .jstr [c])) i
  | .jobj _ => .error (.keyErr (S "0"))
  | _ => .error (.typeErr (S "object is not subscriptable"))

/-- `indices[1:]` on a dynamic value, as a list of element values. -/
def jvalSlice1 (v : JVal) : Except PyErr (List JVal) :=
  match v with
  | .jarr l => .ok (l.drop 1)
  | .jstr s => .ok ((s.drop 1).map (fun c => .jstr [c]))
  | _ => .error (.typeErr (S "object is not subscriptable"))

/-- The inner `for idx in indices[1:]: fixed[idx]["text"] = ""` loop. -/
def setEmptyAll : List JVal → List JVal → Except PyErr (List JVal)
  | segs, [] => .ok segs
  | segs, idx :: rest => do
    let segs2 ← pySetIdxJ segs idx (JVal.jstr [])
    setEmptyAll segs2 rest

/-- The `for result in results` loop of `apply_fixes` (lines 195-203),
threading the (deep-copied) segment list. -/
def applyFixesLoop (issue_map : List (JVal × ParsedIssue)) :
    List FixResult → List JVal → Except PyErr (List JVal)
  | [], fixed => .ok fixed
  | r :: rs, fixed =>
    if r.outcome ≠ S "fixed" ∨ r.corrected_text = JVal.jnull then
      applyFixesLoop issue_map rs fixed
    else
      match dictGetJ issue_map r.issue_id with
      | none => .error (.keyErr (jvalStr r.issue_id))
      | some issue =>
        if issue.segment_indices.truthy then do
          let i0 ← jvalIdx issue.segment_indices 0
          let fixed1 ← pySetIdxJ fixed i0 r.corrected_text
          let rest ← jvalSlice1 issue.segment_indices
          let fixed2 ← setEmptyAll fixed1 rest
          applyFixesLoop issue_map rs fixed2
        else applyFixesLoop issue_map rs fixed

/-- `apply_fixes` (lines 193-204): `copy.deepcopy(segments)` makes every
write below land on a fresh copy (so the input list and its dicts are never
mutated); in this pure embedding the copy is the value passed into the
loop. -/
def applyFixes (segments : List JVal) (results : List FixResult)
    (issue_map : List (JVal × ParsedIssue)) : Except PyErr (List JVal) :=
  applyFixesLoop issue_map results segments

/-! ### Claim C6 -/

/-- The `"text"` value of the segment dict at position `j`. -/
def textAt (segs : List JVal) (j : ℕ) : Option JVal :=
  (segs.get? j).bind (fun s =>
    match s with
    | .jobj kvs => dictGet kvs (S "text")
    | _ => none)

/-- A result the loop acts on: outcome `"fixed"` with a non-null
`corrected_text`. -/
def isApplied (r : FixResult) : Prop :=
  r.outcome = S "fixed" ∧ r.corrected_text ≠ JVal.jnull

instance (r : FixResult) : Decidable (isApplied r) :=
  inferInstanceAs (Decidable (_ ∧ _))

/-- The segment positions an applied result writes to. -/
def coveredIdx (issue_map : List (JVal × ParsedIssue)) (r : FixResult) :
    List ℕ :=
  match dictGetJ issue_map r.issue_id with
  | some iss =>
    match iss.segment_indices with
    | .jarr l => l.filterMap (fun v =>
        match v with
        | .jint n => some n.toNat
        | _ => none)
    | _ => []
  | none => []

theorem filterMap_jint (l : List ℤ) :
    (l.map JVal.jint).filterMap (fun v =>
      match v with
      | JVal.jint n => some n.toNat
      | _ => none) = l.map Int.toNat := by
  induction l with
  | nil => rfl
  | cons n ns ih => simp [ih]

theorem coveredIdx_eq (issue_map : List (JVal × ParsedIssue)) (r : FixResult)
    (iss : ParsedIssue) (l : List ℤ)
    (hmap : dictGetJ issue_map r.issue_id = some iss)
    (hsiv : iss.segment_indices = .jarr (l.map JVal.jint)) :
    coveredIdx issue_map r = l.map Int.toNat := by
  simp only [coveredIdx, hmap, hsiv]
  exact filterMap_jint l

theorem dictGet_dictSet_self (kvs : List (Str × JVal)) (k : Str) (v : JVal) :
    dictGet (dictSet kvs k v) k = some v := by
  induction kvs with
  | nil => simp [dictSet, dictGet]
  | cons p rest ih =>
    unfold dictSet
    by_cases hk : p.1 = k
    · rw [if_pos hk]
      simp [dictGet, hk]
    · rw [if_neg hk]
      simp [dictGet, hk, ih]

theorem setItemText_spec (segs : List JVal) (n : ℤ) (v : JVal)
    (hobj : ∀ s ∈ segs, ∃ kvs, s = JVal.jobj kvs)
    (h0 : 0 ≤ n) (hlt : n.toNat < segs.length) :
    ∃ out, setItemText segs n v = .ok out ∧
      out.length = segs.length ∧
      (∀ s ∈ out, ∃ kvs, s = JVal.jobj kvs) ∧
      (∀ j, j ≠ n.toNat → out.get? j = segs.get? j) ∧
      textAt out n.toNat = some v := by
  have hj : (if n < 0 then n + (segs.length : ℤ) else n) = n :=
    if_neg (not_lt.mpr h0)
  obtain ⟨kvs, hkvs⟩ := hobj (segs.get ⟨n.toNat, hlt⟩) (segs.get_mem _ _)
  refine ⟨segs.set n.toNat (.jobj (dictSet kvs (S "text") v)), ?_, ?_, ?_,
    ?_, ?_⟩
  · simp only [setItemText, hj]
    rw [dif_pos ⟨h0, hlt⟩, hkvs]
  · simp
  · intro s hs
    rcases List.mem_or_eq_of_mem_set hs with h | h
    · exact hobj s h
    · exact ⟨_, h⟩
  · intro j hne
    exact List.get?_set_ne _ _ (fun h => hne h.symm)
  · unfold textAt
    rw [List.get?_set_eq_of_lt _ hlt]
    show dictGet (dictSet kvs (S "text") v) (S "text") = some v
    exact dictGet_dictSet_self kvs (S "text") v

theorem setEmptyAll_spec :
    ∀ (tl : List ℤ) (segs : List JVal),
      (∀ s ∈ segs, ∃ kvs, s = JVal.jobj kvs) →
      (∀ n ∈ tl, 0 ≤ n ∧ n.toNat < segs.length) →
      ∃ out, setEmptyAll segs (tl.map .jint) = .ok out ∧
        out.length = segs.length ∧
        (∀ s ∈ out, ∃ kvs, s = JVal.jobj kvs) ∧
        (∀ j, j ∉ tl.map Int.toNat → out.get? j = segs.get? j) ∧
        (∀ n ∈ tl, textAt out n.toNat = some (JVal.jstr [])) := by
  intro tl
  induction tl with
  | nil =>
    intro segs hobj _
    exact ⟨segs, rfl, rfl, hobj, fun _ _ => rfl, fun n hn => absurd hn
      (List.not_mem_nil n)⟩
  | cons m ms ih =>
    intro segs hobj hb
    obtain ⟨h0, hlt⟩ := hb m (List.mem_cons_self _ _)
    obtain ⟨segs1, hs1, hlen1, hobj1, hframe1, hval1⟩ :=
      setItemText_spec segs m (JVal.jstr []) hobj h0 hlt
    obtain ⟨out, hout, hlen2, hobj2, hframe2, hval2⟩ :=
      ih segs1 hobj1 (fun n hn => hlen1 ▸ hb n (List.mem_cons_of_mem _ hn))
    refine ⟨out, ?_, hlen2.trans hlen1, hobj2, ?_, ?_⟩
    · show (do
        let segs2 ← pySetIdxJ segs (.jint m) (JVal.jstr [])
        setEmptyAll segs2 (ms.map .jint)) = .ok out
      show (pySetIdxJ segs (.jint m) (JVal.jstr [])).bind (fun segs2 =>
        setEmptyAll segs2 (ms.map .jint)) = .ok out
      show (setItemText segs m (JVal.jstr [])).bind (fun segs2 =>
        setEmptyAll segs2 (ms.map .jint)) = .ok out
      rw [hs1]
      exact hout
    · intro j hj
      rw [List.map_cons, List.mem_cons] at hj
      push_neg at hj
      exact (hframe2 j hj.2).trans (hframe1 j hj.1)
    · intro n hn
      rcases List.mem_cons.mp hn with h | h
      · subst h
        by_cases hmem : n.toNat ∈ ms.map Int.toNat
        · obtain ⟨n2, hn2, hteq⟩ := List.mem_map.mp hmem
          have := hval2 n2 hn2
          rw [hteq] at this
          exact this
        · unfold textAt
          rw [hframe2 n.toNat hmem]
          exact hval1
      · exact hval2 n h

theorem jint_injective : Function.Injective JVal.jint := by
  intro a b h
  injection h

theorem applyFixesLoop_spec (issue_map : List (JVal × ParsedIssue)) :
    ∀ (rs : List FixResult) (segs : List JVal),
      (∀ s ∈ segs, ∃ kvs, s = JVal.jobj kvs) →
      (∀ r ∈ rs, isApplied r →
        ∃ iss, ∃ l : List ℤ, dictGetJ issue_map r.issue_id = some iss ∧
          iss.segment_indices = .jarr (l.map JVal.jint) ∧
          (∀ n ∈ l, 0 ≤ n ∧ n.toNat < segs.length) ∧
          (l.map Int.toNat).Nodup) →
      rs.Pairwise (fun r1 r2 => isApplied r1 → isApplied r2 →
        ∀ j, j ∈ coveredIdx issue_map r1 → j ∉ coveredIdx issue_map r2) →
      ∃ out, applyFixesLoop issue_map rs segs = .ok out ∧
        out.length = segs.length ∧
        (∀ s ∈ out, ∃ kvs, s = JVal.jobj kvs) ∧
        (∀ j, (∀ r ∈ rs, isApplied r → j ∉ coveredIdx issue_map r) →
          out.get? j = segs.get? j) ∧
        (∀ r ∈ rs, isApplied r →
          ∀ iss, dictGetJ issue_map r.issue_id = some iss →
          ∀ hd tl, iss.segment_indices = .jarr ((hd :: tl).map JVal.jint) →
            textAt out hd.toNat = some r.corrected_text ∧
            ∀ n ∈ tl, textAt out n.toNat = some (JVal.jstr [])) := by
  intro rs
  induction rs with
  | nil =>
    intro segs hobj _ _
    exact ⟨segs, rfl, rfl, hobj, fun _ _ => rfl,
      fun r hr => absurd hr (List.not_mem_nil r)⟩
  | cons r rs ih =>
    intro segs hobj hwf hdisj
    rw [List.pairwise_cons] at hdisj
    obtain ⟨hdr, hdrs⟩ := hdisj
    by_cases happ : isApplied r
    · have hcond : ¬ (r.outcome ≠ S "fixed" ∨
          r.corrected_text = JVal.jnull) :=
        fun h => h.elim (fun h1 => h1 happ.1) (fun h2 => happ.2 h2)
      obtain ⟨iss, l, hmap, hsiv, hbound, hnodup⟩ :=
        hwf r (List.mem_cons_self _ _) happ
      have hcov := coveredIdx_eq issue_map r iss l hmap hsiv
      cases l with
      | nil =>
        have htr : iss.segment_indices.truthy = false := by
          rw [hsiv]
          rfl
        obtain ⟨out, hout, hlen, hobj2, hframe, hwrites⟩ :=
          ih segs hobj
            (fun r2 hr2 => hwf r2 (List.mem_cons_of_mem _ hr2)) hdrs
        refine ⟨out, ?_, hlen, hobj2, ?_, ?_⟩
        · unfold applyFixesLoop
          rw [if_neg hcond, hmap]
          show (if iss.segment_indices.truthy = true then _ else
            applyFixesLoop issue_map rs segs) = .ok out
          rw [htr]
          simpa using hout
        · intro j hj
          exact hframe j (fun r2 hr2 => hj r2 (List.mem_cons_of_mem _ hr2))
        · intro r2 hr2 happ2 iss2 hmap2 hd tl hsiv2
          rcases List.mem_cons.mp hr2 with heq | hm
          · subst heq
            rw [hmap] at hmap2
            injection hmap2 with hi
            subst hi
            rw [hsiv] at hsiv2
            injection hsiv2 with hl
            exact absurd hl (by simp)
          · exact hwrites r2 hm happ2 iss2 hmap2 hd tl hsiv2
      | cons hd tl =>
        have h0 : 0 ≤ hd := (hbound hd (List.mem_cons_self _ _)).1
        have hlt : hd.toNat < segs.length :=
          (hbound hd (List.mem_cons_self _ _)).2
        obtain ⟨segs1, hs1, hlen1, hobj1, hframe1, hval1⟩ :=
          setItemText_spec segs hd r.corrected_text hobj h0 hlt
        obtain ⟨segs2, hs2, hlen2, hobj2, hframe2, hval2⟩ :=
          setEmptyAll_spec tl segs1 hobj1
            (fun n hn => hlen1 ▸ hbound n (List.mem_cons_of_mem _ hn))
        obtain ⟨out, hout, hlen3, hobj3, hframe3, hwrites3⟩ :=
          ih segs2 hobj2
            (fun r2 hr2 happ2 => by
              obtain ⟨iss2, l2, a1, a2, a3, a4⟩ :=
                hwf r2 (List.mem_cons_of_mem _ hr2) happ2
              exact ⟨iss2, l2, a1, a2,
                fun n hn => (hlen2.trans hlen1) ▸ a3 n hn, a4⟩)
            hdrs
        have hloop : applyFixesLoop issue_map (r :: rs) segs = .ok out := by
          unfold applyFixesLoop
          rw [if_neg hcond, hmap]
          show (if iss.segment_indices.truthy = true then _ else _) = .ok out
          rw [show iss.segment_indices.truthy = true from by rw [hsiv]; rfl]
          show (do
            let i0 ← jvalIdx iss.segment_indices 0
            let fixed1 ← pySetIdxJ segs i0 r.corrected_text
            let rest ← jvalSlice1 iss.segment_indices
            let fixed2 ← setEmptyAll fixed1 rest
            applyFixesLoop issue_map rs fixed2) = .ok out
          rw [hsiv]
          have hidx : jvalIdx (.jarr ((hd :: tl).map JVal.jint)) 0 =
              .ok (.jint hd) := by
            show pyIdx ((hd :: tl).map JVal.jint) 0 = .ok (.jint hd)
            rw [pyIdx_nonneg _ 0 le_rfl (by simp)]
            rfl
          have hslice : jvalSlice1 (.jarr ((hd :: tl).map JVal.jint)) =
              .ok (tl.map JVal.jint) := rfl
          simp only [bind, Except.bind, hidx, pySetIdxJ, hs1, hslice, hs2]
          exact hout
        have hcovr : coveredIdx issue_map r = hd.toNat :: tl.map Int.toNat :=
          hcov
        refine ⟨out, hloop, hlen3.trans (hlen2.trans hlen1), hobj3, ?_, ?_⟩
        · intro j hj
          have hjr := hj r (List.mem_cons_self _ _) happ
          rw [hcovr, List.mem_cons] at hjr
          push_neg at hjr
          have hstep := hframe3 j
            (fun r2 hr2 => hj r2 (List.mem_cons_of_mem _ hr2))
          rw [hstep, hframe2 j hjr.2, hframe1 j hjr.1]
        · intro r2 hr2 happ2 iss2 hmap2 hd2 tl2 hsiv2
          rcases List.mem_cons.mp hr2 with heq | hm
          · rw [heq] at hmap2 ⊢
            rw [hmap] at hmap2
            injection hmap2 with hi
            subst hi
            rw [hsiv] at hsiv2
            injection hsiv2 with hl
            have hl2 := List.map_injective_iff.mpr jint_injective hl
            rw [List.cons.injEq] at hl2
            obtain ⟨hhd, htl⟩ := hl2
            rw [← hhd, ← htl]
            have hnotin : ∀ j, j ∈ coveredIdx issue_map r →
                ∀ r3 ∈ rs, isApplied r3 → j ∉ coveredIdx issue_map r3 :=
              fun j hjc r3 hr3 happ3 => hdr r3 hr3 happ happ3 j hjc
            constructor
            · have hj0 : hd.toNat ∈ coveredIdx issue_map r := by
                rw [hcovr]
                exact List.mem_cons_self _ _
              rw [show textAt out hd.toNat = textAt segs2 hd.toNat from by
                unfold textAt
                rw [hframe3 hd.toNat
                  (fun r3 hr3 happ3 => hnotin hd.toNat hj0 r3 hr3 happ3)]]
              unfold textAt
              have hnd := List.nodup_cons.mp hnodup
              rw [hframe2 hd.toNat hnd.1]
              exact hval1
            · intro n hn
              have hjn : n.toNat ∈ coveredIdx issue_map r := by
                rw [hcovr]
                exact List.mem_cons_of_mem _ (List.mem_map_of_mem _ hn)
              rw [show textAt out n.toNat = textAt segs2 n.toNat from by
                unfold textAt
                rw [hframe3 n.toNat
                  (fun r3 hr3 happ3 => hnotin n.toNat hjn r3 hr3 happ3)]]
              exact hval2 n hn
          · exact hwrites3 r2 hm happ2 iss2 hmap2 hd2 tl2 hsiv2
    · have hcond : r.outcome ≠ S "fixed" ∨ r.corrected_text = JVal.jnull := by
        unfold isApplied at happ
        tauto
      obtain ⟨out, hout, hlen, hobj2, hframe, hwrites⟩ :=
        ih segs hobj (fun r2 hr2 => hwf r2 (List.mem_cons_of_mem _ hr2)) hdrs
      refine ⟨out, ?_, hlen, hobj2, ?_, ?_⟩
      · unfold applyFixesLoop
        rw [if_pos hcond]
        exact hout
      · intro j hj
        exact hframe j (fun r2 hr2 => hj r2 (List.mem_cons_of_mem _ hr2))
      · intro r2 hr2 happ2 iss2 hmap2 hd tl hsiv2
        rcases List.mem_cons.mp hr2 with heq | hm
        · subst heq
          exact absurd happ2 happ
        · exact hwrites r2 hm happ2 iss2 hmap2 hd tl hsiv2

/-- Data refuting claim C6 as stated: two applied results whose issues
overlap on segment 1 — the later fix overwrites the blank written by the
earlier one. -/
def c6Segs : List JVal :=
  [.jobj [(S "text", .jstr (S "a"))], .jobj [(S "text", .jstr (S "b"))]]

def c6I1 : ParsedIssue :=
  ⟨.jstr (S "I1"), .jstr (S "accepted"), .jarr [.jint 0, .jint 1],
   .jobj [], .jnull, .jnull, .jstr [], .jstr [], .jarr [], .jobj []⟩

def c6I2 : ParsedIssue :=
  ⟨.jstr (S "I2"), .jstr (S "accepted"), .jarr [.jint 1],
   .jobj [], .jnull, .jnull, .jstr [], .jstr [], .jarr [], .jobj []⟩

def c6Map : List (JVal × ParsedIssue) :=
  [(.jstr (S "I1"), c6I1), (.jstr (S "I2"), c6I2)]

def c6R1 : FixResult :=
  ⟨.jstr (S "I1"), S "fixed", .jstr (S "a"), .jstr (S "X"), .jnull, .jnull⟩

def c6R2 : FixResult :=
  ⟨.jstr (S "I2"), S "fixed", .jstr (S "b"), .jstr (S "Y"), .jnull, .jnull⟩

def c6Res : List FixResult := [c6R1, c6R2]

def c6Out : List JVal :=
  [.jobj [(S "text", .jstr (S "X"))], .jobj [(S "text", .jstr (S "Y"))]]

/-- Claim C6, counterexample: with two `fixed` results whose issues share
segment 1, the returned copy holds the second fix's text at segment 1 — not
the empty string the claim promises for the first result's non-first
index. -/
theorem claim_c6_counterexample :
    applyFixes c6Segs c6Res c6Map = .ok c6Out ∧
    c6R1 ∈ c6Res ∧ c6R1.outcome = S "fixed" ∧
    c6R1.corrected_text ≠ JVal.jnull ∧
    dictGetJ c6Map c6R1.issue_id = some c6I1 ∧
    c6I1.segment_indices = .jarr [.jint 0, .jint 1] ∧
    textAt c6Out 1 ≠ some (JVal.jstr []) := by decide

/-- Claim C6, amended: `apply_fixes` works on a deep copy (the input list
and its dicts are never written), and — PROVIDED every applied result's
issue exists in the map with an in-range, duplicate-free integer index
list, and applied results touch pairwise disjoint segment sets — the
returned copy holds `corrected_text` at each applied result's first index
and the empty string at its other indices, while every segment touched by
no applied result (in particular all of them for `kept_original` and
`failed` results) is returned unchanged. -/
theorem claim_c6_apply_fixes (segments : List JVal)
    (results : List FixResult) (issue_map : List (JVal × ParsedIssue))
    (hobj : ∀ s ∈ segments, ∃ kvs, s = JVal.jobj kvs)
    (hwf : ∀ r ∈ results, isApplied r →
      ∃ iss, ∃ l : List ℤ, dictGetJ issue_map r.issue_id = some iss ∧
        iss.segment_indices = .jarr (l.map JVal.jint) ∧
        (∀ n ∈ l, 0 ≤ n ∧ n.toNat < segments.length) ∧
        (l.map Int.toNat).Nodup)
    (hdisj : results.Pairwise (fun r1 r2 => isApplied r1 → isApplied r2 →
      ∀ j, j ∈ coveredIdx issue_map r1 → j ∉ coveredIdx issue_map r2)) :
    ∃ out, applyFixes segments results issue_map = .ok out ∧
      out.length = segments.length ∧
      (∀ s ∈ out, ∃ kvs, s = JVal.jobj kvs) ∧
      (∀ j, (∀ r ∈ results, isApplied r → j ∉ coveredIdx issue_map r) →
        out.get? j = segments.get? j) ∧
      (∀ r ∈ results, isApplied r →
        ∀ iss, dictGetJ issue_map r.issue_id = some iss →
        ∀ (hd : ℤ) (tl : List ℤ),
          iss.segment_indices = .jarr ((hd :: tl).map JVal.jint) →
          textAt out hd.toNat = some r.corrected_text ∧
          ∀ n ∈ tl, textAt out n.toNat = some (JVal.jstr [])) :=
  applyFixesLoop_spec issue_map results segments hobj hwf hdisj

/-- Disjoint data for the C6 witness. -/
def c6wI2 : ParsedIssue :=
  ⟨.jstr (S "I2"), .jstr (S "accepted"), .jarr [.jint 2],
   .jobj [], .jnull, .jnull, .jstr [], .jstr [], .jarr [], .jobj []⟩

def c6wSegs : List JVal :=
  [.jobj [(S "text", .jstr (S "a"))], .jobj [(S "text", .jstr (S "b"))],
   .jobj [(S "text", .jstr (S "c"))]]

def c6wMap : List (JVal × ParsedIssue) :=
  [(.jstr (S "I1"), c6I1), (.jstr (S "I2"), c6wI2)]

def c6wRes : List FixResult :=
  [c6R1, c6R2,
   ⟨.jstr (S "I1"), S "kept_original", .jstr (S "a"), .jstr (S "Z"), .jnull,
    .jnull⟩]

/-- Witness for `claim_c6_apply_fixes` on disjoint fixed results plus a
`kept_original` one. -/
theorem claim_c6_apply_fixes_witness :
    ∃ out, applyFixes c6wSegs c6wRes c6wMap = .ok out ∧
      out.length = c6wSegs.length ∧
      (∀ s ∈ out, ∃ kvs, s = JVal.jobj kvs) ∧
      (∀ j, (∀ r ∈ c6wRes, isApplied r → j ∉ coveredIdx c6wMap r) →
        out.get? j = c6wSegs.get? j) ∧
      (∀ r ∈ c6wRes, isApplied r →
        ∀ iss, dictGetJ c6wMap r.issue_id = some iss →
        ∀ (hd : ℤ) (tl : List ℤ),
          iss.segment_indices = .jarr ((hd :: tl).map JVal.jint) →
          textAt out hd.toNat = some r.corrected_text ∧
          ∀ n ∈ tl, textAt out n.toNat = some (JVal.jstr [])) :=
  claim_c6_apply_fixes c6wSegs c6wRes c6wMap
    (by intro s hs
        fin_cases hs <;> exact ⟨_, rfl⟩)
    (by intro r hr happ
        fin_cases hr
        · exact ⟨c6I1, [0, 1], rfl, rfl, by decide, by decide⟩
        · exact ⟨c6wI2, [2], rfl, rfl, by decide, by decide⟩
        · exact absurd happ.1 (by decide))
    (by decide)

/-! ## `run_llm_verification` (transcript_verifier_service.py lines 227-263) -/

/-- Digit run value. -/
def digitsVal (ds : List Char) : ℕ :=
  ds.foldl (fun a c => a * 10 + (c.toNat - 48)) 0

/-- The exponent suffix of a `float()` literal applied to mantissa `m`. -/
def floatExpPart (r : Str) (m : ℚ) : Option ℚ :=
  match r with
  | [] => some m
  | c :: r2 =>
    if c = 'e' ∨ c = 'E' then
      let (neg, r3) :=
        match r2 with
        | '+' :: r3 => (false, r3)
        | '-' :: r3 => (true, r3)
        | r3 => (false, r3)
      let (ds, r4) := r3.span Char.isDigit
      if ds.isEmpty ∨ ¬ r4.isEmpty then none
      else some (if neg then m / 10 ^ digitsVal ds else m * 10 ^ digitsVal ds)
    else none

/-- The unsigned core of a `float()` literal: digits, optional fraction,
optional exponent. -/
def floatCore (cs : Str) : Option ℚ :=
  let (d1, r1) := cs.span Char.isDigit
  match r1 with
  | '.' :: r2 =>
    let (d2, r3) := r2.span Char.isDigit
    if d1.isEmpty ∧ d2.isEmpty then none
    else floatExpPart r3
      ((digitsVal d1 : ℚ) + (digitsVal d2 : ℚ) / 10 ^ d2.length)
  | _ => if d1.isEmpty then none else floatExpPart r1 (digitsVal d1 : ℚ)

/-- `float(v)` (line 249).  A string is stripped and read as an optionally
signed finite decimal (the `inf`/`nan` spellings and underscore separators
CPython also accepts are not modelled — no claim reaches them; they only
widen the success set); a malformed string raises `ValueError`; `None` and
containers raise `TypeError`. -/
def pyFloat (v : JVal) : Except PyErr ℚ :=
  match v with
  | .jbool b => .ok (if b then 1 else 0)
  | .jint n => .ok (n : ℚ)
  | .jfloat q => .ok q
  | .jstr s =>
    let t := pyStrip s
    let core :=
      match t with
      | '+' :: r => floatCore r
      | '-' :: r => (floatCore r).map Neg.neg
      | r => floatCore r
    match core with
    | some q => .ok q
    | none => .error (.valueErr (S "could not convert string to float"))
  | _ => .error (.typeErr (S "float() argument must be a string or a real number"))

/-- `segments[i]["text"].strip()` with Python list indexing. -/
def segTextI (segments : List JVal) (i : ℤ) : Except PyErr Str := do
  let seg ← pyIdx segments i
  match ← seg.sub (S "text") with
  | .jstr s => .ok (pyStrip s)
  | _ => .error (.attrErr (S "object has no attribute strip"))

/-- `_get_context(segments, seg_idx, "left")` (lines 214-225): the stripped
texts of segments `max(0, seg_idx-3) .. seg_idx-1`, joined by newlines. -/
def getContextLeft (segments : List JVal) (segIdx : ℤ) :
    Except PyErr Str := do
  let lines ← ((List.range (segIdx - max 0 (segIdx - 3)).toNat).map
    (fun k => max 0 (segIdx - 3) + Int.ofNat k)).mapM (segTextI segments)
  pure (joinNl lines)

/-- `_get_context(segments, seg_idx, "right")`: the stripped texts of
segments `seg_idx+1 .. min(len, seg_idx+4)-1`, joined by newlines. -/
def getContextRight (segments : List JVal) (segIdx : ℤ) :
    Except PyErr Str := do
  let lines ← ((List.range (min (segments.length : ℤ) (segIdx + 4) -
      (segIdx + 1)).toNat).map
    (fun k => segIdx + 1 + Int.ofNat k)).mapM (segTextI segments)
  pure (joinNl lines)

/-- The opaque LLM round trip of lines 234-245: `prompt_template.format`
over the five varying pieces (`json.dumps(issue.evidence)` folded into the
oracle's last argument) composed with `get_completion`. -/
structure VerifyEnv where
  respond : Str → Str → Str → Str → List (Str × JVal) → Str

/-- Lines 246-251: parse the response and build the verdict.  `.get` on a
non-dict raises `AttributeError`; `float` of `None` or a container raises
`TypeError`; neither is caught below. -/
def verdictOf (response : Str) : Except PyErr LLMVerdict := do
  let vd ← jsonLoads (pyStrip response)
  let dec ← vd.getD (S "decision") (.jstr (S "no_problem"))
  let confRaw ← vd.getD (S "confidence") (.jfloat 0)
  let conf ← pyFloat confRaw
  let reas ← vd.getD (S "reason") (.jstr [])
  pure ⟨dec, conf, reas⟩

/-- The exception classes the `except` clause on line 254 catches. -/
def errCaught : PyErr → Bool
  | .jsonDecodeErr _ => true
  | .keyErr _ => true
  | .valueErr _ => true
  | _ => false

/-- The payload of an exception, standing in for `str(e)`. -/
def pyErrStr : PyErr → Str
  | .typeErr m => m
  | .keyErr m => m
  | .valueErr m => m
  | .jsonDecodeErr m => m
  | .attrErr m => m
  | .indexErr m => m

/-- The try/except of lines 245-260 around one verdict. -/
def runVerdict (response : Str) : Except PyErr LLMVerdict :=
  match verdictOf response with
  | .ok v => .ok v
  | .error e =>
    if errCaught e then
      .ok ⟨.jstr (S "problem"), 0,
        .jstr (S "LLM response parse error: " ++ pyErrStr e)⟩
    else .error e

/-- `run_llm_verification` (lines 227-263): per candidate, fetch the
flagged text and contexts, ask the oracle, attach the verdict in place;
an uncaught exception aborts the whole call. -/
def runLLMVerification (env : VerifyEnv) (segments : List JVal) :
    List TranscriptIssue → Except PyErr (List TranscriptIssue)
  | [] => .ok []
  | issue :: rest => do
    let segIdx ←
      match issue.segment_indices with
      | [] => .error (.indexErr (S "list index out of range"))
      | i :: _ => pure i
    let flagged ← segTextI segments segIdx
    let ctxL ← getContextLeft segments segIdx
    let ctxR ← getContextRight segments segIdx
    let response := env.respond
      (if ctxL.isEmpty then S "(начало транскрипта)" else ctxL)
      flagged
      (if ctxR.isEmpty then S "(конец транскрипта)" else ctxR)
      issue.rule_id issue.evidence
    let v ← runVerdict response
    let rest2 ← runLLMVerification env segments rest
    pure ({ issue with llm_verdict := some v } :: rest2)

/-! ### Claim C4 -/

deriving instance DecidableEq for LLMVerdict
deriving instance DecidableEq for TranscriptIssue

/-- Data refuting claim C4 as stated: a response that is valid JSON but not
an object. -/
def c4Segs : List JVal := [.jobj [(S "text", .jstr (S "hello"))]]

def c4Iss : TranscriptIssue :=
  ⟨S "ISS-001", S "open", S "high", S "repetition_loop", [0],
   .jfloat 0, .jfloat 1, [], none, none, [], none⟩

def c4BadEnv : VerifyEnv := ⟨fun _ _ _ _ _ => S "[]"⟩

/-- Claim C4, counterexample: when the LLM answers `[]` — parseable JSON
with every required field missing, which per the claim should yield the
synthesized `problem` verdict — `verdict_data.get` raises `AttributeError`,
which the `except` clause does not catch: the whole call aborts and every
issue is dropped. -/
theorem claim_c4_counterexample :
    runLLMVerification c4BadEnv c4Segs [c4Iss] =
      .error (.attrErr (S "object has no attribute get")) := by decide

theorem segTextI_ok (segments : List JVal)
    (hsegs : ∀ s ∈ segments, ∃ kvs t, s = JVal.jobj kvs ∧
      dictGet kvs (S "text") = some (.jstr t))
    (i : ℤ) (h0 : 0 ≤ i) (hlt : i < (segments.length : ℤ)) :
    ∃ t, segTextI segments i = .ok t := by
  have hlt2 : i.toNat < segments.length := by omega
  obtain ⟨kvs, t, hkv, hget⟩ :=
    hsegs (segments.get ⟨i.toNat, hlt2⟩) (segments.get_mem _ _)
  refine ⟨pyStrip t, ?_⟩
  unfold segTextI
  rw [pyIdx_nonneg segments i h0 hlt2, hkv]
  simp only [bind, Except.bind, JVal.sub, hget]

theorem mapM_segTextI_ok (segments : List JVal)
    (hsegs : ∀ s ∈ segments, ∃ kvs t, s = JVal.jobj kvs ∧
      dictGet kvs (S "text") = some (.jstr t)) :
    ∀ idxs : List ℤ, (∀ j ∈ idxs, 0 ≤ j ∧ j < (segments.length : ℤ)) →
      ∃ ls, idxs.mapM (segTextI segments) = .ok ls := by
  intro idxs
  induction idxs with
  | nil => intro _; exact ⟨[], rfl⟩
  | cons j js ih =>
    intro h
    obtain ⟨h0, hlt⟩ := h j (List.mem_cons_self _ _)
    obtain ⟨t, ht⟩ := segTextI_ok segments hsegs j h0 hlt
    obtain ⟨ls, hls⟩ := ih (fun k hk => h k (List.mem_cons_of_mem _ hk))
    refine ⟨t :: ls, ?_⟩
    rw [List.mapM_cons, ht, hls]
    rfl

theorem getContextLeft_ok (segments : List JVal)
    (hsegs : ∀ s ∈ segments, ∃ kvs t, s = JVal.jobj kvs ∧
      dictGet kvs (S "text") = some (.jstr t))
    (i : ℤ) (hlt : i < (segments.length : ℤ)) :
    ∃ c, getContextLeft segments i = .ok c := by
  obtain ⟨ls, hls⟩ := mapM_segTextI_ok segments hsegs
    ((List.range (i - max 0 (i - 3)).toNat).map
      (fun k => max 0 (i - 3) + Int.ofNat k))
    (by
      intro j hj
      obtain ⟨k, hk, rfl⟩ := List.mem_map.mp hj
      rw [List.mem_range] at hk
      rw [show Int.ofNat k = (k : ℤ) from rfl]
      omega)
  refine ⟨joinNl ls, ?_⟩
  unfold getContextLeft
  rw [hls]
  rfl

theorem getContextRight_ok (segments : List JVal)
    (hsegs : ∀ s ∈ segments, ∃ kvs t, s = JVal.jobj kvs ∧
      dictGet kvs (S "text") = some (.jstr t))
    (i : ℤ) (h0 : 0 ≤ i) :
    ∃ c, getContextRight segments i = .ok c := by
  obtain ⟨ls, hls⟩ := mapM_segTextI_ok segments hsegs
    ((List.range (min (segments.length : ℤ) (i + 4) - (i + 1)).toNat).map
      (fun k => i + 1 + Int.ofNat k))
    (by
      intro j hj
      obtain ⟨k, hk, rfl⟩ := List.mem_map.mp hj
      rw [List.mem_range] at hk
      rw [show Int.ofNat k = (k : ℤ) from rfl]
      omega)
  refine ⟨joinNl ls, ?_⟩
  unfold getContextRight
  rw [hls]
  rfl

theorem runLLM_ok (env : VerifyEnv) (segments : List JVal)
    (hsegs : ∀ s ∈ segments, ∃ kvs t, s = JVal.jobj kvs ∧
      dictGet kvs (S "text") = some (.jstr t))
    (hresp : ∀ cl f cr rid ev, ∃ v,
      runVerdict (env.respond cl f cr rid ev) = .ok v) :
    ∀ candidates : List TranscriptIssue,
      (∀ i ∈ candidates, ∃ hd, ∃ t : List ℤ, i.segment_indices = hd :: t ∧
        0 ≤ hd ∧ hd < (segments.length : ℤ)) →
      ∃ out, runLLMVerification env segments candidates = .ok out ∧
        out.map (fun i => { i with llm_verdict := none }) =
          candidates.map (fun i => { i with llm_verdict := none }) ∧
        ∀ i ∈ out, ∃ v, i.llm_verdict = some v := by
  intro candidates
  induction candidates with
  | nil => intro _; exact ⟨[], rfl, rfl, fun i hi => absurd hi
      (List.not_mem_nil i)⟩
  | cons issue rest ih =>
    intro hcand
    obtain ⟨hd, t, hsi, h0, hlt⟩ := hcand issue (List.mem_cons_self _ _)
    obtain ⟨f, hf⟩ := segTextI_ok segments hsegs hd h0 hlt
    obtain ⟨cl, hcl⟩ := getContextLeft_ok segments hsegs hd hlt
    obtain ⟨cr, hcr⟩ := getContextRight_ok segments hsegs hd h0
    obtain ⟨v, hv⟩ := hresp
      (if cl.isEmpty then S "(начало транскрипта)" else cl) f
      (if cr.isEmpty then S "(конец транскрипта)" else cr)
      issue.rule_id issue.evidence
    obtain ⟨out, hout, hmap, hall⟩ :=
      ih (fun i hi => hcand i (List.mem_cons_of_mem _ hi))
    refine ⟨{ issue with llm_verdict := some v } :: out, ?_, ?_, ?_⟩
    · unfold runLLMVerification
      rw [hsi]
      simp only [bind, Except.bind, pure, Except.pure, hf, hcl, hcr, hv,
        hout]
    · simp only [List.map_cons, hmap]
    · intro i hi
      rcases List.mem_cons.mp hi with heq | hm
      · exact ⟨v, by rw [heq]⟩
      · exact hall i hm

/-- Claim C4, amended: PROVIDED every LLM response either parses to a
verdict or fails with one of the caught classes (`JSONDecodeError`,
`KeyError`, `ValueError`) — excluded are a non-object JSON response
(`AttributeError` at `.get`) and a null or container `confidence`
(`TypeError` at `float`), which abort the whole call — the candidates come
back in the given order with no field other than `llm_verdict` modified,
every issue carries a verdict, and on each caught failure the verdict is
the synthesized `problem` / 0.0 / "LLM response parse error: ..." one. -/
theorem claim_c4_run_llm_verification (env : VerifyEnv)
    (segments : List JVal) (candidates : List TranscriptIssue)
    (hsegs : ∀ s ∈ segments, ∃ kvs t, s = JVal.jobj kvs ∧
      dictGet kvs (S "text") = some (.jstr t))
    (hcand : ∀ i ∈ candidates, ∃ hd, ∃ t : List ℤ,
      i.segment_indices = hd :: t ∧ 0 ≤ hd ∧ hd < (segments.length : ℤ))
    (hresp : ∀ cl f cr rid ev, ∃ v,
      runVerdict (env.respond cl f cr rid ev) = .ok v) :
    (∃ out, runLLMVerification env segments candidates = .ok out ∧
      out.map (fun i => { i with llm_verdict := none }) =
        candidates.map (fun i => { i with llm_verdict := none }) ∧
      ∀ i ∈ out, ∃ v, i.llm_verdict = some v) ∧
    (∀ r e, verdictOf r = .error e → errCaught e = true →
      runVerdict r = .ok ⟨.jstr (S "problem"), 0,
        .jstr (S "LLM response parse error: " ++ pyErrStr e)⟩) := by
  constructor
  · exact runLLM_ok env segments hsegs hresp candidates hcand
  · intro r e he hc
    simp only [runVerdict, he, hc, eq_self_iff_true, if_true]

def c4wEnv : VerifyEnv :=
  ⟨fun _ _ _ _ _ =>
    S "\x7b\"decision\": \"problem\", \"confidence\": 0.5, \"reason\": \"r\"\x7d"⟩

set_option maxRecDepth 100000 in
/-- Witness for `claim_c4_run_llm_verification` with a well-behaved
oracle. -/
theorem claim_c4_run_llm_verification_witness :
    (∃ out, runLLMVerification c4wEnv c4Segs [c4Iss] = .ok out ∧
      out.map (fun i => { i with llm_verdict := none }) =
        [c4Iss].map (fun i => { i with llm_verdict := none }) ∧
      ∀ i ∈ out, ∃ v, i.llm_verdict = some v) ∧
    (∀ r e, verdictOf r = .error e → errCaught e = true →
      runVerdict r = .ok ⟨.jstr (S "problem"), 0,
        .jstr (S "LLM response parse error: " ++ pyErrStr e)⟩) :=
  claim_c4_run_llm_verification c4wEnv c4Segs [c4Iss]
    (by intro s hs
        fin_cases hs
        exact ⟨_, _, rfl, rfl⟩)
    (by intro i hi
        fin_cases hi
        exact ⟨0, [], rfl, by decide, by decide⟩)
    (by intro cl f cr rid ev
        refine ⟨⟨.jstr (S "problem"), 1/2, .jstr (S "r")⟩, ?_⟩
        show runVerdict
          (S "\x7b\"decision\": \"problem\", \"confidence\": 0.5, \"reason\": \"r\"\x7d") =
          .ok ⟨.jstr (S "problem"), 1/2, .jstr (S "r")⟩
        decide)

/-! ## `fix_transcript` (transcript_fixer_service.py lines 252-355) -/

/-- Python `a - b` on dynamic values (numbers only; anything else raises
`TypeError`). -/
def pySub (a b : JVal) : Except PyErr JVal :=
  match a, b with
  | .jint x, .jint y => .ok (.jint (x - y))
  | _, _ =>
    match a.asNum, b.asNum with
    | some x, some y => .ok (.jfloat (x - y))
    | _, _ => .error (.typeErr (S "unsupported operand types for -"))

/-- Python `a < b`, same domain as `pyLeJ`. -/
def pyLtJ (a b : JVal) : Except PyErr Bool :=
  match a.asNum, b.asNum with
  | some x, some y => .ok (decide (x < y))
  | _, _ =>
    match a, b with
    | .jstr x, .jstr y => .ok (lexLE x y && !decide (x = y))
    | _, _ => .error (.typeErr (S "unsupported comparison"))

/-- `segments[i]["text"].strip()` with a dynamic index. -/
def segTextDyn (segments : List JVal) (e : JVal) : Except PyErr Str := do
  let seg ← pyIdxJ segments e
  match ← seg.sub (S "text") with
  | .jstr s => .ok (pyStrip s)
  | _ => .error (.attrErr (S "object has no attribute strip"))

/-- The generator of `_get_segment_text` (lines 152-153): for each index,
test `i < len(segments)` then fetch and strip. -/
def segTextsAux (segments : List JVal) : List JVal → Except PyErr (List Str)
  | [] => .ok []
  | e :: rest => do
    let b ← pyLtJ e (.jint (segments.length : ℤ))
    if b then do
      let t ← segTextDyn segments e
      let ts ← segTextsAux segments rest
      pure (t :: ts)
    else segTextsAux segments rest

/-- `_get_segment_text(segments, indices)` (lines 152-153). -/
def segTextsJoin (segments : List JVal) (v : JVal) : Except PyErr Str := do
  let l ← pyList v
  let ts ← segTextsAux segments l
  pure (joinSpace ts)

/-- `_get_context_text(segments, anchor_idx, direction, 3)`
(lines 156-168). -/
def ctxTextInt (segments : List JVal) (n : ℤ) (isLeft : Bool) :
    Except PyErr Str := do
  let idxs : List ℤ :=
    if isLeft then
      (List.range (n + 1 - max 0 (n - 2)).toNat).map
        (fun k => max 0 (n - 2) + Int.ofNat k)
    else
      (List.range (min (segments.length : ℤ) (n + 3) - n).toNat).map
        (fun k => n + Int.ofNat k)
  let lines ← idxs.mapM (segTextI segments)
  pure (joinNl lines)

def ctxText (segments : List JVal) (anchor : JVal) (isLeft : Bool) :
    Except PyErr Str :=
  match anchor with
  | .jnull => .ok (S "(начало/конец транскрипта)")
  | .jint n => ctxTextInt segments n isLeft
  | .jbool b => ctxTextInt segments (if b then 1 else 0) isLeft
  | _ => .error (.typeErr (S "unsupported operand types"))

/-- `result.original_text[:120] + ("..." if len > 120 else "")`
(lines 235-238); the slicing of a non-`str` value (only reachable when an
LLM verdict supplied a non-string) is modelled as the `TypeError` its
`+ "..."` would raise. -/
def previewOf (v : JVal) : Except PyErr Str :=
  match v with
  | .jstr s => .ok (s.take 120 ++ (if 120 < s.length then S "..." else []))
  | _ => .error (.typeErr (S "can only concatenate str"))

/-- `_generate_fix_report` (lines 209-247). -/
def genFixReport (tp rp : Str) (totalSegments totalIssues processed : ℕ)
    (results : List FixResult) : Except PyErr Str := do
  let fixedCount := results.countP (fun r => r.outcome = S "fixed")
  let keptCount := results.countP (fun r => r.outcome = S "kept_original")
  let failedCount := results.countP (fun r => r.outcome = S "failed")
  let header : List Str :=
    [S "# Transcript Fix Report", [],
     S "- **Input**: " ++ tp ++ S " (" ++ natChs totalSegments ++
       S " segments)",
     S "- **Report**: " ++ rp ++ S " (" ++ natChs totalIssues ++
       S " issues)",
     S "- **Processed**: " ++ natChs processed ++ S " issues",
     S "- **Results**: " ++ natChs fixedCount ++ S " fixed, " ++
       natChs keptCount ++ S " kept_original, " ++ natChs failedCount ++
       S " failed",
     [], S "---", []]
  let blocks ← results.mapM (fun r => do
    let p ← previewOf r.original_text
    let more1 ←
      if r.corrected_text.truthy then do
        let cp ← previewOf r.corrected_text
        pure [S "Corrected: \"" ++ cp ++ S "\""]
      else pure ([] : List Str)
    let more2 := if r.source.truthy then [S "Source: " ++ jvalStr r.source]
      else []
    let more3 := if r.reasoning.truthy then
      [S "Reasoning: " ++ jvalStr r.reasoning] else []
    pure ([S "## " ++ jvalStr r.issue_id ++ S ": " ++ r.outcome, [],
      S "Original: \"" ++ p ++ S "\""] ++ more1 ++ more2 ++ more3 ++ [[]]))
  pure (joinNl (header ++ blocks.flatten))

/-- `issue_map = {i.issue_id: i for i in issues}` (line 318): insertion
order with in-place overwrite on duplicate keys; an unhashable key raises
`TypeError`. -/
def dictSetJ {α : Type} (kvs : List (JVal × α)) (k : JVal) (v : α) :
    List (JVal × α) :=
  match kvs with
  | [] => [(k, v)]
  | (k0, v0) :: rest =>
    if pyValEq k0 k then (k0, v) :: rest else (k0, v0) :: dictSetJ rest k v

def buildIssueMap : List ParsedIssue →
    Except PyErr (List (JVal × ParsedIssue)) :=
  let step := fun (m : Except PyErr (List (JVal × ParsedIssue)))
      (i : ParsedIssue) => do
    let kvs ← m
    match i.issue_id with
    | .jarr _ => .error (.typeErr (S "unhashable type"))
    | .jobj _ => .error (.typeErr (S "unhashable type"))
    | k => pure (dictSetJ kvs k i)
  fun issues => issues.foldl step (.ok [])

/-- The externally visible events of one `fix_transcript` run. -/
inductive FixEvent
  | createTmp (name : Str)
  | extract (name : Str)
  | whisper (name : Str)
  | qwen (name : Str)
  | judge (issue_id : JVal)
  | removeTmp (name : Str)
deriving DecidableEq

/-- Filesystem-and-trace state threaded through the run. -/
structure FSState where
  files : List Str
  trace : List FixEvent
deriving DecidableEq

def addTrace (st : FSState) (e : FixEvent) : FSState :=
  { st with trace := st.trace ++ [e] }

/-- The oracles of the run: `extract_audio_slice` (media path folded in),
the two retranscriptions, and the judge round trip
(`prompt_template.format` + `get_completion` of `_judge_and_reconstruct`;
its `json.loads` stays in the embedding). -/
structure FixEnv where
  extract : Str → JVal → JVal → Except PyErr Unit
  whisper : Str → Except PyErr Str
  qwen : Str → Except PyErr Str
  judgeResp : Str → Str → Str → Str → Str → Except PyErr Str

/-- The `NamedTemporaryFile(suffix=".wav")` name for the k-th window. -/
def tmpName (k : ℕ) : Str := S "tmp" ++ natChs k ++ S ".wav"

/-- Lines 280-287: the window's effective end time and the
`duration <= 0` test. -/
def windowDuration (segments : List JVal) (w : RWindow) :
    Except PyErr (JVal × Bool) := do
  let endT ←
    if w.end_time = JVal.jnull then do
      let lastSeg ← pyIdx segments (-1)
      lastSeg.sub (S "end")
    else pure w.end_time
  let dur ← pySub endT w.start_time
  let le ← pyLeJ dur (.jint 0)
  pure (dur, le)

/-- The per-issue texts fed to the judge (lines 311-313). -/
def judgePrep (segments : List JVal) (issue : ParsedIssue) :
    Except PyErr (Str × Str × Str) := do
  let original ← segTextsJoin segments issue.segment_indices
  let ctxL ← ctxText segments issue.left_valid_index true
  let ctxR ← ctxText segments issue.right_valid_index false
  pure (original, ctxL, ctxR)

/-- Lines 320-343: build the `FixResult` for one issue from the parsed
verdict. -/
def resultOfVerdict (issue : ParsedIssue) (original : Str) (verdict : JVal) :
    Except PyErr FixResult := do
  let hasProb ← verdict.getD (S "has_problem") JVal.jnull
  if hasProb.truthy then do
    let corr ← verdict.getD (S "corrected_text") (.jstr [])
    let src ← verdict.getD (S "source") (.jstr [])
    let reas ← verdict.getD (S "reasoning") (.jstr [])
    pure ⟨issue.issue_id, S "fixed", .jstr original, corr, src, reas⟩
  else do
    let reas ← verdict.getD (S "reasoning") (.jstr [])
    pure ⟨issue.issue_id, S "kept_original", .jstr original, .jnull, .jnull,
      reas⟩

/-- The judge loop over one window's issues (lines 309-343): the inner
`except Exception: raise` re-raises, so the first failure — from the
completion call or from `json.loads` on its response — aborts the loop. -/
def judgeIssues (env : FixEnv) (segments : List JVal) (wT qT : Str) :
    List ParsedIssue → FSState → Except PyErr (List FixResult) × FSState
  | [], st => (.ok [], st)
  | issue :: rest, st =>
    match judgePrep segments issue with
    | .error e => (.error e, st)
    | .ok (original, ctxL, ctxR) =>
      let st1 := addTrace st (.judge issue.issue_id)
      match env.judgeResp original ctxL ctxR wT qT with
      | .error e => (.error e, st1)
      | .ok resp =>
        match (do
            let verdict ← jsonLoads (pyStrip resp)
            resultOfVerdict issue original verdict) with
        | .error e => (.error e, st1)
        | .ok r =>
          match judgeIssues env segments wT qT rest st1 with
          | (.error e, st2) => (.error e, st2)
          | (.ok rs, st2) => (.ok (r :: rs), st2)

/-- The `with tempfile.NamedTemporaryFile ... try ... finally` frame
(lines 298-347): create the file, run the body, always remove the file (if
still present) afterwards, and pass the body's outcome — success or
exception — through. -/
def withTmp {α : Type} (wav : Str) (st : FSState)
    (body : FSState → Except PyErr α × FSState) :
    Except PyErr α × FSState :=
  let p := body (addTrace { st with files := st.files ++ [wav] }
    (.createTmp wav))
  if wav ∈ p.2.files then
    (p.1, addTrace { p.2 with files := p.2.files.erase wav }
      (.removeTmp wav))
  else p

/-- The try body of one window (lines 301-343): extract, retranscribe
twice, judge each issue. -/
def windowBody (env : FixEnv) (segments : List JVal) (w : RWindow)
    (wav : Str) (dur : JVal) (st1 : FSState) :
    Except PyErr (List FixResult) × FSState :=
  match env.extract wav w.start_time dur with
  | .error e => (.error e, addTrace st1 (.extract wav))
  | .ok _ =>
    match env.whisper wav with
    | .error e => (.error e, addTrace (addTrace st1 (.extract wav))
        (.whisper wav))
    | .ok wT =>
      match env.qwen wav with
      | .error e => (.error e, addTrace (addTrace (addTrace st1
          (.extract wav)) (.whisper wav)) (.qwen wav))
      | .ok qT =>
        judgeIssues env segments wT qT w.issues
          (addTrace (addTrace (addTrace st1 (.extract wav)) (.whisper wav))
            (.qwen wav))

/-- One window of the main loop (lines 279-347). -/
def runWindow (env : FixEnv) (segments : List JVal) (w : RWindow) (k : ℕ)
    (st : FSState) : Except PyErr (List FixResult) × FSState :=
  match windowDuration segments w with
  | .error e => (.error e, st)
  | .ok (dur, le) =>
    if le then
      (w.issues.mapM (fun issue => do
        let orig ← segTextsJoin segments issue.segment_indices
        pure (⟨issue.issue_id, S "failed", .jstr orig, .jnull, .jnull,
          .jstr (S "Invalid window duration")⟩ : FixResult)), st)
    else
      withTmp (tmpName k) st (windowBody env segments w (tmpName k) dur)

/-- The `for window in windows` loop (line 279), numbering temp files in
order. -/
def runWindows (env : FixEnv) (segments : List JVal) :
    List RWindow → ℕ → FSState → Except PyErr (List FixResult) × FSState
  | [], _, st => (.ok [], st)
  | w :: ws, k, st =>
    match runWindow env segments w k st with
    | (.error e, st1) => (.error e, st1)
    | (.ok rs, st1) =>
      match runWindows env segments ws (k + 1) st1 with
      | (.error e, st2) => (.error e, st2)
      | (.ok rs2, st2) => (.ok (rs ++ rs2), st2)

/-- `fix_transcript` (lines 252-355).  `RetranscriptionService(...)` and
`_load_reconstruct_prompt()` are constructor calls folded into the oracle
environment; `copy.deepcopy(segments)` on the no-issue path is the value
itself in this pure embedding. -/
def fixTranscript (env : FixEnv) (segments : List JVal)
    (transcriptPath reportText : Str) (includeOpen : Bool) (st : FSState) :
    Except PyErr (List JVal × Str) × FSState :=
  match parseReport reportText includeOpen with
  | .error e => (.error e, st)
  | .ok issues =>
    if issues.isEmpty then
      match genFixReport transcriptPath (S "(report)") segments.length 0 0
          [] with
      | .error e => (.error e, st)
      | .ok rep => (.ok (segments, rep), st)
    else
      match buildIssueMap issues with
      | .error e => (.error e, st)
      | .ok imap =>
        match mergeWindows issues segments with
        | .error e => (.error e, st)
        | .ok windows =>
          match runWindows env segments windows 0 st with
          | (.error e, st1) => (.error e, st1)
          | (.ok results, st1) =>
            match applyFixes segments results imap with
            | .error e => (.error e, st1)
            | .ok fixedSegs =>
              match genFixReport transcriptPath (S "(report)")
                  segments.length issues.length issues.length results with
              | .error e => (.error e, st1)
              | .ok rep => (.ok (fixedSegs, rep), st1)

/-! ### Claim C7 -/

theorem judgeIssues_files (env : FixEnv) (segments : List JVal)
    (wT qT : Str) :
    ∀ (l : List ParsedIssue) (st : FSState),
      ((judgeIssues env segments wT qT l st).2).files = st.files := by
  intro l
  induction l with
  | nil => intro st; rfl
  | cons issue rest ih =>
    intro st
    unfold judgeIssues
    cases hp : judgePrep segments issue with
    | error e => simp [hp]
    | ok triple =>
      obtain ⟨original, ctxL, ctxR⟩ := triple
      cases hr : env.judgeResp original ctxL ctxR wT qT with
      | error e => simp [hp, hr, addTrace]
      | ok resp =>
        cases hv : (do
            let verdict ← jsonLoads (pyStrip resp)
            resultOfVerdict issue original verdict :
            Except PyErr FixResult) with
        | error e => simp [hp, hr, hv, addTrace]
        | ok r =>
          have hrec := ih (addTrace st (.judge issue.issue_id))
          cases hj : judgeIssues env segments wT qT rest
              (addTrace st (.judge issue.issue_id)) with
          | mk res st2 =>
            rw [hj] at hrec
            simp only [addTrace] at hj hrec
            cases res <;> simp [hp, hr, hv, hj, addTrace] <;>
              simpa [addTrace] using hrec

theorem windowBody_files (env : FixEnv) (segments : List JVal)
    (w : RWindow) (wav : Str) (dur : JVal) (st1 : FSState) :
    ((windowBody env segments w wav dur st1).2).files = st1.files := by
  unfold windowBody
  cases he : env.extract wav w.start_time dur with
  | error e => simp [he, addTrace]
  | ok u =>
    cases hw : env.whisper wav with
    | error e => simp [he, hw, addTrace]
    | ok wT =>
      cases hq : env.qwen wav with
      | error e => simp [he, hw, hq, addTrace]
      | ok qT =>
        have hji2 := judgeIssues_files env segments wT qT w.issues
          (addTrace (addTrace (addTrace st1 (.extract wav)) (.whisper wav))
            (.qwen wav))
        simp only [he, hw, hq]
        simpa [addTrace] using hji2

theorem withTmp_files {α : Type} (wav : Str) (st : FSState)
    (body : FSState → Except PyErr α × FSState)
    (hbody : ∀ st', ((body st').2).files = st'.files)
    (hf : wav ∉ st.files) :
    ((withTmp wav st body).2).files = st.files := by
  have hB : ((body (addTrace { st with files := st.files ++ [wav] }
      (.createTmp wav))).2).files = st.files ++ [wav] := hbody _
  simp only [withTmp]
  rw [if_pos (by rw [hB]; simp)]
  show ((body (addTrace { st with files := st.files ++ [wav] }
    (.createTmp wav))).2).files.erase wav = st.files
  rw [hB, List.erase_append_right _ hf]
  simp

theorem runWindow_files (env : FixEnv) (segments : List JVal)
    (w : RWindow) (k : ℕ) (st : FSState) (hf : tmpName k ∉ st.files) :
    ((runWindow env segments w k st).2).files = st.files := by
  unfold runWindow
  cases hd : windowDuration segments w with
  | error e => simp [hd]
  | ok p =>
    obtain ⟨dur, le⟩ := p
    cases le with
    | true => simp [hd]
    | false =>
      simp only [hd, Bool.false_eq_true, if_false]
      exact withTmp_files (tmpName k) st _
        (fun st' => windowBody_files env segments w (tmpName k) dur st') hf

/-- Claim C7: a judge failure on the first issue of the first window
propagates out of `fix_transcript` unchanged, after exactly one judge call
(no further issue or window is processed) and after the window's temporary
audio file has been removed; and, for every window and any outcome of
extraction, transcription or judging, `runWindow` leaves the file set as it
found it. -/
theorem claim_c7_fix_transcript
    (env : FixEnv) (segments : List JVal) (tp reportText : Str)
    (includeOpen : Bool) (st0 : FSState)
    (issues : List ParsedIssue) (imap : List (JVal × ParsedIssue))
    (w : RWindow) (ws : List RWindow) (i1 : ParsedIssue)
    (irest : List ParsedIssue) (dur : JVal) (wT qT orig cl cr : Str)
    (e : PyErr)
    (hparse : parseReport reportText includeOpen = .ok issues)
    (hne : issues.isEmpty = false)
    (hmap : buildIssueMap issues = .ok imap)
    (hmw : mergeWindows issues segments = .ok (w :: ws))
    (hfiles : tmpName 0 ∉ st0.files)
    (hdur : windowDuration segments w = .ok (dur, false))
    (hex : env.extract (tmpName 0) w.start_time dur = .ok ())
    (hwh : env.whisper (tmpName 0) = .ok wT)
    (hqw : env.qwen (tmpName 0) = .ok qT)
    (hwi : w.issues = i1 :: irest)
    (hpr : judgePrep segments i1 = .ok (orig, cl, cr))
    (hje : env.judgeResp orig cl cr wT qT = .error e) :
    fixTranscript env segments tp reportText includeOpen st0 = (.error e,
      { files := st0.files,
        trace := st0.trace ++ [.createTmp (tmpName 0), .extract (tmpName 0),
          .whisper (tmpName 0), .qwen (tmpName 0), .judge i1.issue_id,
          .removeTmp (tmpName 0)] }) ∧
    ∀ (env2 : FixEnv) (segments2 : List JVal) (w2 : RWindow) (k : ℕ)
      (st : FSState), tmpName k ∉ st.files →
      ((runWindow env2 segments2 w2 k st).2).files = st.files := by
  constructor
  · have hji : ∀ st, judgeIssues env segments wT qT (i1 :: irest) st =
        (.error e, addTrace st (.judge i1.issue_id)) := by
      intro st
      unfold judgeIssues
      simp only [hpr, hje]
    have herase : (st0.files ++ [tmpName 0]).erase (tmpName 0) =
        st0.files := by
      rw [List.erase_append_right _ hfiles]
      simp
    have hmem : tmpName 0 ∈ st0.files ++ [tmpName 0] := by simp
    have hrw : runWindow env segments w 0 st0 = (.error e,
        { files := st0.files,
          trace := st0.trace ++ [.createTmp (tmpName 0),
            .extract (tmpName 0), .whisper (tmpName 0), .qwen (tmpName 0),
            .judge i1.issue_id, .removeTmp (tmpName 0)] }) := by
      have hbody : windowBody env segments w (tmpName 0) dur
          (addTrace { st0 with files := st0.files ++ [tmpName 0] }
            (.createTmp (tmpName 0))) =
          (.error e,
           { files := st0.files ++ [tmpName 0],
             trace := st0.trace ++ [.createTmp (tmpName 0),
               .extract (tmpName 0), .whisper (tmpName 0),
               .qwen (tmpName 0), .judge i1.issue_id] }) := by
        unfold windowBody
        simp only [hex, hwh, hqw, hwi, hji]
        simp only [addTrace, List.append_assoc, List.cons_append,
          List.nil_append]
      simp only [addTrace] at hbody
      unfold runWindow
      simp only [hdur, Bool.false_eq_true, if_false]
      unfold withTmp
      simp only [addTrace, hbody, hmem, if_true, herase]
      simp [List.append_assoc]
    unfold fixTranscript
    simp only [hparse, hne, Bool.false_eq_true, if_false, hmap, hmw,
      runWindows, hrw]
  · intro env2 segments2 w2 k st hf
    exact runWindow_files env2 segments2 w2 k st hf

/-- Concrete data for the C7 witness: one issue, one window, a judge
oracle that always fails. -/
def c7Rep : Str := S "```transcript-issue\n\x7b\"issue_id\": \"ISS-001\", \"status\": \"accepted\", \"segment_indices\": [1], \"time_range\": \x7b\"start\": 2.0, \"end\": 4.0\x7d, \"left_valid_index\": 0, \"right_valid_index\": 2\x7d\n```\n"

def c7Segs : List JVal := [
  .jobj [(S "start", .jfloat 0), (S "end", .jfloat 2),
    (S "text", .jstr (S "aa"))],
  .jobj [(S "start", .jfloat 2), (S "end", .jfloat 4),
    (S "text", .jstr (S "bb"))],
  .jobj [(S "start", .jfloat 4), (S "end", .jfloat 6),
    (S "text", .jstr (S "cc"))]]

def c7Iss : ParsedIssue :=
  ⟨.jstr (S "ISS-001"), .jstr (S "accepted"), .jarr [.jint 1],
   .jobj [(S "start", .jfloat 2), (S "end", .jfloat 4)],
   .jint 0, .jint 2, .jstr [], .jstr [], .jarr [], .jobj []⟩

def c7Win : RWindow :=
  ⟨.jfloat 0, .jfloat 6, [c7Iss], [.jint 1], .jint 0, .jint 2⟩

def c7Env : FixEnv :=
  ⟨fun _ _ _ => .ok (), fun _ => .ok (S "wspr"), fun _ => .ok (S "qwen"),
   fun _ _ _ _ _ => .error (.typeErr (S "llm down"))⟩

set_option maxRecDepth 100000 in
/-- Witness for `claim_c7_fix_transcript` on a concrete failing judge. -/
theorem claim_c7_fix_transcript_witness :
    fixTranscript c7Env c7Segs (S "in.json") c7Rep false ⟨[], []⟩ =
      (.error (.typeErr (S "llm down")),
       { files := [],
         trace := [.createTmp (tmpName 0), .extract (tmpName 0),
           .whisper (tmpName 0), .qwen (tmpName 0),
           .judge c7Iss.issue_id, .removeTmp (tmpName 0)] }) ∧
    ∀ (env2 : FixEnv) (segments2 : List JVal) (w2 : RWindow) (k : ℕ)
      (st : FSState), tmpName k ∉ st.files →
      ((runWindow env2 segments2 w2 k st).2).files = st.files :=
  claim_c7_fix_transcript c7Env c7Segs (S "in.json") c7Rep false ⟨[], []⟩
    [c7Iss] [(.jstr (S "ISS-001"), c7Iss)] c7Win [] c7Iss []
    (.jfloat 6) (S "wspr") (S "qwen") (S "bb") (S "aa") (S "cc")
    (.typeErr (S "llm down"))
    (by decide) (by decide) (by decide) (by decide) (by decide) (by decide)
    (by decide) (by decide) (by decide) (by decide) (by decide) (by decide)

/-! ## `generate_report` (transcript_verifier_service.py lines 274-351) -/

/-- Lowercase hexadecimal digit. -/
def hexCh (d : ℕ) : Char :=
  if d < 10 then digCh d else Char.ofNat (87 + d % 16)

/-- The escape `json.dumps` (with `ensure_ascii=False`) applies to one
character: `\\`, `\"`, the short control escapes, `\u00XX` for the other
control characters, everything else raw. -/
def escCh (c : Char) : Str :=
  if c = '"' then ['\\', '"']
  else if c = '\\' then ['\\', '\\']
  else if c = '\x08' then ['\\', 'b']
  else if c = '\x0c' then ['\\', 'f']
  else if c = '\n' then ['\\', 'n']
  else if c = '\r' then ['\\', 'r']
  else if c = '\t' then ['\\', 't']
  else if c.toNat < 32 then
    ['\\', 'u', '0', '0', hexCh (c.toNat / 16), hexCh (c.toNat % 16)]
  else [c]

/-- The JSON rendering of a string. -/
def printJStr (s : Str) : Str := '"' :: (s.map escCh).flatten ++ ['"']

mutual

/-- Values the decimal-rational JSON model round-trips: floats must have a
finite decimal expansion (every Python float does) and object keys must be
distinct (every `dict` is). -/
def jsonSafe : JVal → Bool
  | .jnull => true
  | .jbool _ => true
  | .jint _ => true
  | .jfloat q => (decSplit 1200 q).isSome
  | .jstr _ => true
  | .jarr l => jsonSafeL l
  | .jobj l => (l.map Prod.fst).Nodup && jsonSafeO l

def jsonSafeL : List JVal → Bool
  | [] => true
  | v :: vs => jsonSafe v && jsonSafeL vs

def jsonSafeO : List (Str × JVal) → Bool
  | [] => true
  | (_, v) :: es => jsonSafe v && jsonSafeO es

end

mutual

/-- Node count of a value, a parser-fuel bound. -/
def jsize : JVal → ℕ
  | .jarr l => jsizeL l + 1
  | .jobj l => jsizeO l + 1
  | _ => 1

def jsizeL : List JVal → ℕ
  | [] => 0
  | v :: vs => jsize v + jsizeL vs + 1

def jsizeO : List (Str × JVal) → ℕ
  | [] => 0
  | (_, v) :: es => jsize v + jsizeO es + 1

end

/-- The `indent=2` prefix at nesting depth `n`. -/
def indentStr (n : ℕ) : Str := List.replicate (2 * n) ' '

mutual

/-- `json.dumps(v, ensure_ascii=False, indent=2)` at nesting depth `ind`:
items one per line at depth `ind+1`, closing bracket back at depth `ind`,
empty containers inline, separators `","` and `": "`. -/
def printJVal : ℕ → JVal → Str
  | _, .jnull => S "null"
  | _, .jbool true => S "true"
  | _, .jbool false => S "false"
  | _, .jint n => intChs n
  | _, .jfloat q => floatChs q
  | _, .jstr s => printJStr s
  | ind, .jarr l =>
    if l.isEmpty then S "[]"
    else '[' :: '\n' :: (printJItems (ind + 1) l ++
      '\n' :: (indentStr ind ++ [']']))
  | ind, .jobj l =>
    if l.isEmpty then [Char.ofNat 123, Char.ofNat 125]
    else Char.ofNat 123 :: '\n' :: (printJEntries (ind + 1) l ++
      '\n' :: (indentStr ind ++ [Char.ofNat 125]))

def printJItems : ℕ → List JVal → Str
  | _, [] => []
  | ind, [x] => indentStr ind ++ printJVal ind x
  | ind, x :: y :: ys =>
    indentStr ind ++ printJVal ind x ++ ',' :: '\n' ::
      printJItems ind (y :: ys)

def printJEntries : ℕ → List (Str × JVal) → Str
  | _, [] => []
  | ind, [(k, v)] => indentStr ind ++ printJStr k ++ ':' :: ' ' ::
      printJVal ind v
  | ind, (k, v) :: f :: fs =>
    indentStr ind ++ printJStr k ++ ':' :: ' ' :: printJVal ind v ++
      ',' :: '\n' :: printJEntries ind (f :: fs)

end

/-- No newline characters (the content fits on one physical report line). -/
def nlFree (s : Str) : Bool := s.all (fun c => decide (c ≠ '\n'))

/-- The next character, if any, cannot extend a JSON number literal. -/
def numBoundary : Str → Bool
  | [] => true
  | c :: _ =>
    !(isDig c || decide (c = '.') || decide (c = 'e') || decide (c = 'E'))

theorem joinNl_cons2 (l l2 : Str) (rest : List Str) :
    joinNl (l :: l2 :: rest) = l ++ '\n' :: joinNl (l2 :: rest) := by
  simp [joinNl]

theorem joinNl_append (as bs : List Str) (ha : as ≠ []) (hb : bs ≠ []) :
    joinNl (as ++ bs) = joinNl as ++ '\n' :: joinNl bs := by
  cases as with
  | nil => exact absurd rfl ha
  | cons a as2 =>
    cases bs with
    | nil => exact absurd rfl hb
    | cons b bs2 => simp [joinNl, List.flatMap_append]

/-- The ten digit characters, enumerated. -/
theorem digCh_spec (d : ℕ) :
    (digCh d).toNat = 48 + d % 10 ∧ isDig (digCh d) = true := by
  unfold digCh
  have h : d % 10 = 0 ∨ d % 10 = 1 ∨ d % 10 = 2 ∨ d % 10 = 3 ∨ d % 10 = 4 ∨
      d % 10 = 5 ∨ d % 10 = 6 ∨ d % 10 = 7 ∨ d % 10 = 8 ∨ d % 10 = 9 := by omega
  rcases h with h|h|h|h|h|h|h|h|h|h <;> rw [h] <;> exact ⟨rfl, rfl⟩

/-- The decimal-digit range of a digit character's code point. -/
theorem isDig_toNat (c : Char) (h : isDig c = true) :
    48 ≤ c.toNat ∧ c.toNat ≤ 57 := by
  simp only [isDig, Bool.and_eq_true, decide_eq_true_eq] at h
  exact ⟨h.1, h.2⟩

/-- A digit character is none of the report's structural characters. -/
theorem isDig_ne (c : Char) (h : isDig c = true) (x : Char)
    (hx : x.toNat < 48 ∨ 57 < x.toNat) : c ≠ x := by
  obtain ⟨h1, h2⟩ := isDig_toNat c h
  intro he
  subst he
  omega

theorem natChsAux_acc : ∀ fuel n acc, n < fuel →
    natChsAux fuel n acc = natChsAux fuel n [] ++ acc := by
  intro fuel
  induction fuel with
  | zero => intro n acc h; omega
  | succ fuel ih =>
    intro n acc h
    by_cases h10 : n < 10
    · simp [natChsAux, h10]
    · have hd : n / 10 < n := Nat.div_lt_self (by omega) (by norm_num)
      simp only [natChsAux, if_neg h10]
      rw [ih (n / 10) _ (by omega), ih (n / 10) [digCh (n % 10)] (by omega)]
      simp

theorem natChsAux_fuel : ∀ f1 f2 n, n < f1 → n < f2 →
    natChsAux f1 n [] = natChsAux f2 n [] := by
  intro f1
  induction f1 with
  | zero => intro f2 n h; omega
  | succ f1 ih =>
    intro f2 n h1 h2
    cases f2 with
    | zero => omega
    | succ f2 =>
      by_cases h10 : n < 10
      · simp [natChsAux, h10]
      · have hd : n / 10 < n := Nat.div_lt_self (by omega) (by norm_num)
        simp only [natChsAux, if_neg h10]
        rw [natChsAux_acc f1 _ _ (by omega), natChsAux_acc f2 _ _ (by omega),
          ih f2 (n / 10) (by omega) (by omega)]

theorem natChs_small (n : ℕ) (h : n < 10) : natChs n = [digCh n] := by
  simp [natChs, natChsAux, h]

theorem natChs_step (n : ℕ) (h : 10 ≤ n) :
    natChs n = natChs (n / 10) ++ [digCh (n % 10)] := by
  have hd : n / 10 < n := Nat.div_lt_self (by omega) (by norm_num)
  show natChsAux (n + 1) n [] = _
  simp only [natChsAux, if_neg (by omega : ¬ n < 10)]
  rw [natChsAux_acc n _ _ (by omega), natChsAux_fuel n (n / 10 + 1) (n / 10)
    (by omega) (by omega)]
  rfl

theorem natChs_ne_nil (n : ℕ) : natChs n ≠ [] := by
  by_cases h : n < 10
  · rw [natChs_small n h]; simp
  · rw [natChs_step n (by omega)]; simp

theorem natChs_all_dig_aux : ∀ fuel n, n < fuel →
    (natChs n).all isDig = true := by
  intro fuel
  induction fuel with
  | zero => intro n h; omega
  | succ fuel ih =>
    intro n h
    by_cases h10 : n < 10
    · rw [natChs_small n h10]
      simp [(digCh_spec n).2]
    · have hd : n / 10 < n := Nat.div_lt_self (by omega) (by norm_num)
      rw [natChs_step n (by omega)]
      simp [ih (n / 10) (by omega), (digCh_spec (n % 10)).2]

theorem natChs_all_dig (n : ℕ) : (natChs n).all isDig = true :=
  natChs_all_dig_aux (n + 1) n (by omega)

theorem fracChs_all_dig : ∀ k r, (fracChs k r).all isDig = true := by
  intro k
  induction k with
  | zero => intro r; rfl
  | succ k ih =>
    intro r
    simp [fracChs, ih (r / 10), (digCh_spec r).2]

theorem take1_cons (c : Char) (l : Str) : (c :: l).take 1 = [c] := rfl

theorem natChs_head_digit (m : ℕ) :
    ∃ d ds, natChs m = d :: ds ∧ isDig d = true := by
  cases h : natChs m with
  | nil => exact absurd h (natChs_ne_nil m)
  | cons d ds =>
    refine ⟨d, ds, rfl, ?_⟩
    have ha := natChs_all_dig m
    rw [h] at ha
    simp at ha
    exact ha.1

/-- Prepend `a` to the first line. -/
def prefixFst (a : Str) : List Str → List Str
  | [] => [a]
  | l :: ls => (a ++ l) :: ls

/-- Append `t` to the last line. -/
def appendLst (t : Str) : List Str → List Str
  | [] => [t]
  | [l] => [l ++ t]
  | l :: l2 :: ls => l :: appendLst t (l2 :: ls)

mutual

/-- The physical lines of `printJVal ind v`. -/
def pvLines : ℕ → JVal → List Str
  | _, .jnull => [S "null"]
  | _, .jbool true => [S "true"]
  | _, .jbool false => [S "false"]
  | _, .jint n => [intChs n]
  | _, .jfloat q => [floatChs q]
  | _, .jstr s => [printJStr s]
  | ind, .jarr l =>
    if l.isEmpty then [S "[]"]
    else S "[" :: (pvItems (ind + 1) l ++ [indentStr ind ++ [']']])
  | ind, .jobj l =>
    if l.isEmpty then [[Char.ofNat 123, Char.ofNat 125]]
    else [Char.ofNat 123] ::
      (pvEntries (ind + 1) l ++ [indentStr ind ++ [Char.ofNat 125]])

def pvItems : ℕ → List JVal → List Str
  | _, [] => []
  | ind, [x] => prefixFst (indentStr ind) (pvLines ind x)
  | ind, x :: y :: ys =>
    appendLst [','] (prefixFst (indentStr ind) (pvLines ind x)) ++
      pvItems ind (y :: ys)

def pvEntries : ℕ → List (Str × JVal) → List Str
  | _, [] => []
  | ind, [(k, v)] =>
    prefixFst (indentStr ind ++ printJStr k ++ [':', ' ']) (pvLines ind v)
  | ind, (k, v) :: f :: fs =>
    appendLst [','] (prefixFst (indentStr ind ++ printJStr k ++ [':', ' '])
      (pvLines ind v)) ++ pvEntries ind (f :: fs)

end

theorem prefixFst_ne_nil (a : Str) (ls : List Str) : prefixFst a ls ≠ [] := by
  cases ls <;> simp [prefixFst]

theorem appendLst_ne_nil (t : Str) (ls : List Str) : appendLst t ls ≠ [] := by
  match ls with
  | [] => simp [appendLst]
  | [l] => simp [appendLst]
  | l :: l2 :: ls2 => simp [appendLst]

theorem pvLines_ne_nil (ind : ℕ) (v : JVal) : pvLines ind v ≠ [] := by
  cases v with
  | jbool b => cases b <;> simp [pvLines]
  | jarr l =>
    by_cases hl : l.isEmpty <;> simp [pvLines, hl]
  | jobj l =>
    by_cases hl : l.isEmpty <;> simp [pvLines, hl]
  | _ => simp [pvLines]

theorem pvItems_ne_nil (ind : ℕ) (l : List JVal) (h : l ≠ []) :
    pvItems ind l ≠ [] := by
  match l with
  | [] => exact absurd rfl h
  | [x] => simp [pvItems, prefixFst_ne_nil]
  | x :: y :: ys => simp [pvItems, appendLst_ne_nil]

theorem pvEntries_ne_nil (ind : ℕ) (l : List (Str × JVal)) (h : l ≠ []) :
    pvEntries ind l ≠ [] := by
  match l with
  | [] => exact absurd rfl h
  | [(k, v)] => simp [pvEntries, prefixFst_ne_nil]
  | (k, v) :: f :: fs => simp [pvEntries, appendLst_ne_nil]

theorem joinNl_prefixFst (a : Str) (ls : List Str) (h : ls ≠ []) :
    joinNl (prefixFst a ls) = a ++ joinNl ls := by
  cases ls with
  | nil => exact absurd rfl h
  | cons l ls2 => simp [prefixFst, joinNl, List.append_assoc]

theorem joinNl_appendLst (t : Str) : ∀ ls : List Str, ls ≠ [] →
    joinNl (appendLst t ls) = joinNl ls ++ t := by
  intro ls
  induction ls with
  | nil => intro h; exact absurd rfl h
  | cons l ls2 ih =>
    intro _
    cases ls2 with
    | nil => simp [appendLst, joinNl]
    | cons l2 ls3 =>
      have ih2 := ih (by simp)
      rw [show appendLst t (l :: l2 :: ls3) = l :: appendLst t (l2 :: ls3)
        from rfl]
      cases hx : appendLst t (l2 :: ls3) with
      | nil => exact absurd hx (appendLst_ne_nil t (l2 :: ls3))
      | cons y ys =>
        rw [joinNl_cons2, joinNl_cons2, ← hx, ih2]
        simp

theorem joinNl_cons_ne (l : Str) (rest : List Str) (h : rest ≠ []) :
    joinNl (l :: rest) = l ++ '\n' :: joinNl rest := by
  cases rest with
  | nil => exact absurd rfl h
  | cons l2 ls => exact joinNl_cons2 l l2 ls

mutual

theorem printJVal_join : ∀ (ind : ℕ) (v : JVal),
    printJVal ind v = joinNl (pvLines ind v)
  | ind, .jnull => by simp [printJVal, pvLines, joinNl]
  | ind, .jbool true => by simp [printJVal, pvLines, joinNl]
  | ind, .jbool false => by simp [printJVal, pvLines, joinNl]
  | ind, .jint n => by simp [printJVal, pvLines, joinNl]
  | ind, .jfloat q => by simp [printJVal, pvLines, joinNl]
  | ind, .jstr s => by simp [printJVal, pvLines, joinNl]
  | ind, .jarr l => by
    by_cases hl : l.isEmpty
    · simp [printJVal, pvLines, hl, joinNl]
    · have hlne : l ≠ [] := by
        cases l
        · simp at hl
        · simp
      rw [show printJVal ind (.jarr l) = '[' :: '\n' ::
          (printJItems (ind + 1) l ++ '\n' :: (indentStr ind ++ [']'])) from by
        simp [printJVal, hl]]
      rw [show pvLines ind (.jarr l) = S "[" ::
          (pvItems (ind + 1) l ++ [indentStr ind ++ [']']]) from by
        simp [pvLines, hl]]
      rw [joinNl_cons_ne _ _ (by simp [pvItems_ne_nil (ind + 1) l hlne])]
      rw [joinNl_append _ _ (pvItems_ne_nil (ind + 1) l hlne) (by simp)]
      rw [printJItems_join (ind + 1) l hlne]
      simp [joinNl, S]
  | ind, .jobj l => by
    by_cases hl : l.isEmpty
    · simp [printJVal, pvLines, hl, joinNl]
    · have hlne : l ≠ [] := by
        cases l
        · simp at hl
        · simp
      rw [show printJVal ind (.jobj l) = Char.ofNat 123 :: '\n' ::
          (printJEntries (ind + 1) l ++ '\n' ::
            (indentStr ind ++ [Char.ofNat 125])) from by
        simp [printJVal, hl]]
      rw [show pvLines ind (.jobj l) = [Char.ofNat 123] ::
          (pvEntries (ind + 1) l ++ [indentStr ind ++ [Char.ofNat 125]]) from by
        simp [pvLines, hl]]
      rw [joinNl_cons_ne _ _ (by simp [pvEntries_ne_nil (ind + 1) l hlne])]
      rw [joinNl_append _ _ (pvEntries_ne_nil (ind + 1) l hlne) (by simp)]
      rw [printJEntries_join (ind + 1) l hlne]
      simp [joinNl]

theorem printJItems_join : ∀ (ind : ℕ) (l : List JVal), l ≠ [] →
    printJItems ind l = joinNl (pvItems ind l)
  | _, [], h => absurd rfl h
  | ind, [x], _ => by
    rw [show printJItems ind [x] = indentStr ind ++ printJVal ind x from by
      simp [printJItems]]
    rw [show pvItems ind [x] = prefixFst (indentStr ind) (pvLines ind x)
      from by simp [pvItems]]
    rw [joinNl_prefixFst _ _ (pvLines_ne_nil ind x), printJVal_join ind x]
  | ind, x :: y :: ys, _ => by
    have ihrest := printJItems_join ind (y :: ys) (by simp)
    rw [show printJItems ind (x :: y :: ys) = indentStr ind ++
        printJVal ind x ++ ',' :: '\n' :: printJItems ind (y :: ys) from by
      simp [printJItems]]
    rw [show pvItems ind (x :: y :: ys) = appendLst [',']
        (prefixFst (indentStr ind) (pvLines ind x)) ++ pvItems ind (y :: ys)
      from by simp [pvItems]]
    rw [joinNl_append _ _ (appendLst_ne_nil _ _)
      (pvItems_ne_nil ind (y :: ys) (by simp))]
    rw [joinNl_appendLst _ _ (prefixFst_ne_nil _ _),
      joinNl_prefixFst _ _ (pvLines_ne_nil ind x)]
    rw [printJVal_join ind x, ihrest]
    simp [List.append_assoc]

theorem printJEntries_join : ∀ (ind : ℕ) (l : List (Str × JVal)), l ≠ [] →
    printJEntries ind l = joinNl (pvEntries ind l)
  | _, [], h => absurd rfl h
  | ind, [(k, v)], _ => by
    rw [show printJEntries ind [(k, v)] = indentStr ind ++ printJStr k ++
        ':' :: ' ' :: printJVal ind v from by simp [printJEntries]]
    rw [show pvEntries ind [(k, v)] = prefixFst (indentStr ind ++
        printJStr k ++ [':', ' ']) (pvLines ind v) from by simp [pvEntries]]
    rw [joinNl_prefixFst _ _ (pvLines_ne_nil ind v), printJVal_join ind v]
    simp [List.append_assoc]
  | ind, (k, v) :: f :: fs, _ => by
    have ihrest := printJEntries_join ind (f :: fs) (by simp)
    rw [show printJEntries ind ((k, v) :: f :: fs) = indentStr ind ++
        printJStr k ++ ':' :: ' ' :: printJVal ind v ++ ',' :: '\n' ::
        printJEntries ind (f :: fs) from by simp [printJEntries]]
    rw [show pvEntries ind ((k, v) :: f :: fs) = appendLst [',']
        (prefixFst (indentStr ind ++ printJStr k ++ [':', ' '])
          (pvLines ind v)) ++ pvEntries ind (f :: fs) from by
      simp [pvEntries]]
    rw [joinNl_append _ _ (appendLst_ne_nil _ _)
      (pvEntries_ne_nil ind (f :: fs) (by simp))]
    rw [joinNl_appendLst _ _ (prefixFst_ne_nil _ _),
      joinNl_prefixFst _ _ (pvLines_ne_nil ind v)]
    rw [printJVal_join ind v, ihrest]
    simp [List.append_assoc]

end

/-! ### Claim C1 — every printed line is fence-safe -/

/-- One honest report line: no newline, and not starting with a backtick. -/
def lineOk (l : Str) : Bool := nlFree l && decide (l.take 1 ≠ ['`'])

def linesOk (ls : List Str) : Bool := ls.all lineOk

theorem nlFree_append (a b : Str) (ha : nlFree a = true) (hb : nlFree b = true) :
    nlFree (a ++ b) = true := by
  simp only [nlFree, List.all_append, Bool.and_eq_true]
  exact ⟨ha, hb⟩

theorem nlFree_of_all_dig (ds : Str) (h : ds.all isDig = true) :
    nlFree ds = true := by
  simp only [nlFree, List.all_eq_true, decide_eq_true_eq]
  intro c hc
  simp only [List.all_eq_true] at h
  exact isDig_ne c (h c hc) '\n' (by left; decide)

theorem nlFree_natChs (n : ℕ) : nlFree (natChs n) = true :=
  nlFree_of_all_dig _ (natChs_all_dig n)

theorem nlFree_intChs (n : ℤ) : nlFree (intChs n) = true := by
  by_cases hn : n < 0
  · simp only [intChs, if_pos hn]
    exact nlFree_append ['-'] _ (by decide) (nlFree_natChs n.natAbs)
  · simp only [intChs, if_neg hn]
    exact nlFree_natChs n.natAbs

theorem nlFree_fracChs (k r : ℕ) : nlFree (fracChs k r) = true :=
  nlFree_of_all_dig _ (fracChs_all_dig k r)

theorem nlFree_floatChs (q : ℚ) : nlFree (floatChs q) = true := by
  rw [floatChs]
  cases hsp : decSplit 1200 q with
  | none =>
    show nlFree (S "0.0") = true
    decide
  | some p =>
    refine nlFree_append _ _ (nlFree_append _ _ ?_ (nlFree_natChs _)) ?_
    · by_cases hq : q < 0 <;> simp [hq, nlFree]
    · refine nlFree_append ['.'] _ (by decide) ?_
      show nlFree (if p.1 = 0 then [digCh 0]
        else fracChs p.1 (p.2.num.natAbs % 10 ^ p.1)) = true
      by_cases hk : p.1 = 0
      · simp only [if_pos hk]
        exact nlFree_of_all_dig _ (by simp [(digCh_spec 0).2])
      · simp only [if_neg hk]
        exact nlFree_fracChs _ _

theorem hexCh_ne_nl (d : ℕ) (h : d < 16) : hexCh d ≠ '\n' := by
  have hc : d = 0 ∨ d = 1 ∨ d = 2 ∨ d = 3 ∨ d = 4 ∨ d = 5 ∨ d = 6 ∨ d = 7 ∨
      d = 8 ∨ d = 9 ∨ d = 10 ∨ d = 11 ∨ d = 12 ∨ d = 13 ∨ d = 14 ∨ d = 15 := by
    omega
  rcases hc with h|h|h|h|h|h|h|h|h|h|h|h|h|h|h|h <;> subst h <;> decide

theorem escCh_nlFree (c : Char) : nlFree (escCh c) = true := by
  by_cases h1 : c = '"'
  · subst h1; decide
  · by_cases h2 : c = '\\'
    · subst h2; decide
    · by_cases h3 : c = '\x08'
      · subst h3; decide
      · by_cases h4 : c = '\x0c'
        · subst h4; decide
        · by_cases h5 : c = '\n'
          · subst h5; decide
          · by_cases h6 : c = '\r'
            · subst h6; decide
            · by_cases h7 : c = '\t'
              · subst h7; decide
              · by_cases h8 : c.toNat < 32
                · rw [show escCh c = ['\\', 'u', '0', '0',
                      hexCh (c.toNat / 16), hexCh (c.toNat % 16)] from by
                    simp [escCh, h1, h2, h3, h4, h5, h6, h7, h8]]
                  simp only [nlFree, List.all_cons, List.all_nil,
                    Bool.and_eq_true, decide_eq_true_eq]
                  refine ⟨by decide, by decide, by decide, by decide,
                    hexCh_ne_nl _ (by omega), hexCh_ne_nl _ (by omega), trivial⟩
                · rw [show escCh c = [c] from by
                    simp [escCh, h1, h2, h3, h4, h5, h6, h7, h8]]
                  simp only [nlFree, List.all_cons, List.all_nil,
                    Bool.and_eq_true, decide_eq_true_eq]
                  refine ⟨?_, trivial⟩
                  intro he
                  subst he
                  exact h8 (by decide)

theorem nlFree_escFlatten (s : Str) :
    nlFree ((s.map escCh).flatten) = true := by
  induction s with
  | nil => decide
  | cons c cs ih =>
    simp only [List.map_cons, List.flatten_cons]
    exact nlFree_append _ _ (escCh_nlFree c) ih

theorem nlFree_printJStr (s : Str) : nlFree (printJStr s) = true := by
  rw [printJStr]
  refine nlFree_append ['"'] _ (by decide) (nlFree_append _ _
    (nlFree_escFlatten s) (by decide))

theorem take1_append (a b : Str) :
    (a ++ b).take 1 = if a.isEmpty then b.take 1 else a.take 1 := by
  cases a with
  | nil => simp
  | cons c a2 => simp [take1_cons]

theorem lineOk_prepend (a l : Str) (ha : nlFree a = true)
    (hA : ¬ a.take 1 = ['`']) (hl : lineOk l = true) :
    lineOk (a ++ l) = true := by
  simp only [lineOk, Bool.and_eq_true, decide_eq_true_eq] at hl ⊢
  refine ⟨nlFree_append a l ha hl.1, ?_⟩
  rw [take1_append]
  cases a with
  | nil => simpa using hl.2
  | cons c a2 => simpa using hA

theorem lineOk_appendT (l t : Str) (hl : lineOk l = true)
    (ht : nlFree t = true) (hT : ¬ t.take 1 = ['`']) :
    lineOk (l ++ t) = true := by
  simp only [lineOk, Bool.and_eq_true, decide_eq_true_eq] at hl ⊢
  refine ⟨nlFree_append l t hl.1 ht, ?_⟩
  rw [take1_append]
  cases l with
  | nil => simpa using hT
  | cons c l2 => simpa using hl.2

theorem linesOk_append (as bs : List Str) (ha : linesOk as = true)
    (hb : linesOk bs = true) : linesOk (as ++ bs) = true := by
  simp only [linesOk, List.all_append, Bool.and_eq_true]
  exact ⟨ha, hb⟩

theorem linesOk_prefixFst (a : Str) (ls : List Str) (ha : nlFree a = true)
    (hA : ¬ a.take 1 = ['`']) (h : linesOk ls = true) :
    linesOk (prefixFst a ls) = true := by
  cases ls with
  | nil =>
    simp only [prefixFst, linesOk, List.all_cons, List.all_nil, Bool.and_true]
    have hemp : lineOk ([] : Str) = true := by decide
    have hx := lineOk_prepend a [] ha hA hemp
    simpa using hx
  | cons l ls2 =>
    simp only [prefixFst, linesOk, List.all_cons, Bool.and_eq_true] at h ⊢
    exact ⟨lineOk_prepend a l ha hA h.1, h.2⟩

theorem linesOk_appendLst : ∀ (ls : List Str), linesOk ls = true →
    linesOk (appendLst [','] ls) = true := by
  intro ls
  induction ls with
  | nil => intro _; decide
  | cons l ls2 ih =>
    intro h
    simp only [linesOk, List.all_cons, Bool.and_eq_true] at h
    cases ls2 with
    | nil =>
      simp only [appendLst, linesOk, List.all_cons, List.all_nil,
        Bool.and_true]
      exact lineOk_appendT l [','] h.1 (by decide) (by decide)
    | cons l2 ls3 =>
      rw [show appendLst [','] (l :: l2 :: ls3) =
        l :: appendLst [','] (l2 :: ls3) from rfl]
      simp only [linesOk, List.all_cons, Bool.and_eq_true]
      refine ⟨h.1, ?_⟩
      have hres := ih (by simpa [linesOk] using h.2)
      simpa [linesOk] using hres

theorem indentStr_nlFree (ind : ℕ) : nlFree (indentStr ind) = true := by
  simp only [indentStr, nlFree, List.all_eq_true, decide_eq_true_eq]
  intro c hc
  have hce := List.eq_of_mem_replicate hc
  subst hce
  decide

theorem replicate_take1 (n : ℕ) : ¬ (List.replicate n ' ').take 1 = ['`'] := by
  cases n with
  | zero => simp
  | succ m => simp [List.replicate_succ, take1_cons]

theorem indentStr_take1 (ind : ℕ) : ¬ (indentStr ind).take 1 = ['`'] := by
  rw [indentStr]
  exact replicate_take1 (2 * ind)

theorem lineOk_intChs (n : ℤ) : lineOk (intChs n) = true := by
  simp only [lineOk, Bool.and_eq_true, decide_eq_true_eq]
  refine ⟨nlFree_intChs n, ?_⟩
  by_cases hn : n < 0
  · simp [intChs, hn, take1_cons]
  · simp only [intChs, if_neg hn]
    obtain ⟨d, ds, hds, hdig⟩ := natChs_head_digit n.natAbs
    rw [hds, take1_cons]
    simp [isDig_ne d hdig '`' (by right; decide)]

theorem lineOk_floatChs (q : ℚ) : lineOk (floatChs q) = true := by
  simp only [lineOk, Bool.and_eq_true, decide_eq_true_eq]
  refine ⟨nlFree_floatChs q, ?_⟩
  rw [floatChs]
  cases hsp : decSplit 1200 q with
  | none =>
    show ¬ (S "0.0").take 1 = ['`']
    decide
  | some p =>
    by_cases hq : q < 0
    · simp [hq, take1_append]
    · simp only [if_neg hq, List.nil_append]
      obtain ⟨d, ds, hds, hdig⟩ := natChs_head_digit (p.2.num.natAbs / 10 ^ p.1)
      rw [hds, List.cons_append, take1_cons]
      simp [isDig_ne d hdig '`' (by right; decide)]

theorem lineOk_printJStr (s : Str) : lineOk (printJStr s) = true := by
  simp only [lineOk, Bool.and_eq_true, decide_eq_true_eq]
  refine ⟨nlFree_printJStr s, ?_⟩
  rw [printJStr, List.cons_append, take1_cons]
  simp

theorem printJStr_ne_nil (s : Str) : (printJStr s).isEmpty = false := by
  rw [printJStr, List.cons_append]
  rfl

theorem entryPrefix_nlFree (ind : ℕ) (k : Str) :
    nlFree ((indentStr ind ++ printJStr k) ++ [':', ' ']) = true :=
  nlFree_append _ _ (nlFree_append _ _ (indentStr_nlFree ind)
    (nlFree_printJStr k)) (by decide)

theorem entryPrefix_take1 (ind : ℕ) (k : Str) :
    ¬ ((indentStr ind ++ printJStr k) ++ [':', ' ']).take 1 = ['`'] := by
  rw [take1_append]
  have hpe : (printJStr k).isEmpty = false := printJStr_ne_nil k
  have hne : (indentStr ind ++ printJStr k).isEmpty = false := by
    cases hi : indentStr ind with
    | nil => simpa using hpe
    | cons c cs => rfl
  rw [hne]
  simp only [Bool.false_eq_true, if_false]
  rw [take1_append]
  cases hi : (indentStr ind).isEmpty with
  | true =>
    simp only [if_true]
    rw [printJStr, List.cons_append, take1_cons]
    simp
  | false =>
    simp only [Bool.false_eq_true, if_false]
    have := indentStr_take1 ind
    exact this

mutual

theorem pvLines_ok : ∀ (ind : ℕ) (v : JVal), linesOk (pvLines ind v) = true
  | ind, .jnull => by
    rw [show pvLines ind .jnull = [S "null"] from by simp [pvLines]]
    decide
  | ind, .jbool true => by
    rw [show pvLines ind (.jbool true) = [S "true"] from by simp [pvLines]]
    decide
  | ind, .jbool false => by
    rw [show pvLines ind (.jbool false) = [S "false"] from by simp [pvLines]]
    decide
  | ind, .jint n => by
    rw [show pvLines ind (.jint n) = [intChs n] from by simp [pvLines]]
    simp [linesOk, lineOk_intChs n]
  | ind, .jfloat q => by
    rw [show pvLines ind (.jfloat q) = [floatChs q] from by simp [pvLines]]
    simp [linesOk, lineOk_floatChs q]
  | ind, .jstr s => by
    rw [show pvLines ind (.jstr s) = [printJStr s] from by simp [pvLines]]
    simp [linesOk, lineOk_printJStr s]
  | ind, .jarr l => by
    by_cases hl : l.isEmpty
    · rw [show pvLines ind (.jarr l) = [S "[]"] from by simp [pvLines, hl]]
      decide
    · rw [show pvLines ind (.jarr l) = S "[" ::
        (pvItems (ind + 1) l ++ [indentStr ind ++ [']']]) from by
          simp [pvLines, hl]]
      simp only [linesOk, List.all_cons, Bool.and_eq_true]
      refine ⟨by decide, ?_⟩
      have h1 := pvItems_ok (ind + 1) l
      have h2 : lineOk (indentStr ind ++ [']']) = true :=
        lineOk_prepend _ _ (indentStr_nlFree ind) (indentStr_take1 ind)
          (by decide)
      have h3 := linesOk_append _ [indentStr ind ++ [']']] h1
        (by simp [linesOk, h2])
      simpa [linesOk] using h3
  | ind, .jobj l => by
    by_cases hl : l.isEmpty
    · rw [show pvLines ind (.jobj l) = [[Char.ofNat 123, Char.ofNat 125]]
        from by simp [pvLines, hl]]
      decide
    · rw [show pvLines ind (.jobj l) = [Char.ofNat 123] ::
        (pvEntries (ind + 1) l ++ [indentStr ind ++ [Char.ofNat 125]]) from by
          simp [pvLines, hl]]
      simp only [linesOk, List.all_cons, Bool.and_eq_true]
      refine ⟨by decide, ?_⟩
      have h1 := pvEntries_ok (ind + 1) l
      have h2 : lineOk (indentStr ind ++ [Char.ofNat 125]) = true :=
        lineOk_prepend _ _ (indentStr_nlFree ind) (indentStr_take1 ind)
          (by decide)
      have h3 := linesOk_append _ [indentStr ind ++ [Char.ofNat 125]] h1
        (by simp [linesOk, h2])
      simpa [linesOk] using h3

theorem pvItems_ok : ∀ (ind : ℕ) (l : List JVal),
    linesOk (pvItems ind l) = true
  | ind, [] => by
    rw [show pvItems ind [] = [] from by simp [pvItems]]
    decide
  | ind, [x] => by
    rw [show pvItems ind [x] = prefixFst (indentStr ind) (pvLines ind x)
      from by simp [pvItems]]
    exact linesOk_prefixFst _ _ (indentStr_nlFree ind) (indentStr_take1 ind)
      (pvLines_ok ind x)
  | ind, x :: y :: ys => by
    rw [show pvItems ind (x :: y :: ys) = appendLst [',']
        (prefixFst (indentStr ind) (pvLines ind x)) ++ pvItems ind (y :: ys)
      from by simp [pvItems]]
    exact linesOk_append _ _ (linesOk_appendLst _ (linesOk_prefixFst _ _
      (indentStr_nlFree ind) (indentStr_take1 ind) (pvLines_ok ind x)))
      (pvItems_ok ind (y :: ys))

theorem pvEntries_ok : ∀ (ind : ℕ) (l : List (Str × JVal)),
    linesOk (pvEntries ind l) = true
  | ind, [] => by
    rw [show pvEntries ind [] = [] from by simp [pvEntries]]
    decide
  | ind, [(k, v)] => by
    rw [show pvEntries ind [(k, v)] = prefixFst ((indentStr ind ++
        printJStr k) ++ [':', ' ']) (pvLines ind v) from by simp [pvEntries]]
    exact linesOk_prefixFst _ _ (entryPrefix_nlFree ind k)
      (entryPrefix_take1 ind k) (pvLines_ok ind v)
  | ind, (k, v) :: f :: fs => by
    rw [show pvEntries ind ((k, v) :: f :: fs) = appendLst [',']
        (prefixFst ((indentStr ind ++ printJStr k) ++ [':', ' '])
          (pvLines ind v)) ++ pvEntries ind (f :: fs) from by simp [pvEntries]]
    exact linesOk_append _ _ (linesOk_appendLst _ (linesOk_prefixFst _ _
      (entryPrefix_nlFree ind k) (entryPrefix_take1 ind k)
      (pvLines_ok ind v))) (pvEntries_ok ind (f :: fs))

end

/-! ### Claim C1 — parser round-trip prerequisites -/

theorem skipJWs_idem : ∀ s : Str, skipJWs (skipJWs s) = skipJWs s := by
  intro s
  induction s with
  | nil => rfl
  | cons c cs ih =>
    by_cases h : jsonWsCh c = true
    · simp [skipJWs, h, ih]
    · simp [skipJWs, h]

theorem numBoundary_nl (x : Str) : numBoundary ('\n' :: x) = true := by
  simp [numBoundary, isDig]

theorem numBoundary_comma (x : Str) : numBoundary (',' :: x) = true := by
  simp [numBoundary, isDig]

theorem jsizeL_pos (l : List JVal) (h : l ≠ []) : 1 ≤ jsizeL l := by
  cases l with
  | nil => exact absurd rfl h
  | cons x xs => simp [jsizeL]

theorem jsizeO_pos (l : List (Str × JVal)) (h : l ≠ []) : 1 ≤ jsizeO l := by
  cases l with
  | nil => exact absurd rfl h
  | cons e es =>
    obtain ⟨k, v⟩ := e
    simp [jsizeO]

mutual

theorem jsize_le_print : ∀ (ind : ℕ) (v : JVal),
    jsize v ≤ (printJVal ind v).length
  | ind, .jnull => by simp [jsize, printJVal, S]
  | ind, .jbool true => by simp [jsize, printJVal, S]
  | ind, .jbool false => by simp [jsize, printJVal, S]
  | ind, .jint n => by
    have h := List.length_pos.mpr (natChs_ne_nil n.natAbs)
    simp only [jsize, printJVal, intChs]
    split
    · simp only [List.length_cons]
      omega
    · omega
  | ind, .jfloat q => by
    have h1 : 1 ≤ (floatChs q).length := by
      cases hd : decSplit 1200 q with
      | none =>
        simp only [floatChs, hd]
        decide
      | some p =>
        obtain ⟨k, r⟩ := p
        have h := List.length_pos.mpr (natChs_ne_nil (r.num.natAbs / 10 ^ k))
        simp only [floatChs, hd, List.length_append, List.length_cons]
        omega
    simp only [jsize, printJVal]
    exact h1
  | ind, .jstr s => by
    simp [jsize, printJVal, printJStr]
  | ind, .jarr l => by
    by_cases hl : l.isEmpty
    · have hnil : l = [] := List.isEmpty_iff.mp hl
      subst hnil
      simp [jsize, jsizeL, printJVal, S]
    · have h := jsizeL_le_print (ind + 1) l
      simp only [jsize, printJVal, hl, Bool.false_eq_true, if_false]
      simp only [List.length_cons, List.length_append]
      omega
  | ind, .jobj l => by
    by_cases hl : l.isEmpty
    · have hnil : l = [] := List.isEmpty_iff.mp hl
      subst hnil
      simp [jsize, jsizeO, printJVal]
    · have h := jsizeO_le_print (ind + 1) l
      simp only [jsize, printJVal, hl, Bool.false_eq_true, if_false]
      simp only [List.length_cons, List.length_append]
      omega

theorem jsizeL_le_print : ∀ (ind : ℕ) (l : List JVal),
    jsizeL l ≤ (printJItems ind l).length + 1
  | _, [] => by simp [jsizeL, printJItems]
  | ind, [x] => by
    have h := jsize_le_print ind x
    simp only [jsizeL, printJItems, List.length_append]
    omega
  | ind, x :: y :: ys => by
    have h1 := jsize_le_print ind x
    have h2 := jsizeL_le_print ind (y :: ys)
    simp only [jsizeL] at h2 ⊢
    simp only [printJItems, List.length_append, List.length_cons]
    omega

theorem jsizeO_le_print : ∀ (ind : ℕ) (l : List (Str × JVal)),
    jsizeO l ≤ (printJEntries ind l).length + 1
  | _, [] => by simp [jsizeO, printJEntries]
  | ind, [(k, v)] => by
    have h := jsize_le_print ind v
    simp only [jsizeO, printJEntries, List.length_append, List.length_cons]
    omega
  | ind, (k, v) :: f :: fs => by
    have h1 := jsize_le_print ind v
    have h2 := jsizeO_le_print ind (f :: fs)
    simp only [jsizeO] at h2 ⊢
    simp only [printJEntries, List.length_append, List.length_cons]
    omega

end

end WebinarProc
